import Mathlib

/-!
# The SEOS event kernel (firmware/src/seos.c)

A shallow embedding of the task table, the subscription store, the deferred
action records, the internal event handler, the producer entry points, the
main dispatch loop and the task bring-up of `seos.c`, followed by theorems
about them.

Conventions of the embedding

* C pointers are natural numbers or small tagged values (`EvtPtr`,
  `EventFreeF`); `uint16_t` and `uint32_t` arithmetic carries an explicit
  `% 65536` / `% 4294967296` where the C code can wrap.
* Every call that leaves `seos.c` (CPU collaborator, heap, callbacks, free
  hooks) is appended to `State.trace`, oldest call first, with its arguments
  and, where the kernel branches on it, its return value.
* Return values the kernel cannot compute (heap allocation, application load
  and init) are read from answer lists carried in the state.
-/

namespace Seos

/-! ## Constants -/

/-- Constants that `seos.c` takes from headers (`seos.h`, the application
header layout): they are parameters of the development. -/
structure Consts where
  MAX_TASKS : Nat
  MAX_EMBEDDED_EVT_SUBS : Nat
  EVT_NO_FIRST_USER_EVENT : Nat
  EVT_APP_START : Nat
  APP_HDR_MAGIC : List Nat
  APP_HDR_VER_CUR : Nat
  APP_HDR_MARKER_INTERNAL : Nat
  APP_HDR_MARKER_VALID : Nat
  sizeofAppHdr : Nat
  deriving Repr

def EVT_SUBSCRIBE_TO_EVT : Nat := 0
def EVT_UNSUBSCRIBE_TO_EVT : Nat := 1
def EVT_DEFERRED_CALLBACK : Nat := 2
def EVT_PRIVATE_EVT : Nat := 3

/-- Range of `uint16_t`. -/
def U16 : Nat := 65536

/-- Range of `uint32_t` and of `uintptr_t` on the 32-bit target. -/
def U32 : Nat := 4294967296

/-! ## Data model -/

/-- Value of `Task.subbedEvents`: `NULL`, the address of the inline array
`mTasks[slot].subbedEventsInt`, or the address of a heap chunk. -/
inductive EvtPtr where
  | null
  | embedded (slot : Nat)
  | heap (chunk : Nat)
  deriving DecidableEq, Repr

/-- Value of an `EventFreeF` function pointer: `NULL`, the kernel's own
`osDeferredActionFreeF`, or a function living outside `seos.c`. -/
inductive EventFreeF where
  | null
  | osDeferredActionFreeF
  | fn (addr : Nat)
  deriving DecidableEq, Repr

/-- One element of `struct Task mTasks[]`. `appHdr` is the address of the
application header; `platInfo` stands for the per-platform record, which the
kernel never reads and only passes by address. -/
structure Task where
  tid : Nat
  subbedEvtCount : Nat
  subbedEvtListSz : Nat
  subbedEvents : EvtPtr
  appHdr : Nat
  platInfo : Nat
  subbedEventsInt : List Nat
  deriving DecidableEq, Repr

instance : Inhabited Task := ⟨⟨0, 0, 0, .null, 0, 0, []⟩⟩

/-- A task slot after `memset(mTasks, 0, sizeof(mTasks))`. -/
def Task.zero (c : Consts) : Task :=
  ⟨0, 0, 0, .null, 0, 0, List.replicate c.MAX_EMBEDDED_EVT_SUBS 0⟩

/-- View `evtSub` of `union DeferredAction`. -/
structure EvtSub where
  tid : Nat
  evt : Nat
  deriving DecidableEq, Repr

/-- View `deferred` of `union DeferredAction`. -/
structure Deferred where
  callback : Nat
  cookie : Nat
  deriving DecidableEq, Repr

/-- View `privateEvt` of `union DeferredAction`. -/
structure PrivateEvt where
  evtType : Nat
  evtData : Nat
  evtFreeF : EventFreeF
  toTid : Nat
  deriving DecidableEq, Repr

/-- The record `union DeferredAction`, kept as its three views side by side.
Every producer writes one view and tags the event with the type under which
the handler reads that same view, so for the events the producers make the
overlap of the views in memory is never observed. The model does not follow
a read through a view other than the one last written. -/
structure DeferredAction where
  evtSub : EvtSub
  deferred : Deferred
  privateEvt : PrivateEvt
  deriving DecidableEq, Repr

instance : Inhabited DeferredAction := ⟨⟨⟨0, 0⟩, ⟨0, 0⟩, ⟨0, 0, .null, 0⟩⟩⟩

/-- An entry of an event queue. -/
structure Event where
  evtType : Nat
  evtData : Nat
  evtFreeF : EventFreeF
  deriving DecidableEq, Repr

/-- Calls that leave `seos.c`. `slot` is the index of the task slot whose
`platInfo` is passed by address. -/
inductive Call where
  | cpuInternalAppLoad (appHdr slot : Nat) (ret : Bool)
  | cpuAppLoad (appHdr slot : Nat) (ret : Bool)
  | cpuAppInit (appHdr slot tid : Nat) (ret : Bool)
  | cpuAppUnload (appHdr slot : Nat)
  | cpuAppHandle (appHdr slot evtType evtData : Nat)
  | deferredCallback (callback cookie : Nat)
  | evtFree (f : EventFreeF) (evtData : Nat)
  | heapAlloc (bytes : Nat) (ret : Option Nat)
  | heapFree (p : EvtPtr)
  deriving DecidableEq, Repr

/-! ## Collaborators: event queue, slab, heap -/

/-- Modelled from the spec: the event queue of `eventQ.c` is missing; the
spec calls it a bounded FIFO whose enqueue fails when full. -/
structure EvtQueue where
  size : Nat
  evts : List Event
  deriving DecidableEq, Repr

/-- Modelled from the spec: `evtQueueAlloc(size)` of `eventQ.c`, an empty
queue of the given capacity. -/
def evtQueueAlloc (size : Nat) : EvtQueue := ⟨size, []⟩

/-- Modelled from the spec: `evtQueueEnqueue` of `eventQ.c`; on a full queue
it returns false, keeps the queue and does not call the free hook. -/
def evtQueueEnqueue (q : EvtQueue) (evtType evtData : Nat) (evtFreeF : EventFreeF) :
    Bool × EvtQueue :=
  if q.evts.length < q.size then (true, { q with evts := q.evts ++ [⟨evtType, evtData, evtFreeF⟩] })
  else (false, q)

/-- Modelled from the spec: `evtQueueDequeue` of `eventQ.c`; the oldest event
first, nothing when the queue is empty. -/
def evtQueueDequeue (q : EvtQueue) : Option (Event × EvtQueue) :=
  match q.evts with
  | [] => none
  | e :: rest => some (e, { q with evts := rest })

/-- Modelled from the spec: the slab of `slab.c` is missing; the spec calls
it a fixed-count pool of uniform records with `alloc` and `free`. Record `p`
is in use when `used[p]` holds; `items[p]` is its memory. -/
structure SlabAllocator where
  used : List Bool
  items : List DeferredAction
  deriving DecidableEq, Repr

/-- Modelled from the spec: `slabAllocatorNew(_, _, numItems)` of `slab.c`. -/
def slabAllocatorNew (numItems : Nat) : SlabAllocator :=
  ⟨List.replicate numItems false, List.replicate numItems default⟩

/-- Index of the first free record. -/
def firstFree : List Bool → Option Nat
  | [] => none
  | false :: _ => some 0
  | true :: rest => (firstFree rest).map (· + 1)

/-- Modelled from the spec: `slabAllocatorAlloc` of `slab.c`; a free record
is marked used and returned, `NULL` when there is none. -/
def slabAllocatorAlloc (s : SlabAllocator) : Option Nat × SlabAllocator :=
  match firstFree s.used with
  | none => (none, s)
  | some p => (some p, { s with used := s.used.set p true })

/-- Modelled from the spec: `slabAllocatorFree` of `slab.c`. -/
def slabAllocatorFree (s : SlabAllocator) (p : Nat) : SlabAllocator :=
  { s with used := s.used.set p false }

/-- Number of records handed out and not yet freed. -/
def SlabAllocator.outstanding (s : SlabAllocator) : Nat := s.used.count true

/-- Read `*(union DeferredAction* )p`. An address outside the slab reads as
the zero record. -/
def SlabAllocator.deref (s : SlabAllocator) (p : Nat) : DeferredAction :=
  s.items.getD p default

/-- Write the record at address `p`. -/
def SlabAllocator.store (s : SlabAllocator) (p : Nat) (da : DeferredAction) : SlabAllocator :=
  { s with items := s.items.set p da }

/-- Modelled from the spec: the heap of `heap.c` is missing. `chunks[a]` is
the content, in 32-bit words, of the chunk at address `a` (nothing once it is
freed); `avail` lists the answers of the coming `heapAlloc` calls, true for a
chunk and false for `NULL`, and an exhausted list answers `NULL`. -/
structure Heap where
  chunks : List (Option (List Nat))
  avail : List Bool
  deriving DecidableEq, Repr

/-- Modelled from the spec: `heapAlloc(bytes)` of `heap.c`. -/
def heapAlloc (h : Heap) (bytes : Nat) : Option Nat × Heap :=
  match h.avail with
  | [] => (none, h)
  | false :: rest => (none, { h with avail := rest })
  | true :: rest =>
    (some h.chunks.length,
      { chunks := h.chunks ++ [some (List.replicate (bytes / 4) 0)], avail := rest })

/-- Modelled from the spec: `heapFree(p)` of `heap.c`; only a heap chunk is
released, any other pointer leaves the heap as it is. -/
def heapFree (h : Heap) (p : EvtPtr) : Heap :=
  match p with
  | .heap a => { h with chunks := h.chunks.set a none }
  | _ => h

/-- Answers of the CPU collaborator to the coming load and init calls; an
exhausted list answers false. -/
structure CpuAnswers where
  load : List Bool
  init : List Bool
  deriving DecidableEq, Repr

/-! ## Kernel state -/

/-- The file-scope variables of `seos.c`, the heap, the collaborator's
answers and the trace of outgoing calls. -/
structure State where
  mEvtsInternal : EvtQueue
  mEvtsExternal : EvtQueue
  mDeferedActionsSlab : SlabAllocator
  mTasks : List Task
  mNextTid : Nat
  heap : Heap
  cpu : CpuAnswers
  trace : List Call
  deriving DecidableEq, Repr

/-- Record an outgoing call. -/
def State.call (st : State) (cl : Call) : State :=
  { st with trace := st.trace ++ [cl] }

/-- The slot `mTasks[k]`. -/
def State.task (st : State) (k : Nat) : Task := st.mTasks.getD k default

/-- Assign the slot `mTasks[k]`. -/
def State.setTask (st : State) (k : Nat) (t : Task) : State :=
  { st with mTasks := st.mTasks.set k t }

/-- Read `p[i]` for a subscription-list pointer `p`. -/
def evtRead (st : State) (p : EvtPtr) (i : Nat) : Nat :=
  match p with
  | .null => 0
  | .embedded s => (st.task s).subbedEventsInt.getD i 0
  | .heap a => ((st.heap.chunks.getD a none).getD []).getD i 0

/-- Write `p[i] = v` for a subscription-list pointer `p`. -/
def evtWrite (st : State) (p : EvtPtr) (i v : Nat) : State :=
  match p with
  | .null => st
  | .embedded s =>
    st.setTask s { st.task s with subbedEventsInt := (st.task s).subbedEventsInt.set i v }
  | .heap a =>
    { st with heap := { st.heap with
        chunks := st.heap.chunks.set a (some (((st.heap.chunks.getD a none).getD []).set i v)) } }

/-! ## Task lookup -/

/-- Loop of `osTaskFindByTid`: slots `i, i+1, ...` for `n` more iterations. -/
def osTaskFindByTidLoop (mTasks : List Task) (tid : Nat) : Nat → Nat → Option Nat
  | 0, _ => none
  | n + 1, i => if (mTasks.getD i default).tid = tid then some i
                else osTaskFindByTidLoop mTasks tid n (i + 1)

/-- The function `osTaskFindByTid`: index of the first of the `MAX_TASKS` slots
whose tid equals `tid`. -/
def osTaskFindByTid (c : Consts) (st : State) (tid : Nat) : Option Nat :=
  osTaskFindByTidLoop st.mTasks tid c.MAX_TASKS 0

/-! ## Internal event handler -/

/-- The scan `for (i = 0; i < count && rd(i) != evt; i++);` continued from
index `i` with `n` indices left: the index it stops at. -/
def subbedEvtScan (rd : Nat → Nat) (evt : Nat) : Nat → Nat → Nat
  | 0, i => i
  | n + 1, i => if rd i = evt then i else subbedEvtScan rd evt n (i + 1)

/-- Call an `EventFreeF` that is known to be non-null on `evtData`. The
kernel's own hook is `osDeferredActionFreeF`, which gives the record back to
the slab. -/
def evtFreeCall (st : State) (f : EventFreeF) (evtData : Nat) : State :=
  let st1 := st.call (.evtFree f evtData)
  match f with
  | .osDeferredActionFreeF =>
    { st1 with mDeferedActionsSlab := slabAllocatorFree st1.mDeferedActionsSlab evtData }
  | _ => st1

/-- The statement `task->subbedEvents[i] = task->subbedEvents[--task->subbedEvtCount];`
for the task in slot `k`. -/
def evtUnsubAt (st : State) (k i : Nat) : State :=
  let task := st.task k
  let cnt := (task.subbedEvtCount + U16 - 1) % U16
  let st1 := st.setTask k { task with subbedEvtCount := cnt }
  evtWrite st1 task.subbedEvents i (evtRead st1 task.subbedEvents cnt)

/-- The words of a fresh chunk after `memcpy(newList, src, sizeof(uint32_t[n]))`. -/
def memcpyWords (rd : Nat → Nat) (n : Nat) (dst : List Nat) : List Nat :=
  (List.range dst.length).map (fun j => if j < n then rd j else dst.getD j 0)

/-- The body of `if (newList)` in the block "enlarge the list", for the task
in slot `k`, the new size `newSz` and the fresh chunk `a`: copy the old list,
free the old backing unless it is the slot's own inline array, and switch the
task to the chunk. -/
def evtListMove (st : State) (k newSz a : Nat) : State :=
  let task := st.task k
  let words := memcpyWords (evtRead st task.subbedEvents) task.subbedEvtListSz
    ((st.heap.chunks.getD a none).getD [])
  let st2 := { st with heap := { st.heap with chunks := st.heap.chunks.set a (some words) } }
  let st3 := if task.subbedEvents ≠ .embedded k then
      ({ st2 with heap := heapFree st2.heap task.subbedEvents }).call (.heapFree task.subbedEvents)
    else st2
  st3.setTask k { st3.task k with subbedEvents := .heap a, subbedEvtListSz := newSz % U16 }

/-- The block "enlarge the list" for the task in slot `k`. -/
def evtListGrow (st : State) (k : Nat) : State :=
  let newSz := ((st.task k).subbedEvtListSz * 3 + 1) / 2
  let r := heapAlloc st.heap (4 * newSz)
  let st1 := ({ st with heap := r.2 }).call (.heapAlloc (4 * newSz) r.1)
  match r.1 with
  | none => st1
  | some a => evtListMove st1 k newSz a

/-- The statement `task->subbedEvents[task->subbedEvtCount++] = evt;` for the
task in slot `k`. -/
def evtAppend (st : State) (k evt : Nat) : State :=
  let st2 := evtWrite st (st.task k).subbedEvents (st.task k).subbedEvtCount evt
  st2.setTask k { st2.task k with subbedEvtCount := ((st2.task k).subbedEvtCount + 1) % U16 }

/-- The branch "if sub and not found -> sub" for the task in slot `k`. -/
def evtSubAt (st : State) (k evt : Nat) : State :=
  let st1 := if (st.task k).subbedEvtListSz = (st.task k).subbedEvtCount then evtListGrow st k
    else st
  if (st1.task k).subbedEvtListSz > (st1.task k).subbedEvtCount then evtAppend st1 k evt
  else st1

/-- The function `osInternalEvtHandle`. -/
def osInternalEvtHandle (c : Consts) (st : State) (evtType evtData : Nat) : State :=
  let da := st.mDeferedActionsSlab.deref evtData
  if evtType = EVT_SUBSCRIBE_TO_EVT ∨ evtType = EVT_UNSUBSCRIBE_TO_EVT then
    match osTaskFindByTid c st da.evtSub.tid with
    | none => st
    | some k =>
      let task := st.task k
      let i := subbedEvtScan (evtRead st task.subbedEvents) da.evtSub.evt task.subbedEvtCount 0
      if evtType = EVT_UNSUBSCRIBE_TO_EVT ∧ i ≠ task.subbedEvtCount then evtUnsubAt st k i
      else if evtType = EVT_SUBSCRIBE_TO_EVT ∧ i = task.subbedEvtCount then
        evtSubAt st k da.evtSub.evt
      else st
  else if evtType = EVT_DEFERRED_CALLBACK then
    st.call (.deferredCallback da.deferred.callback da.deferred.cookie)
  else if evtType = EVT_PRIVATE_EVT then
    let st1 := match osTaskFindByTid c st da.privateEvt.toTid with
      | some k => st.call (.cpuAppHandle (st.task k).appHdr k da.privateEvt.evtType
          da.privateEvt.evtData)
      | none => st
    if da.privateEvt.evtFreeF ≠ .null then
      evtFreeCall st1 da.privateEvt.evtFreeF da.privateEvt.evtData
    else st1
  else st

/-! ## Main dispatch loop -/

/-- The inner loop of the broadcast for slot `i`:
`for (j = 0; j < count; j++) if (subbedEvents[j] == evtType) { handle; break; }`,
continued from index `j` with `n` indices left. -/
def osMainDeliver (st : State) (i evtType evtData : Nat) : Nat → Nat → State
  | 0, _ => st
  | n + 1, j =>
    if evtRead st (st.task i).subbedEvents j = evtType then
      st.call (.cpuAppHandle (st.task i).appHdr i evtType evtData)
    else osMainDeliver st i evtType evtData n (j + 1)

/-- One iteration of the outer broadcast loop, for slot `i`. -/
def osMainBroadcastSlot (st : State) (evtType evtData i : Nat) : State :=
  if (st.task i).subbedEvents = .null then st
  else osMainDeliver st i evtType evtData (st.task i).subbedEvtCount 0

/-- The broadcast branch of the main loop: slots `0 .. MAX_TASKS - 1` in order. -/
def osMainBroadcast (c : Consts) (st : State) (evtType evtData : Nat) : State :=
  (List.range c.MAX_TASKS).foldl (fun s i => osMainBroadcastSlot s evtType evtData i) st

/-- One iteration of the `while (true)` loop of `osMain`. An empty internal
queue leaves the state as it is (`continue`). -/
def osMainIter (c : Consts) (st : State) : State :=
  match evtQueueDequeue st.mEvtsInternal with
  | none => st
  | some (ev, q) =>
    let st1 := { st with mEvtsInternal := q }
    let st2 := if ev.evtType < c.EVT_NO_FIRST_USER_EVENT then
        osInternalEvtHandle c st1 ev.evtType ev.evtData
      else osMainBroadcast c st1 ev.evtType ev.evtData
    if ev.evtFreeF ≠ .null then evtFreeCall st2 ev.evtFreeF ev.evtData else st2

/-- Run `n` iterations of the main loop. -/
def osMainIters (c : Consts) : Nat → State → State
  | 0, st => st
  | n + 1, st => osMainIters c n (osMainIter c st)

/-! ## Producer entry points -/

/-- The function `osEnqueueEvt`. -/
def osEnqueueEvt (st : State) (evtType evtData : Nat) (evtFreeF : EventFreeF) (external : Bool) :
    Bool × State :=
  if external then
    let r := evtQueueEnqueue st.mEvtsExternal evtType evtData evtFreeF
    (r.1, { st with mEvtsExternal := r.2 })
  else
    let r := evtQueueEnqueue st.mEvtsInternal evtType evtData evtFreeF
    (r.1, { st with mEvtsInternal := r.2 })

/-- The function `osDequeueExtEvt`. -/
def osDequeueExtEvt (st : State) : Option Event × State :=
  match evtQueueDequeue st.mEvtsExternal with
  | none => (none, st)
  | some (ev, q) => (some ev, { st with mEvtsExternal := q })

/-- Common tail of the three producers: the record `act` has been filled in;
enqueue it with the kernel's free hook and give it back to the slab when the
queue refuses it. -/
def osEnqueueDeferred (st : State) (evtType act : Nat) : Bool × State :=
  let r := osEnqueueEvt st evtType act .osDeferredActionFreeF false
  if r.1 then (true, r.2)
  else (false, { r.2 with mDeferedActionsSlab := slabAllocatorFree r.2.mDeferedActionsSlab act })

/-- The function `osEventSubscribeUnsubscribe`. -/
def osEventSubscribeUnsubscribe (st : State) (tid evtType : Nat) (sub : Bool) : Bool × State :=
  let r := slabAllocatorAlloc st.mDeferedActionsSlab
  match r.1 with
  | none => (false, st)
  | some act =>
    let da := r.2.deref act
    let slab := r.2.store act { da with evtSub := ⟨tid, evtType⟩ }
    osEnqueueDeferred { st with mDeferedActionsSlab := slab }
      (if sub then EVT_SUBSCRIBE_TO_EVT else EVT_UNSUBSCRIBE_TO_EVT) act

/-- The function `osEventSubscribe`. -/
def osEventSubscribe (st : State) (tid evtType : Nat) : Bool × State :=
  osEventSubscribeUnsubscribe st tid evtType true

/-- The function `osEventUnsubscribe`. -/
def osEventUnsubscribe (st : State) (tid evtType : Nat) : Bool × State :=
  osEventSubscribeUnsubscribe st tid evtType false

/-- The function `osDefer`. -/
def osDefer (st : State) (callback cookie : Nat) : Bool × State :=
  let r := slabAllocatorAlloc st.mDeferedActionsSlab
  match r.1 with
  | none => (false, st)
  | some act =>
    let da := r.2.deref act
    let slab := r.2.store act { da with deferred := ⟨callback, cookie⟩ }
    osEnqueueDeferred { st with mDeferedActionsSlab := slab } EVT_DEFERRED_CALLBACK act

/-- The function `osEnqueuePrivateEvt`. -/
def osEnqueuePrivateEvt (st : State) (evtType evtData : Nat) (evtFreeF : EventFreeF)
    (toTid : Nat) : Bool × State :=
  let r := slabAllocatorAlloc st.mDeferedActionsSlab
  match r.1 with
  | none => (false, st)
  | some act =>
    let da := r.2.deref act
    let slab := r.2.store act { da with privateEvt := ⟨evtType, evtData, evtFreeF, toTid⟩ }
    osEnqueueDeferred { st with mDeferedActionsSlab := slab } EVT_PRIVATE_EVT act

/-! ## Bring-up -/

/-- The fields of `struct AppHdr` that `seos.c` reads. -/
structure AppHdr where
  magic : List Nat
  version : Nat
  marker : Nat
  appId : Nat
  rel_end : Nat
  deriving DecidableEq, Repr

/-- The link-time layout: the header found at each address and the symbols
`__internal_app_start`, `__internal_app_end`, `__app_start`, `__code_end`. -/
structure AppImage where
  hdrAt : Nat → AppHdr
  internal_app_start : Nat
  internal_app_end : Nat
  app_start : Nat
  code_end : Nat

/-- The test `!memcmp(magic, app->magic, sizeof(magic) - 1)`. -/
def magicOk (c : Consts) (h : AppHdr) : Bool :=
  h.magic.take c.APP_HDR_MAGIC.length == c.APP_HDR_MAGIC

/-- Loop of `osFindTaskByAppID`, continued from slot `i` with `n` slots left. -/
def osFindTaskByAppIDLoop (img : AppImage) (mTasks : List Task) (appID : Nat) :
    Nat → Nat → Option Nat
  | 0, _ => none
  | n + 1, i =>
    if (mTasks.getD i default).tid ≠ 0 then
      if (img.hdrAt (mTasks.getD i default).appHdr).appId = appID then some i
      else osFindTaskByAppIDLoop img mTasks appID n (i + 1)
    else none

/-- The function `osFindTaskByAppID`. -/
def osFindTaskByAppID (c : Consts) (img : AppImage) (st : State) (appID : Nat) : Option Nat :=
  osFindTaskByAppIDLoop img st.mTasks appID c.MAX_TASKS 0

/-- The next answer of the collaborator to a load call. -/
def cpuLoadAnswer (st : State) : Bool × State :=
  match st.cpu.load with
  | [] => (false, st)
  | b :: rest => (b, { st with cpu := { st.cpu with load := rest } })

/-- The next answer of the collaborator to an init call. -/
def cpuInitAnswer (st : State) : Bool × State :=
  match st.cpu.init with
  | [] => (false, st)
  | b :: rest => (b, { st with cpu := { st.cpu with init := rest } })

/-- The four assignments that populate slot `nTasks` for the candidate at
address `app`. -/
def osStartTasksPopulate (c : Consts) (st : State) (nTasks app : Nat) : State :=
  st.setTask nTasks { st.task nTasks with
    appHdr := app
    subbedEvtListSz := c.MAX_EMBEDDED_EVT_SUBS % U16
    subbedEvents := .embedded nTasks
    tid := st.mNextTid }

/-- Body of both load loops for an accepted candidate: populate slot `nTasks`,
call the loader on `mTasks[i]`, and on success advance `mNextTid` and
`nTasks`. Returns the state and the new `nTasks`. -/
def osStartTasksRegister (c : Consts) (internal : Bool) (st : State) (i nTasks app : Nat) :
    State × Nat :=
  let st1 := osStartTasksPopulate c st nTasks app
  let r := cpuLoadAnswer st1
  let st2 := r.2.call
    (if internal then .cpuInternalAppLoad (st1.task i).appHdr i r.1
     else .cpuAppLoad (st1.task i).appHdr i r.1)
  if r.1 then ({ st2 with mNextTid := (st2.mNextTid + 1) % U32 }, nTasks + 1) else (st2, nTasks)

/-- Outcome of a scan loop run with bounded fuel: the loop was left (its
condition failed) in state `st` with `nTasks` tasks loaded, or the fuel ran
out at the loop head in that state. -/
inductive Scan where
  | done (st : State) (nTasks : Nat)
  | running (st : State) (nTasks : Nat)
  deriving DecidableEq, Repr

/-- The state a scan has reached. -/
def Scan.st : Scan → State
  | .done st _ => st
  | .running st _ => st

/-- The value of `nTasks` a scan has reached. -/
def Scan.nTasks : Scan → Nat
  | .done _ n => n
  | .running _ n => n

/-- The `for` loop over the internal apps, at candidate address `app`. -/
def osStartTasksInternal (c : Consts) (img : AppImage) : Nat → State → Nat → Nat → Nat → Scan
  | 0, st, _, nTasks, _ => .running st nTasks
  | fuel + 1, st, i, nTasks, app =>
    let h := img.hdrAt app
    if app ≠ img.internal_app_end ∧ nTasks < c.MAX_TASKS ∧ magicOk c h = true
        ∧ h.version = c.APP_HDR_VER_CUR then
      if h.marker = c.APP_HDR_MARKER_INTERNAL then
        if (osFindTaskByAppID c img st h.appId).isSome then
          osStartTasksInternal c img fuel st i nTasks ((app + c.sizeofAppHdr) % U32)
        else
          let r := osStartTasksRegister c true st i nTasks app
          osStartTasksInternal c img fuel r.1 i r.2 ((app + c.sizeofAppHdr) % U32)
      else osStartTasksInternal c img fuel st i nTasks ((app + c.sizeofAppHdr) % U32)
    else .done st nTasks

/-- The `while` loop over the external apps, at candidate address `app`. The
`continue` of the duplicate branch returns to the loop condition with `app`
unchanged. -/
def osStartTasksExternal (c : Consts) (img : AppImage) : Nat → State → Nat → Nat → Nat → Scan
  | 0, st, _, nTasks, _ => .running st nTasks
  | fuel + 1, st, i, nTasks, app =>
    let h := img.hdrAt app
    if (img.code_end + U32 - app) % U32 ≥ c.sizeofAppHdr ∧ nTasks < c.MAX_TASKS
        ∧ magicOk c h = true ∧ h.version = c.APP_HDR_VER_CUR then
      if h.marker = c.APP_HDR_MARKER_VALID then
        if (osFindTaskByAppID c img st h.appId).isSome then
          osStartTasksExternal c img fuel st i nTasks app
        else
          let r := osStartTasksRegister c false st i nTasks app
          osStartTasksExternal c img fuel r.1 i r.2 ((app + h.rel_end) % U32)
      else osStartTasksExternal c img fuel st i nTasks ((app + h.rel_end) % U32)
    else .done st nTasks

/-- The load phase of `osStartTasks`: both scans, with `i = 0` and
`nTasks = 0` at the start, each with the given fuel. -/
def osStartTasksLoad (c : Consts) (img : AppImage) (fuel : Nat) (st : State) : Scan :=
  match osStartTasksInternal c img fuel st 0 0 img.internal_app_start with
  | .running st1 n1 => .running st1 n1
  | .done st1 n1 => osStartTasksExternal c img fuel st1 0 n1 img.app_start

/-- The init loop `while (i < nTasks)` of `osStartTasks`. A failed init
unloads the task and copies the last loaded slot over slot `i`
(`memcpy(mTasks + i, mTasks + --nTasks, sizeof(struct Task))`). Nothing is
returned when the fuel runs out before the loop is left. -/
def osStartTasksInitLoop : Nat → State → Nat → Nat → Option (State × Nat)
  | 0, _, _, _ => none
  | fuel + 1, st, i, nTasks =>
    if i < nTasks then
      let r := cpuInitAnswer st
      let st1 := r.2.call (.cpuAppInit (st.task i).appHdr i (st.task i).tid r.1)
      if r.1 then osStartTasksInitLoop fuel st1 (i + 1) nTasks
      else
        let st2 := st1.call (.cpuAppUnload (st1.task i).appHdr i)
        osStartTasksInitLoop fuel (st2.setTask i (st2.task (nTasks - 1))) i (nTasks - 1)
    else some (st, nTasks)

/-- The init phase of `osStartTasks`, entered with `i = 0`: at most `nTasks`
iterations are needed. -/
def osStartTasksInit (st : State) (nTasks : Nat) : Option (State × Nat) :=
  osStartTasksInitLoop (nTasks + 1) st 0 nTasks

/-- The function `osStartTasks`; nothing is returned when the fuel does not
suffice for the load phase. -/
def osStartTasks (c : Consts) (img : AppImage) (fuel : Nat) (st : State) : Option State :=
  match osStartTasksLoad c img fuel st with
  | .running _ _ => none
  | .done st1 nTasks => (osStartTasksInit st1 nTasks).map (·.1)

/-- Answers of the three allocations made by `osInit`. -/
structure InitAnswers where
  evtsInternal : Bool
  evtsExternal : Bool
  slab : Bool
  deriving DecidableEq, Repr

/-- The file-scope variables written by `osInit`; a handle that was not
allocated is `NULL`. -/
structure InitResult where
  mEvtsInternal : Option EvtQueue
  mEvtsExternal : Option EvtQueue
  mDeferedActionsSlab : Option SlabAllocator
  mTasks : List Task
  deriving DecidableEq, Repr

/-- The function `osInit`: zero the task table, allocate the queues (512 and
256 entries) and the slab (32 records); return at the first failure. -/
def osInit (c : Consts) (a : InitAnswers) : InitResult :=
  let mTasks := List.replicate c.MAX_TASKS (Task.zero c)
  if a.evtsInternal = false then ⟨none, none, none, mTasks⟩
  else if a.evtsExternal = false then ⟨some (evtQueueAlloc 512), none, none, mTasks⟩
  else if a.slab = false then ⟨some (evtQueueAlloc 512), some (evtQueueAlloc 256), none, mTasks⟩
  else ⟨some (evtQueueAlloc 512), some (evtQueueAlloc 256), some (slabAllocatorNew 32), mTasks⟩

/-- The kernel state after an `osInit` whose allocations all succeeded, with
`mNextTid = 1`, nothing called yet, and the given heap and collaborator
answers. -/
def InitResult.toState (r : InitResult) (heap : Heap) (cpu : CpuAnswers) : Option State :=
  match r.mEvtsInternal, r.mEvtsExternal, r.mDeferedActionsSlab with
  | some qi, some qe, some slab => some ⟨qi, qe, slab, r.mTasks, 1, heap, cpu, []⟩
  | _, _, _ => none

/-- The part of `osMain` before the `while (true)` loop, for an `osInit` whose
allocations all succeeded: `osInit`, `osStartTasks`, and the enqueue of
`EVT_APP_START` on the internal queue (its result is discarded). -/
def osMainBringUp (c : Consts) (img : AppImage) (fuel : Nat) (heap : Heap) (cpu : CpuAnswers) :
    Option State :=
  match (osInit c ⟨true, true, true⟩).toState heap cpu with
  | none => none
  | some st0 =>
    match osStartTasks c img fuel st0 with
    | none => none
    | some st1 => some (osEnqueueEvt st1 c.EVT_APP_START 0 .null false).2

/-! ## Vocabulary of the statements -/

/-- The calls made between state `st` and a later state `st2`. -/
def callsSince (st st2 : State) : List Call := st2.trace.drop st.trace.length

/-- The subscription list of slot `i`: the first `subbedEvtCount` words of
the array `subbedEvents` points to. -/
def subbedEvtList (st : State) (i : Nat) : List Nat :=
  (List.range (st.task i).subbedEvtCount).map (evtRead st (st.task i).subbedEvents)

/-- Slot `i` has a subscription list and the list contains `evt`. -/
def isSubscribed (st : State) (i evt : Nat) : Bool :=
  decide ((st.task i).subbedEvents ≠ .null) && decide (evt ∈ subbedEvtList st i)

/-- Whether a call is a `cpuAppHandle` call. -/
def Call.isHandle : Call → Bool
  | .cpuAppHandle _ _ _ _ => true
  | _ => false

/-- The handler call that delivers `(evtType, evtData)` to slot `i`. -/
def handleCall (st : State) (evtType evtData i : Nat) : Call :=
  .cpuAppHandle (st.task i).appHdr i evtType evtData

/-- One handler call per subscribed slot of `slots`, in the order of `slots`. -/
def deliveries (st : State) (evtType evtData : Nat) (slots : List Nat) : List Call :=
  (slots.filter (fun i => isSubscribed st i evtType)).map (handleCall st evtType evtData)

/-- The calls a broadcast of `(evtType, evtData)` is expected to make: one per
subscribed slot among the `MAX_TASKS` slots, in increasing slot order. -/
def broadcastCalls (c : Consts) (st : State) (evtType evtData : Nat) : List Call :=
  deliveries st evtType evtData (List.range c.MAX_TASKS)

/-- Whether a call goes to the heap. -/
def Call.isHeap : Call → Bool
  | .heapAlloc _ _ => true
  | .heapFree _ => true
  | _ => false

/-- The calls the handler is expected to make for the private-event record
`pe`: the delivery to the slot found for `toTid`, if any, then the inner free
hook, if any. -/
def privateEvtCalls (c : Consts) (st : State) (pe : PrivateEvt) : List Call :=
  (match osTaskFindByTid c st pe.toTid with
    | some k => [handleCall st pe.evtType pe.evtData k]
    | none => [])
  ++ (if pe.evtFreeF ≠ .null then [.evtFree pe.evtFreeF pe.evtData] else [])

/-- The call the main loop is expected to make to release a dequeued event. -/
def freeCalls (ev : Event) : List Call :=
  if ev.evtFreeF ≠ .null then [.evtFree ev.evtFreeF ev.evtData] else []

/-- The state in which the main loop handles the dequeued event `ev`: what
`osInternalEvtHandle` or the broadcast leaves, before the event is freed. -/
def osMainHandled (c : Consts) (st : State) (ev : Event) (q : EvtQueue) : State :=
  if ev.evtType < c.EVT_NO_FIRST_USER_EVENT then
    osInternalEvtHandle c { st with mEvtsInternal := q } ev.evtType ev.evtData
  else osMainBroadcast c { st with mEvtsInternal := q } ev.evtType ev.evtData

/-- What a refused producer call leaves, for the result `r` of a call made in
state `st`: the call returns false; both queues, the set of records in use
(hence their number), the task table, the heap, the next tid and the trace
are those of `st`, so nothing was called. -/
def Refused (st : State) (r : Bool × State) : Prop :=
  r.1 = false
  ∧ r.2.mEvtsInternal = st.mEvtsInternal
  ∧ r.2.mEvtsExternal = st.mEvtsExternal
  ∧ r.2.mDeferedActionsSlab.used = st.mDeferedActionsSlab.used
  ∧ r.2.mDeferedActionsSlab.outstanding = st.mDeferedActionsSlab.outstanding
  ∧ r.2.mTasks = st.mTasks
  ∧ r.2.heap = st.heap
  ∧ r.2.mNextTid = st.mNextTid
  ∧ r.2.trace = st.trace

/-- What an accepted producer call of event type `evtType` did, for the result
`r` of a call made in state `st`: a free record `act` was allocated and an
event `(evtType, act, osDeferredActionFreeF)` was appended to the internal
queue, which had room. -/
def Accepted (st : State) (evtType : Nat) (r : Bool × State) : Prop :=
  ∃ act, firstFree st.mDeferedActionsSlab.used = some act
    ∧ st.mEvtsInternal.evts.length < st.mEvtsInternal.size
    ∧ r.2.mEvtsInternal.evts
        = st.mEvtsInternal.evts ++ [⟨evtType, act, .osDeferredActionFreeF⟩]
    ∧ r.2.mDeferedActionsSlab.used = st.mDeferedActionsSlab.used.set act true
    ∧ r.2.mDeferedActionsSlab.outstanding = st.mDeferedActionsSlab.outstanding + 1

/-- The common shape of the three producers: allocate a record, fill in one
view with `fill`, enqueue. -/
def produce (st : State) (fill : DeferredAction → DeferredAction) (evtType : Nat) :
    Bool × State :=
  let r := slabAllocatorAlloc st.mDeferedActionsSlab
  match r.1 with
  | none => (false, st)
  | some act =>
    let slab := r.2.store act (fill (r.2.deref act))
    osEnqueueDeferred { st with mDeferedActionsSlab := slab } evtType act

/-- Whether a call is a load call that returned true. -/
def Call.isLoadOk : Call → Bool
  | .cpuInternalAppLoad _ _ true => true
  | .cpuAppLoad _ _ true => true
  | _ => false

/-- The tids in the task table, slot by slot. -/
def State.tids (st : State) : List Nat := st.mTasks.map (·.tid)

/-- The invariant of the load phase for `nTasks = n`, relative to the trace
length `t0` at its start: the table has `MAX_TASKS` slots, `n` of them
loaded, slot `j < n` carries tid `j + 1`, the next tid is `n + 1` (as a
`uint32_t`), and `n` load calls have returned true. -/
def LoadInv (c : Consts) (t0 : Nat) (st : State) (n : Nat) : Prop :=
  st.mTasks.length = c.MAX_TASKS
  ∧ n ≤ c.MAX_TASKS
  ∧ st.mNextTid = (n + 1) % U32
  ∧ (∀ j, j < n → (st.task j).tid = j + 1)
  ∧ ((st.trace.drop t0).filter Call.isLoadOk).length = n

/-- The queues and the slab of a state. -/
def State.qs (st : State) : EvtQueue × EvtQueue × SlabAllocator :=
  (st.mEvtsInternal, st.mEvtsExternal, st.mDeferedActionsSlab)

/-- The records named by the deferred-action events of a list of events:
the data pointers of the events whose free hook is `osDeferredActionFreeF`,
in queue order. -/
def hookPtrs (evts : List Event) : List Nat :=
  (evts.filter (fun e => e.evtFreeF = .osDeferredActionFreeF)).map (·.evtData)

/-- The invariant that ties the slab to the internal queue: the queued
deferred-action events name pairwise distinct records, each of them in use;
there are as many records in use as such events; no record names
`osDeferredActionFreeF` as the free hook of an inner payload; and every
record has its memory. -/
def SlabInv (st : State) : Prop :=
  (hookPtrs st.mEvtsInternal.evts).Nodup
  ∧ (∀ p ∈ hookPtrs st.mEvtsInternal.evts,
      p < st.mDeferedActionsSlab.used.length ∧ st.mDeferedActionsSlab.used.getD p false = true)
  ∧ st.mDeferedActionsSlab.outstanding = (hookPtrs st.mEvtsInternal.evts).length
  ∧ (∀ da ∈ st.mDeferedActionsSlab.items, da.privateEvt.evtFreeF ≠ .osDeferredActionFreeF)
  ∧ st.mDeferedActionsSlab.used.length = st.mDeferedActionsSlab.items.length

/-- One step of the kernel after bring-up: a call of one of the producers,
an enqueue of a user event, an external dequeue, or one iteration of the main
loop. The hook `osDeferredActionFreeF` is static to `seos.c`, so callers pass
`NULL` or a function of their own as the free hook. -/
inductive Step (c : Consts) : State → State → Prop where
  | subscribe (st : State) (tid evt : Nat) : Step c st (osEventSubscribe st tid evt).2
  | unsubscribe (st : State) (tid evt : Nat) : Step c st (osEventUnsubscribe st tid evt).2
  | defer (st : State) (callback cookie : Nat) : Step c st (osDefer st callback cookie).2
  | privateEvt (st : State) (evtType evtData : Nat) (f : EventFreeF) (toTid : Nat)
      (hf : f ≠ .osDeferredActionFreeF) :
      Step c st (osEnqueuePrivateEvt st evtType evtData f toTid).2
  | enqueue (st : State) (evtType evtData : Nat) (f : EventFreeF) (external : Bool)
      (ht : c.EVT_NO_FIRST_USER_EVENT ≤ evtType) (hf : f ≠ .osDeferredActionFreeF) :
      Step c st (osEnqueueEvt st evtType evtData f external).2
  | dequeueExt (st : State) : Step c st (osDequeueExtEvt st).2
  | iter (st : State) : Step c st (osMainIter c st)

/-- The states reached from `s0` by finitely many steps. -/
inductive Reachable (c : Consts) (s0 : State) : State → Prop where
  | start : Reachable c s0 s0
  | step (st st2 : State) : Reachable c s0 st → Step c st st2 → Reachable c s0 st2

/-- The states reached from `st` by steps after each of which record `p` is
still named by a deferred-action event waiting in the internal queue. -/
inductive ReachablePending (c : Consts) (p : Nat) (st : State) : State → Prop where
  | start : ReachablePending c p st st
  | step (s1 s2 : State) : ReachablePending c p st s1 → Step c s1 s2 →
      p ∈ hookPtrs s2.mEvtsInternal.evts → ReachablePending c p st s2

/-- The invariant of a pending `osDefer(callback, cookie)` whose record is
`p`: the slab invariant, `p` is named by a queued deferred-action event, every
such event is of type `EVT_DEFERRED_CALLBACK`, and the record holds the
callback and the cookie. -/
def DeferPending (p callback cookie : Nat) (st : State) : Prop :=
  SlabInv st
  ∧ p ∈ hookPtrs st.mEvtsInternal.evts
  ∧ (∀ e ∈ st.mEvtsInternal.evts, e.evtFreeF = .osDeferredActionFreeF → e.evtData = p →
      e.evtType = EVT_DEFERRED_CALLBACK)
  ∧ (st.mDeferedActionsSlab.deref p).deferred = ⟨callback, cookie⟩

/-- The array a subscription-list pointer points to. -/
def evtBuf (st : State) (p : EvtPtr) : List Nat :=
  match p with
  | .null => []
  | .embedded s => (st.task s).subbedEventsInt
  | .heap a => (st.heap.chunks.getD a none).getD []

/-- The pointer names memory that exists: the inline array of a slot of the
table, or a live heap chunk. -/
def PtrOk (st : State) (p : EvtPtr) : Prop :=
  match p with
  | .null => False
  | .embedded s => s < st.mTasks.length
  | .heap a => ∃ w, st.heap.chunks[a]? = some (some w)

/-- Slot `k` is a well-formed task: the slot exists, its list pointer names
memory of at least `subbedEvtListSz` words, the count is within the capacity,
the capacity fits its 16-bit field, and the list has no repeated entry. -/
def TaskOk (st : State) (k : Nat) : Prop :=
  k < st.mTasks.length
  ∧ PtrOk st (st.task k).subbedEvents
  ∧ (st.task k).subbedEvtCount ≤ (st.task k).subbedEvtListSz
  ∧ (st.task k).subbedEvtListSz ≤ (evtBuf st (st.task k).subbedEvents).length
  ∧ (st.task k).subbedEvtListSz < U16
  ∧ (subbedEvtList st k).Nodup

/-- Two states whose tasks agree, slot by slot, on everything but the
contents of the inline arrays. -/
def SameTaskFields (st st2 : State) : Prop :=
  st2.mTasks.length = st.mTasks.length
  ∧ ∀ j, (st2.task j).tid = (st.task j).tid
    ∧ (st2.task j).subbedEvtCount = (st.task j).subbedEvtCount
    ∧ (st2.task j).subbedEvtListSz = (st.task j).subbedEvtListSz
    ∧ (st2.task j).subbedEvents = (st.task j).subbedEvents
    ∧ (st2.task j).appHdr = (st.task j).appHdr
    ∧ (st2.task j).platInfo = (st.task j).platInfo

/-- Whether the task is subscribed after the subscribe and unsubscribe events
of `evts` have been processed in order, starting from `init`: the last such
event decides, and `init` stands when there is none. -/
def subscribedAfter (init : Bool) : List Event → Bool
  | [] => init
  | e :: rest =>
    subscribedAfter
      (if e.evtType = EVT_SUBSCRIBE_TO_EVT then true
       else if e.evtType = EVT_UNSUBSCRIBE_TO_EVT then false else init) rest

/-- A subscribe of `evt` by the task in slot `k` cannot be dropped: the list
holds `evt` already, or it has a free entry, or it can grow (the capacity is
at least 1, the enlarged capacity fits its 16-bit field and the next
`heapAlloc` returns a chunk). -/
def CanSubscribe (st : State) (k evt : Nat) : Prop :=
  evt ∈ subbedEvtList st k
  ∨ (st.task k).subbedEvtCount < (st.task k).subbedEvtListSz
  ∨ (1 ≤ (st.task k).subbedEvtListSz ∧ ((st.task k).subbedEvtListSz * 3 + 1) / 2 < U16
      ∧ ∃ rest, st.heap.avail = true :: rest)

/-- The hypotheses on the slot `k` of task `tid` under which subscribes and
unsubscribes of `evt` are never dropped: `osTaskFindByTid` returns `k`, the
slot is well formed, and a subscribe of `evt` cannot be dropped. -/
def SubInv (c : Consts) (tid evt k : Nat) (st : State) : Prop :=
  osTaskFindByTid c st tid = some k ∧ TaskOk st k ∧ CanSubscribe st k evt

/-- Every reserved-type event of `evts` is an `EVT_SUBSCRIBE` or an
`EVT_UNSUBSCRIBE` whose record, in the slab memory `items`, names the task
`tid` and the event `evt`. -/
def SubQueue (c : Consts) (tid evt : Nat) (items : List DeferredAction) (evts : List Event) :
    Prop :=
  ∀ e ∈ evts, e.evtType < c.EVT_NO_FIRST_USER_EVENT →
    (e.evtType = EVT_SUBSCRIBE_TO_EVT ∨ e.evtType = EVT_UNSUBSCRIBE_TO_EVT)
    ∧ (items.getD e.evtData default).evtSub = ⟨tid, evt⟩

/-- Header and tid of a `cpuAppInit` call. -/
def Call.initIdent : Call → Option (Nat × Nat)
  | .cpuAppInit h _ t _ => some (h, t)
  | _ => none

/-- Header and tid of a `cpuAppInit` call that returned true. -/
def Call.initOkIdent : Call → Option (Nat × Nat)
  | .cpuAppInit h _ t true => some (h, t)
  | _ => none

/-- Header and tid of the slots `i, i+1, ..., i+n-1`, in slot order. -/
def slotIdents (st : State) (i n : Nat) : List (Nat × Nat) :=
  (List.range' i n).map (fun j => ((st.task j).appHdr, (st.task j).tid))

/-- The invariant of the init loop at its head, for the loop variables `i` and
`n`, relative to the state `s0` and the count `n0` the phase was entered with:
the calls made so far are `l`; the tasks given to `cpuAppInit` so far together
with those waiting in slots `i .. n-1` are the tasks loaded at the start; and
the tasks whose init returned true sit in slots `0 .. i-1`, in call order. -/
def InitInv (s0 : State) (n0 : Nat) (st : State) (i n : Nat) (l : List Call) : Prop :=
  st.mTasks.length = s0.mTasks.length
  ∧ i ≤ n ∧ n ≤ n0
  ∧ st.trace = s0.trace ++ l
  ∧ (l.filterMap Call.initIdent ++ slotIdents st i (n - i)).Perm (slotIdents s0 0 n0)
  ∧ l.filterMap Call.initOkIdent = slotIdents st 0 i

/-- Whether a scan has left its loop. -/
def Scan.isDone : Scan → Bool
  | .done _ _ => true
  | .running _ _ => false

/-- The part of `osMain` from `osInit` to the return of `osStartTasks`, for any
answers of the three allocations of `osInit`. `osInit` returns `void` and
`osMain` tests nothing between the two calls, so `osStartTasks` runs whatever
the handles are. The result is what `osInit` left in the handles and the
kernel state after `osStartTasks`. `osStartTasks` neither reads nor writes
the queues and the slab; in the state, a handle that is `NULL` is carried as a
queue of capacity 0 or a slab without records, and the handles themselves tell
which ones these are. -/
def osMainStart (c : Consts) (img : AppImage) (fuel : Nat) (a : InitAnswers) (heap : Heap)
    (cpu : CpuAnswers) : Option (InitResult × State) :=
  let r := osInit c a
  let st0 : State :=
    ⟨r.mEvtsInternal.getD (evtQueueAlloc 0), r.mEvtsExternal.getD (evtQueueAlloc 0),
      r.mDeferedActionsSlab.getD (slabAllocatorNew 0), r.mTasks, 1, heap, cpu, []⟩
  (osStartTasks c img fuel st0).map (fun st1 => (r, st1))

/-- Whether a call is a `cpuAppHandle` call on slot `k`. -/
def Call.isHandleOf (k : Nat) : Call → Bool
  | .cpuAppHandle _ s _ _ => s == k
  | _ => false

/-- The list pointer is `NULL` or names memory that exists. -/
def PtrNullOk (st : State) (p : EvtPtr) : Prop := p = .null ∨ PtrOk st p

/-- Slot `j` is the slot `osTaskFindByTid` returns for the tid it carries: the
first slot of the table with that tid. -/
def Findable (c : Consts) (st : State) (j : Nat) : Prop :=
  osTaskFindByTid c st (st.task j).tid = some j

/-- Slot `k` holds a list the handler can work on: the slot exists, its list
pointer is `NULL` or names memory that exists, the count and the capacity are
within the length of that memory and fit their 16-bit fields, and the list
has no repeated entry. The count is not required to be within the capacity. -/
def ListOk (st : State) (k : Nat) : Prop :=
  k < st.mTasks.length
  ∧ PtrNullOk st (st.task k).subbedEvents
  ∧ (st.task k).subbedEvtCount ≤ (evtBuf st (st.task k).subbedEvents).length
  ∧ (st.task k).subbedEvtListSz ≤ (evtBuf st (st.task k).subbedEvents).length
  ∧ (st.task k).subbedEvtListSz < U16
  ∧ (st.task k).subbedEvtCount < U16
  ∧ (subbedEvtList st k).Nodup

/-- The invariant of the task table once the kernel runs: every slot that
`osTaskFindByTid` can return holds a list the handler can work on; every
other slot has an empty list; and no two slots that `osTaskFindByTid` can
return share a list pointer. -/
def TableInv (c : Consts) (st : State) : Prop :=
  (∀ j, Findable c st j → ListOk st j)
  ∧ (∀ j, ¬ Findable c st j → (st.task j).subbedEvtCount = 0)
  ∧ (∀ j1 j2, Findable c st j1 → Findable c st j2 →
      (st.task j1).subbedEvents = (st.task j2).subbedEvents → j1 = j2)

/-- What a change of the list of slot `k` leaves alone, from `st` to `st2`:
the size of the table, every tid, the count, capacity and list pointer of
every other slot, and every array other than the one the list of slot `k`
lived in; and the list pointer of slot `k` is the old one or one that named
no memory before. -/
def ListFrame (st st2 : State) (k : Nat) : Prop :=
  st2.mTasks.length = st.mTasks.length
  ∧ (∀ j, (st2.task j).tid = (st.task j).tid)
  ∧ (∀ j, j ≠ k → (st2.task j).subbedEvtCount = (st.task j).subbedEvtCount
      ∧ (st2.task j).subbedEvtListSz = (st.task j).subbedEvtListSz
      ∧ (st2.task j).subbedEvents = (st.task j).subbedEvents)
  ∧ (∀ p, p ≠ (st.task k).subbedEvents → PtrNullOk st p →
      evtBuf st2 p = evtBuf st p ∧ PtrNullOk st2 p)
  ∧ ((st2.task k).subbedEvents = (st.task k).subbedEvents
      ∨ ∀ p, PtrNullOk st p → p ≠ (st2.task k).subbedEvents)

/-- A task slot as the bring-up leaves it: an empty list, an inline array of
`MAX_EMBEDDED_EVT_SUBS` words, and either the zeroed fields of an unused slot
or a tid between 1 and `MAX_TASKS` with the list pointer at the inline array
of slot `tid - 1`, the slot the task was written to, and the inline
capacity. -/
def SlotInit (c : Consts) (t : Task) : Prop :=
  t.subbedEvtCount = 0 ∧ t.subbedEventsInt.length = c.MAX_EMBEDDED_EVT_SUBS
  ∧ ((t.tid = 0 ∧ t.subbedEvents = .null ∧ t.subbedEvtListSz = 0)
    ∨ (1 ≤ t.tid ∧ t.tid ≤ c.MAX_TASKS ∧ t.subbedEvents = .embedded (t.tid - 1)
        ∧ t.subbedEvtListSz = c.MAX_EMBEDDED_EVT_SUBS % U16))

/-- The invariant of the task table during bring-up: `MAX_TASKS` slots, each
as the bring-up leaves it. -/
def BootInv (c : Consts) (st : State) : Prop :=
  st.mTasks.length = c.MAX_TASKS ∧ ∀ t ∈ st.mTasks, SlotInit c t

/-- The states reached from `s0` by finitely many steps of the kernel and
direct calls of `osInternalEvtHandle` on any event type and any record. -/
inductive HandlerReachable (c : Consts) (s0 : State) : State → Prop where
  | start : HandlerReachable c s0 s0
  | step (st st2 : State) : HandlerReachable c s0 st → Step c st st2 →
      HandlerReachable c s0 st2
  | handle (st : State) (evtType evtData : Nat) : HandlerReachable c s0 st →
      HandlerReachable c s0 (osInternalEvtHandle c st evtType evtData)

/-- The state after task `tid` has subscribed to the events 1000, 1001, ...,
`1000 + n - 1`, one at a time: each call of `osEventSubscribe` is followed by
the iteration of the main loop that handles it. -/
def subscribeRun (c : Consts) (tid : Nat) : Nat → State → State
  | 0, st => st
  | n + 1, st => osMainIter c (osEventSubscribe (subscribeRun c tid n st) tid (1000 + n)).2

/-- The invariant of `subscribeRun` after `n` subscribes, as long as the
capacity field has not overflowed: the internal queue is empty, slab record 0
is free, slot `k` is the slot of task `tid`, well formed, with `n` entries,
all below `1000 + n`, and the heap will grant `m` more allocations, where
`n + m` is at least 65536. -/
def RunInv (c : Consts) (tid k n : Nat) (st : State) : Prop :=
  st.mEvtsInternal.evts = [] ∧ 0 < st.mEvtsInternal.size
  ∧ firstFree st.mDeferedActionsSlab.used = some 0
  ∧ 0 < st.mDeferedActionsSlab.items.length
  ∧ osTaskFindByTid c st tid = some k
  ∧ TaskOk st k ∧ 1 ≤ (st.task k).subbedEvtListSz
  ∧ (st.task k).subbedEvtCount = n
  ∧ (∀ x ∈ subbedEvtList st k, x < 1000 + n)
  ∧ ∃ m, st.heap.avail = List.replicate m true ∧ 65536 ≤ n + m

/-! ## Concrete inputs -/

/-- Small constants for the concrete inputs: three task slots, two inline
subscription entries, user events from 256 on, `EVT_APP_START = 1024`. -/
def wConsts : Consts := ⟨3, 2, 256, 1024, [1, 2], 1, 7, 8, 16⟩

/-- A three-slot table: task 1 in slot 0 subscribed to 512 twice, task 2 in
slot 1 subscribed to 512 and to the reserved type 2, slot 2 empty. -/
def wTasks : List Task :=
  [⟨1, 2, 2, .embedded 0, 100, 0, [512, 512]⟩, ⟨2, 2, 2, .embedded 1, 101, 0, [512, 2]⟩,
   Task.zero wConsts]

/-- A state over `wTasks` with the given internal queue and slab. -/
def wState (evts : List Event) (slab : SlabAllocator) : State :=
  ⟨⟨4, evts⟩, ⟨4, []⟩, slab, wTasks, 3, ⟨[], []⟩, ⟨[], []⟩, []⟩

/-- A three-record slab with records 0 and 1 in use: record 0 holds a
private event `(600, 55)` for tid 1 with inner free hook `fn 9`, record 1 a
deferred callback 7 with cookie 8. -/
def wSlab : SlabAllocator :=
  ⟨[true, true, false],
    [⟨⟨0, 0⟩, ⟨0, 0⟩, ⟨600, 55, .fn 9, 1⟩⟩, ⟨⟨0, 0⟩, ⟨7, 8⟩, ⟨0, 0, .null, 0⟩⟩, default]⟩

/-- A slab state with every record in use. -/
def wSlabFull : SlabAllocator := ⟨[true, true, true], [default, default, default]⟩

/-- An image with two internal apps (ids 11 and 12) at addresses 1000 and
1016 and no external app. -/
def wImage : AppImage :=
  ⟨fun a => if a = 1000 then ⟨[1, 2, 3], 1, 7, 11, 0⟩
    else if a = 1016 then ⟨[1, 2, 3], 1, 7, 12, 0⟩
    else ⟨[], 0, 0, 0, 0⟩, 1000, 1032, 2000, 2000⟩

/-- The state `osStartTasks` is entered with after a successful `osInit`. -/
def wInit (cpu : CpuAnswers) : State :=
  ⟨evtQueueAlloc 512, evtQueueAlloc 256, slabAllocatorNew 32,
    List.replicate wConsts.MAX_TASKS (Task.zero wConsts), 1, ⟨[], []⟩, cpu, []⟩

/-- A state whose slot 0 holds task 1, subscribed to 512 with one free entry;
slab record 0 names task 1 and event 512. -/
def wSubState (evts : List Event) : State :=
  ⟨⟨4, evts⟩, ⟨4, []⟩,
    ⟨[true, false, false], [⟨⟨1, 512⟩, ⟨0, 0⟩, ⟨0, 0, .null, 0⟩⟩, default, default]⟩,
    [⟨1, 1, 2, .embedded 0, 100, 0, [512, 0]⟩, Task.zero wConsts, Task.zero wConsts],
    2, ⟨[], []⟩, ⟨[], []⟩, []⟩

/-- A state whose slot 0 holds task 1 with a full inline list (513 and 514)
and whose heap refuses every allocation; the queue holds `EVT_SUBSCRIBE{1,
512}` followed by a broadcast of 512. -/
def wFullState : State :=
  ⟨⟨4, [⟨EVT_SUBSCRIBE_TO_EVT, 0, .osDeferredActionFreeF⟩, ⟨512, 55, .null⟩]⟩, ⟨4, []⟩,
    ⟨[true, false, false], [⟨⟨1, 512⟩, ⟨0, 0⟩, ⟨0, 0, .null, 0⟩⟩, default, default]⟩,
    [⟨1, 2, 2, .embedded 0, 100, 0, [513, 514]⟩, Task.zero wConsts, Task.zero wConsts],
    2, ⟨[], []⟩, ⟨[], []⟩, []⟩

/-- The state `wFullState` with a heap that grants the next allocation. -/
def wGrowState : State :=
  { wFullState with heap := ⟨[], [true]⟩ }

/-- The state the load phase leaves for `wImage` when both loads succeed, with
the given answers to the coming init calls: tids 1 and 2 in slots 0 and 1. -/
def wLoaded (init : List Bool) : State :=
  (osStartTasksLoad wConsts wImage 4 (wInit ⟨[true, true], init⟩)).st

/-- An image with no internal app and three external apps of 32 bytes at
addresses 2000, 2032 and 2064, the first two with the same id 21, the third
with id 22. -/
def wImageDup : AppImage :=
  ⟨fun a => if a = 2000 then ⟨[1, 2, 3], 1, 8, 21, 32⟩
    else if a = 2032 then ⟨[1, 2, 3], 1, 8, 21, 32⟩
    else if a = 2064 then ⟨[1, 2, 3], 1, 8, 22, 32⟩
    else ⟨[], 0, 0, 0, 0⟩, 1000, 1000, 2000, 2096⟩

/-- The same three apps as internal apps at addresses 1000, 1016 and 1032,
and no external app. -/
def wImageDupInt : AppImage :=
  ⟨fun a => if a = 1000 then ⟨[1, 2, 3], 1, 7, 21, 0⟩
    else if a = 1016 then ⟨[1, 2, 3], 1, 7, 21, 0⟩
    else if a = 1032 then ⟨[1, 2, 3], 1, 7, 22, 0⟩
    else ⟨[], 0, 0, 0, 0⟩, 1000, 1048, 2000, 2000⟩

/-- A state whose slot 0 holds task 1 with an empty list of capacity 2; slab
records 0 and 1 both name task 1 and event 512; the queue holds two
`EVT_SUBSCRIBE`, one per record, and then a broadcast of 512. -/
def wTwiceState : State :=
  ⟨⟨4, [⟨EVT_SUBSCRIBE_TO_EVT, 0, .osDeferredActionFreeF⟩,
      ⟨EVT_SUBSCRIBE_TO_EVT, 1, .osDeferredActionFreeF⟩, ⟨512, 55, .null⟩]⟩, ⟨4, []⟩,
    ⟨[true, true, false],
      [⟨⟨1, 512⟩, ⟨0, 0⟩, ⟨0, 0, .null, 0⟩⟩, ⟨⟨1, 512⟩, ⟨0, 0⟩, ⟨0, 0, .null, 0⟩⟩, default]⟩,
    [⟨1, 0, 2, .embedded 0, 100, 0, [0, 0]⟩, Task.zero wConsts, Task.zero wConsts],
    2, ⟨[], []⟩, ⟨[], []⟩, []⟩

/-- A state whose slot 0 holds task 1 with the heap-backed list 512, 513, 514
and whose slot 1 holds task 2 with the inline list 513; slab record 0 names
task 1 and event 512, record 1 names task 1 and event 600. -/
def wUnsubState : State :=
  ⟨⟨4, []⟩, ⟨4, []⟩,
    ⟨[true, true, false],
      [⟨⟨1, 512⟩, ⟨0, 0⟩, ⟨0, 0, .null, 0⟩⟩, ⟨⟨1, 600⟩, ⟨0, 0⟩, ⟨0, 0, .null, 0⟩⟩, default]⟩,
    [⟨1, 3, 3, .heap 0, 100, 0, [0, 0]⟩, ⟨2, 1, 2, .embedded 1, 101, 0, [513, 0]⟩,
      Task.zero wConsts],
    3, ⟨[some [512, 513, 514]], []⟩, ⟨[], []⟩, []⟩

/-- A state whose slot 0 holds task 1 with a full heap-backed list of 43691
entries, the events 1000 to 44690; the heap grants the next allocation; slab
record 0 names task 1 and event 50000. -/
def wBigState : State :=
  ⟨⟨4, []⟩, ⟨4, []⟩,
    ⟨[true, false, false], [⟨⟨1, 50000⟩, ⟨0, 0⟩, ⟨0, 0, .null, 0⟩⟩, default, default]⟩,
    [⟨1, 43691, 43691, .heap 0, 100, 0, [0, 0]⟩, Task.zero wConsts, Task.zero wConsts],
    2, ⟨[some (List.range' 1000 43691)], [true]⟩, ⟨[], []⟩, []⟩

/-- An image with one internal app (id 11) at address 1000 and one external
app (id 31) of 32 bytes at address 2000. -/
def wImageExt : AppImage :=
  ⟨fun a => if a = 1000 then ⟨[1, 2, 3], 1, 7, 11, 0⟩
    else if a = 2000 then ⟨[1, 2, 3], 1, 8, 31, 32⟩
    else ⟨[], 0, 0, 0, 0⟩, 1000, 1016, 2000, 2032⟩

/-- The state the bring-up leaves for `wImage` when both apps load and
initialise, with a heap that grants one allocation. -/
def wBoot : State :=
  (osMainBringUp wConsts wImage 4 ⟨[], [true]⟩ ⟨[true, true], [true, true]⟩).getD
    (wInit ⟨[], []⟩)

/-- The state `wBoot` with a heap that grants 65536 allocations. -/
def wBootBig : State :=
  { wBoot with heap := ⟨[], List.replicate 65536 true⟩ }

/-! ## Theorems -/

/-! ### The broadcast branch -/

theorem task_call (st : State) (cl : Call) (k : Nat) : (st.call cl).task k = st.task k := rfl

theorem evtRead_trace (st : State) (tr : List Call) (p : EvtPtr) (j : Nat) :
    evtRead { st with trace := tr } p j = evtRead st p j := by
  cases p <;> rfl

theorem osMainDeliver_eq (st : State) (i evtType evtData : Nat) (n j : Nat) :
    osMainDeliver st i evtType evtData n j =
      if evtType ∈ (List.range' j n).map (evtRead st (st.task i).subbedEvents) then
        st.call (handleCall st evtType evtData i)
      else st := by
  induction n generalizing j with
  | zero => simp [osMainDeliver]
  | succ n ih =>
    rw [osMainDeliver, List.range'_succ]
    by_cases h : evtRead st (st.task i).subbedEvents j = evtType
    · simp [h, handleCall]
    · rw [if_neg h, ih]
      have h2 : ¬ evtType = evtRead st (st.task i).subbedEvents j := fun e => h e.symm
      simp only [List.map_cons, List.mem_cons, h2, false_or]

theorem osMainBroadcastSlot_eq (st : State) (evtType evtData i : Nat) :
    osMainBroadcastSlot st evtType evtData i =
      if isSubscribed st i evtType = true then st.call (handleCall st evtType evtData i)
      else st := by
  unfold osMainBroadcastSlot isSubscribed subbedEvtList
  by_cases h : (st.task i).subbedEvents = .null
  · simp [h]
  · rw [if_neg h, osMainDeliver_eq, List.range_eq_range']
    simp [h]

theorem osMainBroadcast_fold (st : State) (evtType evtData : Nat) (l : List Nat)
    (tr : List Call) :
    l.foldl (fun s i => osMainBroadcastSlot s evtType evtData i) { st with trace := tr } =
      { st with trace := tr ++ deliveries st evtType evtData l } := by
  induction l generalizing tr with
  | nil => simp [deliveries]
  | cons a l ih =>
    have hs : isSubscribed { st with trace := tr } a evtType = isSubscribed st a evtType := by
      unfold isSubscribed subbedEvtList
      simp [State.task, evtRead_trace]
    rw [List.foldl_cons, osMainBroadcastSlot_eq, hs]
    by_cases h : isSubscribed st a evtType = true
    · rw [if_pos h]
      have : ({ st with trace := tr } : State).call
          (handleCall { st with trace := tr } evtType evtData a)
          = { st with trace := tr ++ [handleCall st evtType evtData a] } := rfl
      rw [this, ih]
      simp [deliveries, List.filter_cons, h]
    · rw [if_neg h, ih]
      simp [deliveries, List.filter_cons, h]

theorem osMainBroadcast_eq (c : Consts) (st : State) (evtType evtData : Nat) :
    osMainBroadcast c st evtType evtData =
      { st with trace := st.trace ++ broadcastCalls c st evtType evtData } := by
  have := osMainBroadcast_fold st evtType evtData (List.range c.MAX_TASKS) st.trace
  exact this

/-! ### Calls of the internal handler and of one iteration -/

theorem callsSince_append (st st2 : State) (l : List Call) (h : st2.trace = st.trace ++ l) :
    callsSince st st2 = l := by
  simp [callsSince, h]

theorem evtWrite_trace (st : State) (p : EvtPtr) (i v : Nat) :
    (evtWrite st p i v).trace = st.trace := by
  cases p <;> rfl

theorem evtUnsubAt_trace (st : State) (k i : Nat) : (evtUnsubAt st k i).trace = st.trace := by
  unfold evtUnsubAt
  simp only [evtWrite_trace]
  rfl

theorem evtListMove_trace (st : State) (k newSz a : Nat) :
    ∃ l, (evtListMove st k newSz a).trace = st.trace ++ l ∧ ∀ x ∈ l, Call.isHeap x = true := by
  unfold evtListMove
  by_cases hp : (st.task k).subbedEvents ≠ .embedded k
  · refine ⟨[.heapFree (st.task k).subbedEvents], ?_, ?_⟩
    · simp only [if_pos hp]
      rfl
    · simp [Call.isHeap]
  · refine ⟨[], ?_, ?_⟩
    · simp only [if_neg hp]
      simp [State.setTask]
    · simp

theorem evtListGrow_trace (st : State) (k : Nat) :
    ∃ l, (evtListGrow st k).trace = st.trace ++ l ∧ ∀ x ∈ l, Call.isHeap x = true := by
  unfold evtListGrow
  cases hr : (heapAlloc st.heap (4 * (((st.task k).subbedEvtListSz * 3 + 1) / 2))).1 with
  | none =>
    refine ⟨[.heapAlloc (4 * (((st.task k).subbedEvtListSz * 3 + 1) / 2)) none], ?_, ?_⟩
    · simp [State.call, hr]
    · simp [Call.isHeap]
  | some a =>
    simp only [hr]
    obtain ⟨l, hl, hh⟩ := evtListMove_trace
      (({ st with heap := (heapAlloc st.heap
        (4 * (((st.task k).subbedEvtListSz * 3 + 1) / 2))).2 } : State).call
        (.heapAlloc (4 * (((st.task k).subbedEvtListSz * 3 + 1) / 2)) (some a)))
      k (((st.task k).subbedEvtListSz * 3 + 1) / 2) a
    refine ⟨.heapAlloc (4 * (((st.task k).subbedEvtListSz * 3 + 1) / 2)) (some a) :: l, ?_, ?_⟩
    · rw [hl]
      simp [State.call]
    · intro x hx
      rcases List.mem_cons.1 hx with h | h
      · subst h
        rfl
      · exact hh x h

theorem evtAppend_trace (st : State) (k evt : Nat) : (evtAppend st k evt).trace = st.trace := by
  simp [evtAppend, State.setTask, evtWrite_trace]

theorem evtSubAt_trace (st : State) (k evt : Nat) :
    ∃ l, (evtSubAt st k evt).trace = st.trace ++ l ∧ ∀ x ∈ l, Call.isHeap x = true := by
  unfold evtSubAt
  have hg : ∃ l, (if (st.task k).subbedEvtListSz = (st.task k).subbedEvtCount then
      evtListGrow st k else st).trace = st.trace ++ l ∧ ∀ x ∈ l, Call.isHeap x = true := by
    by_cases h : (st.task k).subbedEvtListSz = (st.task k).subbedEvtCount
    · rw [if_pos h]
      exact evtListGrow_trace st k
    · rw [if_neg h]
      exact ⟨[], by simp, by simp⟩
  obtain ⟨l, hl, hh⟩ := hg
  refine ⟨l, ?_, hh⟩
  generalize (if (st.task k).subbedEvtListSz = (st.task k).subbedEvtCount then
      evtListGrow st k else st) = g at hl ⊢
  simp only []
  by_cases h2 : (g.task k).subbedEvtListSz > (g.task k).subbedEvtCount
  · rw [if_pos h2, evtAppend_trace, hl]
  · rw [if_neg h2, hl]

/-- The calls of the subscribe and unsubscribe branches go to the heap only. -/
theorem osInternalEvtHandle_sub_trace (c : Consts) (st : State) (evtType evtData : Nat)
    (h : evtType = EVT_SUBSCRIBE_TO_EVT ∨ evtType = EVT_UNSUBSCRIBE_TO_EVT) :
    ∃ l, (osInternalEvtHandle c st evtType evtData).trace = st.trace ++ l
      ∧ ∀ x ∈ l, Call.isHeap x = true := by
  unfold osInternalEvtHandle
  simp only [if_pos h]
  split
  · exact ⟨[], by simp, by simp⟩
  · split
    · exact ⟨[], by simp [evtUnsubAt_trace], by simp⟩
    · split
      · exact evtSubAt_trace _ _ _
      · exact ⟨[], by simp, by simp⟩

theorem osInternalEvtHandle_deferred (c : Consts) (st : State) (evtData : Nat) :
    osInternalEvtHandle c st EVT_DEFERRED_CALLBACK evtData =
      st.call (.deferredCallback (st.mDeferedActionsSlab.deref evtData).deferred.callback
        (st.mDeferedActionsSlab.deref evtData).deferred.cookie) := by
  simp [osInternalEvtHandle, EVT_DEFERRED_CALLBACK, EVT_SUBSCRIBE_TO_EVT, EVT_UNSUBSCRIBE_TO_EVT]

theorem osInternalEvtHandle_private_trace (c : Consts) (st : State) (evtData : Nat) :
    (osInternalEvtHandle c st EVT_PRIVATE_EVT evtData).trace =
      st.trace ++ privateEvtCalls c st (st.mDeferedActionsSlab.deref evtData).privateEvt := by
  simp only [osInternalEvtHandle, EVT_DEFERRED_CALLBACK, EVT_SUBSCRIBE_TO_EVT,
    EVT_UNSUBSCRIBE_TO_EVT, EVT_PRIVATE_EVT, privateEvtCalls]
  simp only [show ¬ ((3 : Nat) = 0 ∨ (3 : Nat) = 1) by decide, show ¬ ((3 : Nat) = 2) by decide,
    if_false, if_true]
  cases osTaskFindByTid c st (st.mDeferedActionsSlab.deref evtData).privateEvt.toTid <;>
    by_cases hf : (st.mDeferedActionsSlab.deref evtData).privateEvt.evtFreeF = .null <;>
    simp [hf, evtFreeCall, State.call, handleCall] <;>
    (cases hq : (st.mDeferedActionsSlab.deref evtData).privateEvt.evtFreeF <;> simp_all)

theorem osInternalEvtHandle_other (c : Consts) (st : State) (evtType evtData : Nat)
    (h : 3 < evtType) : osInternalEvtHandle c st evtType evtData = st := by
  have h0 : ¬ (evtType = 0 ∨ evtType = 1) := by omega
  have h2 : ¬ evtType = 2 := by omega
  have h3 : ¬ evtType = 3 := by omega
  simp [osInternalEvtHandle, EVT_DEFERRED_CALLBACK, EVT_SUBSCRIBE_TO_EVT,
    EVT_UNSUBSCRIBE_TO_EVT, EVT_PRIVATE_EVT, h0, h2, h3]

theorem isHandle_of_isHeap (x : Call) (h : Call.isHeap x = true) : Call.isHandle x = false := by
  cases x <;> simp_all [Call.isHeap, Call.isHandle]

theorem filter_isHandle_heap (l : List Call) (h : ∀ x ∈ l, Call.isHeap x = true) :
    l.filter Call.isHandle = [] := by
  rw [List.filter_eq_nil_iff]
  intro x hx
  simp [isHandle_of_isHeap x (h x hx)]

theorem filter_isHandle_deliveries (st : State) (evtType evtData : Nat) (l : List Nat) :
    (deliveries st evtType evtData l).filter Call.isHandle = deliveries st evtType evtData l := by
  rw [List.filter_eq_self]
  intro x hx
  simp only [deliveries, List.mem_map] at hx
  obtain ⟨i, _, rfl⟩ := hx
  rfl

theorem filter_isHandle_freeCalls (ev : Event) : (freeCalls ev).filter Call.isHandle = [] := by
  unfold freeCalls
  split <;> simp [Call.isHandle]

theorem evtFreeCall_trace (st : State) (f : EventFreeF) (d : Nat) :
    (evtFreeCall st f d).trace = st.trace ++ [.evtFree f d] := by
  cases f <;> rfl

theorem osMainIter_eq (c : Consts) (st : State) (ev : Event) (q : EvtQueue)
    (hdq : evtQueueDequeue st.mEvtsInternal = some (ev, q)) :
    osMainIter c st =
      if ev.evtFreeF ≠ .null then evtFreeCall (osMainHandled c st ev q) ev.evtFreeF ev.evtData
      else osMainHandled c st ev q := by
  simp only [osMainIter, hdq, osMainHandled]

theorem osMainIter_trace (c : Consts) (st : State) (ev : Event) (q : EvtQueue)
    (hdq : evtQueueDequeue st.mEvtsInternal = some (ev, q)) :
    (osMainIter c st).trace = (osMainHandled c st ev q).trace ++ freeCalls ev := by
  rw [osMainIter_eq c st ev q hdq, freeCalls]
  by_cases h : ev.evtFreeF ≠ .null
  · rw [if_pos h, if_pos h, evtFreeCall_trace]
  · rw [if_neg h, if_neg h, List.append_nil]

theorem osMainHandled_user (c : Consts) (st : State) (ev : Event) (q : EvtQueue)
    (h : c.EVT_NO_FIRST_USER_EVENT ≤ ev.evtType) :
    osMainHandled c st ev q =
      { st with mEvtsInternal := q
                trace := st.trace ++ broadcastCalls c st ev.evtType ev.evtData } := by
  have h2 : ¬ ev.evtType < c.EVT_NO_FIRST_USER_EVENT := by omega
  rw [osMainHandled, if_neg h2, osMainBroadcast_eq]
  rfl

/-- The handler's calls, for every event type: the trace only grows. -/
theorem osInternalEvtHandle_trace (c : Consts) (st : State) (evtType evtData : Nat) :
    ∃ l, (osInternalEvtHandle c st evtType evtData).trace = st.trace ++ l
      ∧ l.filter Call.isHandle =
          (if evtType = EVT_PRIVATE_EVT then
            (privateEvtCalls c st (st.mDeferedActionsSlab.deref evtData).privateEvt).filter
              Call.isHandle
          else [])
      ∧ (evtType ≠ EVT_PRIVATE_EVT → ∀ f d, Call.evtFree f d ∉ l) := by
  by_cases h01 : evtType = EVT_SUBSCRIBE_TO_EVT ∨ evtType = EVT_UNSUBSCRIBE_TO_EVT
  · obtain ⟨l, hl, hh⟩ := osInternalEvtHandle_sub_trace c st evtType evtData h01
    refine ⟨l, hl, ?_, ?_⟩
    · have : evtType ≠ EVT_PRIVATE_EVT := by
        rcases h01 with h | h <;> rw [h] <;> decide
      rw [if_neg this]
      exact filter_isHandle_heap l hh
    · intro _ f d hm
      have := hh _ hm
      simp [Call.isHeap] at this
  · by_cases h2 : evtType = EVT_DEFERRED_CALLBACK
    · subst h2
      refine ⟨[.deferredCallback (st.mDeferedActionsSlab.deref evtData).deferred.callback
        (st.mDeferedActionsSlab.deref evtData).deferred.cookie], ?_, ?_, ?_⟩
      · rw [osInternalEvtHandle_deferred]
        rfl
      · simp [Call.isHandle, EVT_DEFERRED_CALLBACK, EVT_PRIVATE_EVT]
      · intro _ f d hm
        simp at hm
    · by_cases h3 : evtType = EVT_PRIVATE_EVT
      · subst h3
        refine ⟨_, osInternalEvtHandle_private_trace c st evtData, ?_, ?_⟩
        · simp
        · intro h
          exact absurd rfl h
      · have h4 : 3 < evtType := by
          simp only [EVT_SUBSCRIBE_TO_EVT, EVT_UNSUBSCRIBE_TO_EVT, EVT_DEFERRED_CALLBACK,
            EVT_PRIVATE_EVT] at h01 h2 h3
          omega
        refine ⟨[], ?_, ?_, ?_⟩
        · rw [osInternalEvtHandle_other c st evtType evtData h4]
          simp
        · simp [h3]
        · intro _ f d hm
          simp at hm

theorem privateEvtCalls_filter (c : Consts) (st : State) (pe : PrivateEvt) :
    (privateEvtCalls c st pe).filter Call.isHandle =
      match osTaskFindByTid c st pe.toTid with
      | some k => [handleCall st pe.evtType pe.evtData k]
      | none => [] := by
  unfold privateEvtCalls
  cases osTaskFindByTid c st pe.toTid <;> by_cases hf : pe.evtFreeF = .null <;>
    simp [hf, Call.isHandle, handleCall]

/-- C2. For every task table and every event dequeued by a main-loop
iteration: when the type is at least `EVT_NO_FIRST_USER_EVENT`, the
`cpuAppHandle` calls of the iteration are exactly one call `(type, data)` per
slot that has a subscription list containing the type (however often it
occurs there), in increasing slot order, and nothing else changes but the
trace; when the type is below `EVT_NO_FIRST_USER_EVENT`, the only
`cpuAppHandle` call of the iteration is the private delivery of an
`EVT_PRIVATE_EVT`, so no slot is called because of its subscription list. -/
theorem osMain_broadcast_calls (c : Consts) (st : State) (ev : Event) (q : EvtQueue)
    (hdq : evtQueueDequeue st.mEvtsInternal = some (ev, q)) :
    (c.EVT_NO_FIRST_USER_EVENT ≤ ev.evtType →
      osMainHandled c st ev q =
        { st with mEvtsInternal := q
                  trace := st.trace ++ ((List.range c.MAX_TASKS).filter
                    (fun i => isSubscribed st i ev.evtType)).map
                    (fun i => Call.cpuAppHandle (st.task i).appHdr i ev.evtType ev.evtData) }
      ∧ (callsSince st (osMainIter c st)).filter Call.isHandle =
          ((List.range c.MAX_TASKS).filter (fun i => isSubscribed st i ev.evtType)).map
            (fun i => Call.cpuAppHandle (st.task i).appHdr i ev.evtType ev.evtData))
    ∧ (ev.evtType < c.EVT_NO_FIRST_USER_EVENT →
      (callsSince st (osMainIter c st)).filter Call.isHandle =
        if ev.evtType = EVT_PRIVATE_EVT then
          match osTaskFindByTid c st (st.mDeferedActionsSlab.deref ev.evtData).privateEvt.toTid with
          | some k => [Call.cpuAppHandle (st.task k).appHdr k
              (st.mDeferedActionsSlab.deref ev.evtData).privateEvt.evtType
              (st.mDeferedActionsSlab.deref ev.evtData).privateEvt.evtData]
          | none => []
        else []) := by
  constructor
  · intro hu
    have hh := osMainHandled_user c st ev q hu
    refine ⟨hh, ?_⟩
    have ht := osMainIter_trace c st ev q hdq
    rw [hh] at ht
    rw [callsSince_append st _ _ (by rw [ht, List.append_assoc]), List.filter_append,
      filter_isHandle_freeCalls, List.append_nil]
    exact filter_isHandle_deliveries st ev.evtType ev.evtData (List.range c.MAX_TASKS)
  · intro hi
    have ht := osMainIter_trace c st ev q hdq
    obtain ⟨l, hl, hf, _⟩ :=
      osInternalEvtHandle_trace c { st with mEvtsInternal := q } ev.evtType ev.evtData
    have hh : (osMainHandled c st ev q).trace = st.trace ++ l := by
      rw [osMainHandled, if_pos hi, hl]
    rw [hh] at ht
    rw [callsSince_append st _ _ (by rw [ht, List.append_assoc]), List.filter_append,
      filter_isHandle_freeCalls, List.append_nil, hf]
    by_cases h3 : ev.evtType = EVT_PRIVATE_EVT
    · rw [if_pos h3, if_pos h3, privateEvtCalls_filter]
      rfl
    · rw [if_neg h3, if_neg h3]

/-- C2 at a concrete table: a broadcast of 512 calls slots 0 and 1 once
each, in that order, although slot 0 lists 512 twice; an event of the
reserved type 2 calls no task handler, although slot 1 lists 2. -/
theorem osMain_broadcast_calls_witness :
    (callsSince (wState [⟨512, 55, .null⟩] wSlab)
        (osMainIter wConsts (wState [⟨512, 55, .null⟩] wSlab))).filter Call.isHandle
      = [.cpuAppHandle 100 0 512 55, .cpuAppHandle 101 1 512 55]
    ∧ (callsSince (wState [⟨2, 1, .null⟩] wSlab)
        (osMainIter wConsts (wState [⟨2, 1, .null⟩] wSlab))).filter Call.isHandle = [] := by
  constructor
  · rw [((osMain_broadcast_calls wConsts (wState [⟨512, 55, .null⟩] wSlab) ⟨512, 55, .null⟩
      ⟨4, []⟩ rfl).1 (by decide)).2]
    decide
  · rw [(osMain_broadcast_calls wConsts (wState [⟨2, 1, .null⟩] wSlab) ⟨2, 1, .null⟩
      ⟨4, []⟩ rfl).2 (by decide)]
    decide

/-! ### Task lookup, private events, release of the event -/

theorem osTaskFindByTidLoop_some (mTasks : List Task) (tid : Nat) (n i k : Nat)
    (h : osTaskFindByTidLoop mTasks tid n i = some k) :
    i ≤ k ∧ k < i + n ∧ (mTasks.getD k default).tid = tid
      ∧ ∀ j, i ≤ j → j < k → (mTasks.getD j default).tid ≠ tid := by
  induction n generalizing i with
  | zero => simp [osTaskFindByTidLoop] at h
  | succ n ih =>
    rw [osTaskFindByTidLoop] at h
    by_cases ht : (mTasks.getD i default).tid = tid
    · rw [if_pos ht] at h
      cases h
      exact ⟨le_refl _, by omega, ht, fun j h1 h2 => absurd h1 (by omega)⟩
    · rw [if_neg ht] at h
      obtain ⟨h1, h2, h3, h4⟩ := ih (i + 1) h
      refine ⟨by omega, by omega, h3, ?_⟩
      intro j hj1 hj2
      by_cases hji : j = i
      · subst hji
        exact ht
      · exact h4 j (by omega) hj2

theorem osTaskFindByTidLoop_none (mTasks : List Task) (tid : Nat) (n i : Nat)
    (h : osTaskFindByTidLoop mTasks tid n i = none) :
    ∀ j, i ≤ j → j < i + n → (mTasks.getD j default).tid ≠ tid := by
  induction n generalizing i with
  | zero =>
    intro j h1 h2
    omega
  | succ n ih =>
    rw [osTaskFindByTidLoop] at h
    by_cases ht : (mTasks.getD i default).tid = tid
    · rw [if_pos ht] at h
      cases h
    · rw [if_neg ht] at h
      intro j hj1 hj2
      by_cases hji : j = i
      · subst hji
        exact ht
      · exact ih (i + 1) h j (by omega) (by omega)

/-- A slot returned by `osTaskFindByTid` is the first of the `MAX_TASKS` slots
that carries the tid. -/
theorem osTaskFindByTid_some (c : Consts) (st : State) (tid k : Nat)
    (h : osTaskFindByTid c st tid = some k) :
    k < c.MAX_TASKS ∧ (st.task k).tid = tid ∧ ∀ j, j < k → (st.task j).tid ≠ tid := by
  obtain ⟨_, h2, h3, h4⟩ := osTaskFindByTidLoop_some st.mTasks tid c.MAX_TASKS 0 k h
  exact ⟨by omega, h3, fun j hj => h4 j (Nat.zero_le _) hj⟩

/-- When `osTaskFindByTid` finds nothing, no slot carries the tid. -/
theorem osTaskFindByTid_none (c : Consts) (st : State) (tid : Nat)
    (h : osTaskFindByTid c st tid = none) :
    ∀ j, j < c.MAX_TASKS → (st.task j).tid ≠ tid := by
  intro j hj
  exact osTaskFindByTidLoop_none st.mTasks tid c.MAX_TASKS 0 h j (Nat.zero_le _) (by omega)

theorem evtFreeCall_frame (st : State) (f : EventFreeF) (d : Nat) :
    (evtFreeCall st f d).mTasks = st.mTasks
      ∧ (evtFreeCall st f d).mEvtsInternal = st.mEvtsInternal
      ∧ (evtFreeCall st f d).mEvtsExternal = st.mEvtsExternal
      ∧ (evtFreeCall st f d).heap = st.heap := by
  cases f <;> exact ⟨rfl, rfl, rfl, rfl⟩

theorem osInternalEvtHandle_private_eq (c : Consts) (st : State) (evtData : Nat) :
    osInternalEvtHandle c st EVT_PRIVATE_EVT evtData =
      (if (st.mDeferedActionsSlab.deref evtData).privateEvt.evtFreeF ≠ .null then
        evtFreeCall
          (match osTaskFindByTid c st (st.mDeferedActionsSlab.deref evtData).privateEvt.toTid with
            | some k => st.call (.cpuAppHandle (st.task k).appHdr k
                (st.mDeferedActionsSlab.deref evtData).privateEvt.evtType
                (st.mDeferedActionsSlab.deref evtData).privateEvt.evtData)
            | none => st)
          (st.mDeferedActionsSlab.deref evtData).privateEvt.evtFreeF
          (st.mDeferedActionsSlab.deref evtData).privateEvt.evtData
      else
        match osTaskFindByTid c st (st.mDeferedActionsSlab.deref evtData).privateEvt.toTid with
          | some k => st.call (.cpuAppHandle (st.task k).appHdr k
              (st.mDeferedActionsSlab.deref evtData).privateEvt.evtType
              (st.mDeferedActionsSlab.deref evtData).privateEvt.evtData)
          | none => st) := by
  simp only [osInternalEvtHandle, EVT_DEFERRED_CALLBACK, EVT_SUBSCRIBE_TO_EVT,
    EVT_UNSUBSCRIBE_TO_EVT, EVT_PRIVATE_EVT]
  simp only [show ¬ ((3 : Nat) = 0 ∨ (3 : Nat) = 1) by decide, show ¬ ((3 : Nat) = 2) by decide,
    if_false, if_true]

/-- C5. For every private-event record and every task table, the calls of
`osInternalEvtHandle` on `EVT_PRIVATE_EVT` are: one delivery of
`(inner_type, inner_data)` to the slot `osTaskFindByTid` returns for `to_tid`
(the first slot carrying that tid), none when no slot carries it; then,
found or not, one call `inner_free(inner_data)` when `inner_free` is
non-null and none when it is null. The task table and both queues are left
as they were. -/
theorem osInternalEvtHandle_private_evt (c : Consts) (st : State) (evtData : Nat) :
    (osInternalEvtHandle c st EVT_PRIVATE_EVT evtData).trace =
        st.trace
        ++ (match osTaskFindByTid c st (st.mDeferedActionsSlab.deref evtData).privateEvt.toTid with
            | some k => [Call.cpuAppHandle (st.task k).appHdr k
                (st.mDeferedActionsSlab.deref evtData).privateEvt.evtType
                (st.mDeferedActionsSlab.deref evtData).privateEvt.evtData]
            | none => [])
        ++ (if (st.mDeferedActionsSlab.deref evtData).privateEvt.evtFreeF ≠ .null then
              [Call.evtFree (st.mDeferedActionsSlab.deref evtData).privateEvt.evtFreeF
                (st.mDeferedActionsSlab.deref evtData).privateEvt.evtData]
            else [])
    ∧ (∀ k, osTaskFindByTid c st (st.mDeferedActionsSlab.deref evtData).privateEvt.toTid = some k →
        k < c.MAX_TASKS
        ∧ (st.task k).tid = (st.mDeferedActionsSlab.deref evtData).privateEvt.toTid
        ∧ ∀ j, j < k → (st.task j).tid ≠ (st.mDeferedActionsSlab.deref evtData).privateEvt.toTid)
    ∧ (osTaskFindByTid c st (st.mDeferedActionsSlab.deref evtData).privateEvt.toTid = none →
        ∀ j, j < c.MAX_TASKS →
          (st.task j).tid ≠ (st.mDeferedActionsSlab.deref evtData).privateEvt.toTid)
    ∧ (osInternalEvtHandle c st EVT_PRIVATE_EVT evtData).mTasks = st.mTasks
    ∧ (osInternalEvtHandle c st EVT_PRIVATE_EVT evtData).mEvtsInternal = st.mEvtsInternal
    ∧ (osInternalEvtHandle c st EVT_PRIVATE_EVT evtData).mEvtsExternal = st.mEvtsExternal := by
  refine ⟨?_, fun k hk => osTaskFindByTid_some c st _ k hk,
    fun hn => osTaskFindByTid_none c st _ hn, ?_⟩
  · rw [osInternalEvtHandle_private_trace, privateEvtCalls, List.append_assoc]
    rfl
  · rw [osInternalEvtHandle_private_eq]
    by_cases hf : (st.mDeferedActionsSlab.deref evtData).privateEvt.evtFreeF ≠ .null
    · rw [if_pos hf]
      obtain ⟨h1, h2, h3, _⟩ := evtFreeCall_frame
        (match osTaskFindByTid c st (st.mDeferedActionsSlab.deref evtData).privateEvt.toTid with
          | some k => st.call (.cpuAppHandle (st.task k).appHdr k
              (st.mDeferedActionsSlab.deref evtData).privateEvt.evtType
              (st.mDeferedActionsSlab.deref evtData).privateEvt.evtData)
          | none => st)
        (st.mDeferedActionsSlab.deref evtData).privateEvt.evtFreeF
        (st.mDeferedActionsSlab.deref evtData).privateEvt.evtData
      rw [h1, h2, h3]
      cases osTaskFindByTid c st (st.mDeferedActionsSlab.deref evtData).privateEvt.toTid <;>
        exact ⟨rfl, rfl, rfl⟩
    · rw [if_neg hf]
      cases osTaskFindByTid c st (st.mDeferedActionsSlab.deref evtData).privateEvt.toTid <;>
        exact ⟨rfl, rfl, rfl⟩

/-- C3. For every event dequeued by a main-loop iteration, of a reserved or
of a user type: the trace of the iteration is the calls of the handling
(internal handler or broadcast) followed by one call of the event's free hook
on the event's data when the hook is non-null, and by nothing when it is
null. That call is the only call of the hook on that data in the iteration,
unless the event is a private event whose own record names the same hook and
the same data for its inner payload. -/
theorem osMain_free_after_handling (c : Consts) (st : State) (ev : Event) (q : EvtQueue)
    (hdq : evtQueueDequeue st.mEvtsInternal = some (ev, q)) :
    ∃ handling : List Call,
      (osMainHandled c st ev q).trace = st.trace ++ handling
      ∧ (osMainIter c st).trace = st.trace ++ handling
          ++ (if ev.evtFreeF ≠ .null then [Call.evtFree ev.evtFreeF ev.evtData] else [])
      ∧ (¬ (ev.evtType = EVT_PRIVATE_EVT
            ∧ (st.mDeferedActionsSlab.deref ev.evtData).privateEvt.evtFreeF = ev.evtFreeF
            ∧ (st.mDeferedActionsSlab.deref ev.evtData).privateEvt.evtData = ev.evtData) →
          (callsSince st (osMainIter c st)).count (Call.evtFree ev.evtFreeF ev.evtData)
            = if ev.evtFreeF ≠ .null then 1 else 0) := by
  have ht := osMainIter_trace c st ev q hdq
  have key : ∃ handling : List Call, (osMainHandled c st ev q).trace = st.trace ++ handling
      ∧ (¬ (ev.evtType = EVT_PRIVATE_EVT
            ∧ (st.mDeferedActionsSlab.deref ev.evtData).privateEvt.evtFreeF = ev.evtFreeF
            ∧ (st.mDeferedActionsSlab.deref ev.evtData).privateEvt.evtData = ev.evtData) →
          Call.evtFree ev.evtFreeF ev.evtData ∉ handling) := by
    by_cases hu : c.EVT_NO_FIRST_USER_EVENT ≤ ev.evtType
    · refine ⟨broadcastCalls c st ev.evtType ev.evtData, ?_, ?_⟩
      · rw [osMainHandled_user c st ev q hu]
      · intro _ hm
        simp only [broadcastCalls, deliveries, List.mem_map] at hm
        obtain ⟨i, _, hi⟩ := hm
        simp [handleCall] at hi
    · have hi : ev.evtType < c.EVT_NO_FIRST_USER_EVENT := by omega
      obtain ⟨l, hl, _, hf⟩ :=
        osInternalEvtHandle_trace c { st with mEvtsInternal := q } ev.evtType ev.evtData
      refine ⟨l, by rw [osMainHandled, if_pos hi, hl], ?_⟩
      intro hnd hm
      by_cases h3 : ev.evtType = EVT_PRIVATE_EVT
      · have hl2 := osInternalEvtHandle_private_trace c { st with mEvtsInternal := q } ev.evtData
        rw [← h3, hl] at hl2
        have hl3 := List.append_cancel_left hl2
        rw [hl3, privateEvtCalls] at hm
        rcases List.mem_append.1 hm with hm | hm
        · revert hm
          cases osTaskFindByTid c { st with mEvtsInternal := q }
            (SlabAllocator.deref st.mDeferedActionsSlab ev.evtData).privateEvt.toTid <;>
            simp [handleCall]
        · by_cases hn : (SlabAllocator.deref st.mDeferedActionsSlab ev.evtData).privateEvt.evtFreeF
              = .null
          · simp [hn] at hm
          · simp [hn] at hm
            exact hnd ⟨h3, hm.1.symm, hm.2.symm⟩
      · exact hf h3 _ _ hm
  obtain ⟨handling, hh, hno⟩ := key
  refine ⟨handling, hh, ?_, ?_⟩
  · rw [ht, hh, freeCalls]
  · intro hnd
    rw [callsSince_append st _ (handling ++ freeCalls ev) (by rw [ht, hh, List.append_assoc]),
      List.count_append, List.count_eq_zero_of_not_mem (hno hnd), freeCalls]
    by_cases hn : ev.evtFreeF ≠ .null
    · rw [if_pos hn, if_pos hn]
      simp
    · rw [if_neg hn, if_neg hn]
      simp

/-- C3 at concrete queues: a user event with free hook `fn 9` and a deferred
callback event with the kernel's hook are each released once, after the
handling; a user event without hook is not released. -/
theorem osMain_free_after_handling_witness :
    (osMainIter wConsts (wState [⟨512, 55, .fn 9⟩] wSlab)).trace
        = [.cpuAppHandle 100 0 512 55, .cpuAppHandle 101 1 512 55, .evtFree (.fn 9) 55]
    ∧ (osMainIter wConsts (wState [⟨2, 1, .osDeferredActionFreeF⟩] wSlab)).trace
        = [.deferredCallback 7 8, .evtFree .osDeferredActionFreeF 1]
    ∧ (callsSince (wState [⟨512, 55, .fn 9⟩] wSlab)
        (osMainIter wConsts (wState [⟨512, 55, .fn 9⟩] wSlab))).count (.evtFree (.fn 9) 55) = 1 := by
  obtain ⟨h, _, _, h3⟩ := osMain_free_after_handling wConsts (wState [⟨512, 55, .fn 9⟩] wSlab)
    ⟨512, 55, .fn 9⟩ ⟨4, []⟩ rfl
  exact ⟨by decide, by decide, h3 (by decide)⟩

/-- For a tid that no slot carries, the handler drops `EVT_SUBSCRIBE` and
`EVT_UNSUBSCRIBE` without any effect, and on `EVT_PRIVATE_EVT` only releases
the inner payload. -/
theorem osInternalEvtHandle_unknown_tid (c : Consts) (st : State) (evtData : Nat) :
    (osTaskFindByTid c st (st.mDeferedActionsSlab.deref evtData).evtSub.tid = none →
      osInternalEvtHandle c st EVT_SUBSCRIBE_TO_EVT evtData = st
      ∧ osInternalEvtHandle c st EVT_UNSUBSCRIBE_TO_EVT evtData = st)
    ∧ (osTaskFindByTid c st (st.mDeferedActionsSlab.deref evtData).privateEvt.toTid = none →
      (osInternalEvtHandle c st EVT_PRIVATE_EVT evtData).mTasks = st.mTasks
      ∧ (osInternalEvtHandle c st EVT_PRIVATE_EVT evtData).trace
          = st.trace ++ (if (st.mDeferedActionsSlab.deref evtData).privateEvt.evtFreeF ≠ .null then
              [Call.evtFree (st.mDeferedActionsSlab.deref evtData).privateEvt.evtFreeF
                (st.mDeferedActionsSlab.deref evtData).privateEvt.evtData]
            else [])) := by
  constructor
  · intro h
    constructor <;>
      simp [osInternalEvtHandle, EVT_SUBSCRIBE_TO_EVT, EVT_UNSUBSCRIBE_TO_EVT, h]
  · intro h
    constructor
    · rw [osInternalEvtHandle_private_eq, h]
      split
      · exact (evtFreeCall_frame _ _ _).1
      · rfl
    · rw [osInternalEvtHandle_private_trace, privateEvtCalls, h]
      rfl

/-! ### Producers -/

theorem osEventSubscribeUnsubscribe_produce (st : State) (tid evtType : Nat) (sub : Bool) :
    osEventSubscribeUnsubscribe st tid evtType sub =
      produce st (fun da => { da with evtSub := ⟨tid, evtType⟩ })
        (if sub then EVT_SUBSCRIBE_TO_EVT else EVT_UNSUBSCRIBE_TO_EVT) := rfl

theorem osDefer_produce (st : State) (callback cookie : Nat) :
    osDefer st callback cookie =
      produce st (fun da => { da with deferred := ⟨callback, cookie⟩ }) EVT_DEFERRED_CALLBACK :=
  rfl

theorem osEnqueuePrivateEvt_produce (st : State) (evtType evtData : Nat) (evtFreeF : EventFreeF)
    (toTid : Nat) :
    osEnqueuePrivateEvt st evtType evtData evtFreeF toTid =
      produce st (fun da => { da with privateEvt := ⟨evtType, evtData, evtFreeF, toTid⟩ })
        EVT_PRIVATE_EVT := rfl

theorem firstFree_some (l : List Bool) (p : Nat) (h : firstFree l = some p) :
    p < l.length ∧ l.getD p true = false ∧ ∀ j, j < p → l.getD j false = true := by
  induction l generalizing p with
  | nil => simp [firstFree] at h
  | cons b l ih =>
    cases b with
    | false =>
      simp only [firstFree, Option.some.injEq] at h
      subst h
      exact ⟨by simp, by simp, fun j hj => absurd hj (by omega)⟩
    | true =>
      simp only [firstFree, Option.map_eq_some'] at h
      obtain ⟨p2, h1, rfl⟩ := h
      obtain ⟨i1, i2, i3⟩ := ih p2 h1
      refine ⟨by simp [i1], by simpa using i2, ?_⟩
      intro j hj
      cases j with
      | zero => simp
      | succ j => simpa using i3 j (by omega)

theorem firstFree_none_iff (l : List Bool) : firstFree l = none ↔ l.count true = l.length := by
  induction l with
  | nil => simp [firstFree]
  | cons b l ih =>
    cases b with
    | false =>
      simp only [firstFree, List.length_cons]
      have := List.count_le_length true l
      simp
      omega
    | true =>
      simp only [firstFree, Option.map_eq_none', ih, List.length_cons]
      simp

theorem set_set_of_getD (l : List Bool) (p : Nat) (h : l.getD p true = false) :
    (l.set p true).set p false = l := by
  induction l generalizing p with
  | nil => simp
  | cons b l ih =>
    cases p with
    | zero =>
      simp at h
      simp [h]
    | succ p =>
      simp at h
      simp [ih p (by simpa using h)]

theorem count_set_true (l : List Bool) (p : Nat) (hp : p < l.length)
    (h : l.getD p true = false) : (l.set p true).count true = l.count true + 1 := by
  induction l generalizing p with
  | nil => simp at hp
  | cons b l ih =>
    cases p with
    | zero =>
      simp at h
      simp [h]
    | succ p =>
      simp at h hp
      have := ih p hp (by simpa using h)
      cases b <;> simp [List.count_cons, this]

theorem osEventSubscribe_produce (st : State) (tid evtType : Nat) :
    osEventSubscribe st tid evtType =
      produce st (fun da => { da with evtSub := ⟨tid, evtType⟩ }) EVT_SUBSCRIBE_TO_EVT := rfl

theorem osEventUnsubscribe_produce (st : State) (tid evtType : Nat) :
    osEventUnsubscribe st tid evtType =
      produce st (fun da => { da with evtSub := ⟨tid, evtType⟩ }) EVT_UNSUBSCRIBE_TO_EVT := rfl

theorem produce_none (st : State) (fill : DeferredAction → DeferredAction) (evtType : Nat)
    (hf : firstFree st.mDeferedActionsSlab.used = none) : produce st fill evtType = (false, st) := by
  simp [produce, slabAllocatorAlloc, hf]

theorem produce_some (st : State) (fill : DeferredAction → DeferredAction) (evtType p : Nat)
    (hf : firstFree st.mDeferedActionsSlab.used = some p) :
    produce st fill evtType =
      osEnqueueDeferred { st with mDeferedActionsSlab :=
        ⟨st.mDeferedActionsSlab.used.set p true,
          st.mDeferedActionsSlab.items.set p (fill (st.mDeferedActionsSlab.items.getD p default))⟩ }
        evtType p := by
  simp [produce, slabAllocatorAlloc, hf, SlabAllocator.store, SlabAllocator.deref]

theorem osEnqueueDeferred_full (st : State) (evtType act : Nat)
    (hq : ¬ st.mEvtsInternal.evts.length < st.mEvtsInternal.size) :
    osEnqueueDeferred st evtType act =
      (false, { st with mDeferedActionsSlab := slabAllocatorFree st.mDeferedActionsSlab act }) := by
  simp [osEnqueueDeferred, osEnqueueEvt, evtQueueEnqueue, hq]

theorem osEnqueueDeferred_room (st : State) (evtType act : Nat)
    (hq : st.mEvtsInternal.evts.length < st.mEvtsInternal.size) :
    osEnqueueDeferred st evtType act =
      (true, { st with mEvtsInternal := { st.mEvtsInternal with
        evts := st.mEvtsInternal.evts ++ [⟨evtType, act, .osDeferredActionFreeF⟩] } }) := by
  simp [osEnqueueDeferred, osEnqueueEvt, evtQueueEnqueue, hq]

theorem produce_refused (st : State) (fill : DeferredAction → DeferredAction) (evtType : Nat)
    (h : st.mDeferedActionsSlab.outstanding = st.mDeferedActionsSlab.used.length
      ∨ st.mEvtsInternal.size ≤ st.mEvtsInternal.evts.length) :
    Refused st (produce st fill evtType) := by
  cases hf : firstFree st.mDeferedActionsSlab.used with
  | none =>
    rw [produce_none st fill evtType hf]
    exact ⟨rfl, rfl, rfl, rfl, rfl, rfl, rfl, rfl, rfl⟩
  | some p =>
    have hq : ¬ st.mEvtsInternal.evts.length < st.mEvtsInternal.size := by
      rcases h with h | h
      · have := (firstFree_none_iff _).2 h
        rw [hf] at this
        cases this
      · omega
    obtain ⟨_, h2, _⟩ := firstFree_some _ _ hf
    have hu := set_set_of_getD _ _ h2
    rw [produce_some st fill evtType p hf, osEnqueueDeferred_full
      { st with mDeferedActionsSlab :=
        ⟨st.mDeferedActionsSlab.used.set p true,
          st.mDeferedActionsSlab.items.set p (fill (st.mDeferedActionsSlab.items.getD p default))⟩ } evtType p hq]
    refine ⟨rfl, rfl, rfl, ?_, ?_, rfl, rfl, rfl, rfl⟩
    · simp only [slabAllocatorFree, hu]
    · simp only [slabAllocatorFree, SlabAllocator.outstanding, hu]

theorem produce_accepted (st : State) (fill : DeferredAction → DeferredAction) (evtType : Nat)
    (h : (produce st fill evtType).1 = true) : Accepted st evtType (produce st fill evtType) := by
  cases hf : firstFree st.mDeferedActionsSlab.used with
  | none =>
    rw [produce_none st fill evtType hf] at h
    cases h
  | some p =>
    obtain ⟨h1, h2, _⟩ := firstFree_some _ _ hf
    rw [produce_some st fill evtType p hf] at h ⊢
    by_cases hq : st.mEvtsInternal.evts.length < st.mEvtsInternal.size
    · rw [osEnqueueDeferred_room
        { st with mDeferedActionsSlab :=
        ⟨st.mDeferedActionsSlab.used.set p true,
          st.mDeferedActionsSlab.items.set p (fill (st.mDeferedActionsSlab.items.getD p default))⟩ } evtType p hq]
      refine ⟨p, hf, hq, rfl, rfl, ?_⟩
      simp only [SlabAllocator.outstanding, count_set_true _ _ h1 h2]
    · rw [osEnqueueDeferred_full
        { st with mDeferedActionsSlab :=
        ⟨st.mDeferedActionsSlab.used.set p true,
          st.mDeferedActionsSlab.items.set p (fill (st.mDeferedActionsSlab.items.getD p default))⟩ } evtType p hq] at h
      cases h

/-- C4. For `osEventSubscribe`, `osEventUnsubscribe`, `osDefer` and
`osEnqueuePrivateEvt`: when every slab record is in use, or the internal queue
is full, the call returns false and leaves both queues, the records in use,
the task table and the trace (no call made, so the payload is not freed) as
they were; and a call that returns true allocated a record and appended its
event to the internal queue. -/
theorem producers_refuse_cleanly (st : State) (tid evt callback cookie evtType evtData : Nat)
    (evtFreeF : EventFreeF) (toTid : Nat) :
    ((st.mDeferedActionsSlab.outstanding = st.mDeferedActionsSlab.used.length
        ∨ st.mEvtsInternal.size ≤ st.mEvtsInternal.evts.length) →
      Refused st (osEventSubscribe st tid evt)
      ∧ Refused st (osEventUnsubscribe st tid evt)
      ∧ Refused st (osDefer st callback cookie)
      ∧ Refused st (osEnqueuePrivateEvt st evtType evtData evtFreeF toTid))
    ∧ ((osEventSubscribe st tid evt).1 = true →
        Accepted st EVT_SUBSCRIBE_TO_EVT (osEventSubscribe st tid evt))
    ∧ ((osEventUnsubscribe st tid evt).1 = true →
        Accepted st EVT_UNSUBSCRIBE_TO_EVT (osEventUnsubscribe st tid evt))
    ∧ ((osDefer st callback cookie).1 = true →
        Accepted st EVT_DEFERRED_CALLBACK (osDefer st callback cookie))
    ∧ ((osEnqueuePrivateEvt st evtType evtData evtFreeF toTid).1 = true →
        Accepted st EVT_PRIVATE_EVT (osEnqueuePrivateEvt st evtType evtData evtFreeF toTid)) := by
  rw [osEventSubscribe_produce, osEventUnsubscribe_produce, osDefer_produce,
    osEnqueuePrivateEvt_produce]
  exact ⟨fun h => ⟨produce_refused st _ _ h, produce_refused st _ _ h, produce_refused st _ _ h,
    produce_refused st _ _ h⟩, produce_accepted st _ _, produce_accepted st _ _,
    produce_accepted st _ _, produce_accepted st _ _⟩

/-- C4 at concrete states: with all three slab records in use
`osEventSubscribe` is refused, and with a full internal queue
`osEnqueuePrivateEvt` is refused although a record is free. -/
theorem producers_refuse_cleanly_witness :
    Refused (wState [] wSlabFull) (osEventSubscribe (wState [] wSlabFull) 1 512)
    ∧ Refused (wState [⟨512, 0, .null⟩, ⟨512, 0, .null⟩, ⟨512, 0, .null⟩, ⟨512, 0, .null⟩] wSlab)
        (osEnqueuePrivateEvt
          (wState [⟨512, 0, .null⟩, ⟨512, 0, .null⟩, ⟨512, 0, .null⟩, ⟨512, 0, .null⟩] wSlab)
          600 55 (.fn 9) 1) :=
  ⟨((producers_refuse_cleanly (wState [] wSlabFull) 1 512 0 0 0 0 .null 0).1
      (Or.inl (by decide))).1,
   ((producers_refuse_cleanly
      (wState [⟨512, 0, .null⟩, ⟨512, 0, .null⟩, ⟨512, 0, .null⟩, ⟨512, 0, .null⟩] wSlab)
      0 0 0 0 600 55 (.fn 9) 1).1 (Or.inr (by decide))).2.2.2⟩

/-! ### Bring-up: unused slots, failed init, tids -/

/-- C6 at a failing input. Bring-up of two apps in a three-slot table leaves
tids 1 and 2 and the unused slot 2 (tid 0, `NULL` header). A private event
addressed to tid 0 is then delivered: `cpuAppHandle` is called on slot 2 with
the `NULL` header. An `EVT_SUBSCRIBE` for tid 0 changes slot 2: the handler
allocates a chunk of 0 bytes, frees the `NULL` list and stores the chunk as
the slot's subscription list. -/
theorem tid_zero_reaches_unused_slot :
    (osMainBringUp wConsts wImage 4 ⟨[], [true]⟩ ⟨[true, true], [true, true]⟩).map
        (fun st => (st.tids,
          callsSince st (osMainIters wConsts 2 (osEnqueuePrivateEvt st 600 55 (.fn 9) 0).2)))
      = some ([1, 2, 0],
        [.cpuAppHandle 0 2 600 55, .evtFree (.fn 9) 55, .evtFree .osDeferredActionFreeF 0])
    ∧ (osMainBringUp wConsts wImage 4 ⟨[], [true]⟩ ⟨[true, true], [true, true]⟩).map
        (fun st => ((st.task 2).subbedEvents,
          callsSince st (osMainIters wConsts 2 (osEventSubscribe st 0 512).2),
          ((osMainIters wConsts 2 (osEventSubscribe st 0 512).2).task 2).subbedEvents))
      = some (.null,
        [.heapAlloc 0 (some 0), .heapFree .null, .evtFree .osDeferredActionFreeF 0],
        .heap 0) := by
  constructor <;> decide

/-- C10 at a failing input. Two apps are loaded with tids 1 and 2 and the
init of the second, which sits in the last loaded slot, fails. The init loop
unloads it and copies slot 1 onto itself, so after `osStartTasks` slot 1 still
carries tid 2: `osTaskFindByTid` finds it, and once it is subscribed a
broadcast is delivered to it. -/
theorem failed_init_in_last_slot_stays_registered :
    (osMainBringUp wConsts wImage 4 ⟨[], []⟩ ⟨[true, true], [true, false]⟩).map
        (fun st => (st.trace, st.tids, osTaskFindByTid wConsts st 2,
          callsSince st (osMainIters wConsts 3
            (osEnqueueEvt (osEventSubscribe st 2 512).2 512 55 .null false).2)))
      = some ([.cpuInternalAppLoad 1000 0 true, .cpuInternalAppLoad 1000 0 true,
          .cpuAppInit 1000 0 1 true, .cpuAppInit 1016 1 2 false, .cpuAppUnload 1016 1],
        [1, 2, 0], some 1,
        [.evtFree .osDeferredActionFreeF 0, .cpuAppHandle 1016 1 512 55]) := by
  decide

theorem task_setTask_ne (st : State) (k j : Nat) (t : Task) (h : j ≠ k) :
    (st.setTask k t).task j = st.task j := by
  simp only [State.task, State.setTask, List.getD_eq_getElem?_getD]
  rw [List.getElem?_set_ne (Ne.symm h)]

theorem task_setTask_eq (st : State) (k : Nat) (t : Task) (h : k < st.mTasks.length) :
    (st.setTask k t).task k = t := by
  simp only [State.task, State.setTask, List.getD_eq_getElem?_getD]
  rw [List.getElem?_set_self h]
  rfl

theorem cpuLoadAnswer_frame (st : State) :
    (cpuLoadAnswer st).2.mTasks = st.mTasks ∧ (cpuLoadAnswer st).2.mNextTid = st.mNextTid
      ∧ (cpuLoadAnswer st).2.trace = st.trace := by
  unfold cpuLoadAnswer
  split <;> exact ⟨rfl, rfl, rfl⟩

theorem osStartTasksRegister_inv (c : Consts) (hc : c.MAX_TASKS < U32) (t0 : Nat)
    (internal : Bool) (st : State) (i n app : Nat) (ht : t0 ≤ st.trace.length)
    (hn : n < c.MAX_TASKS) (h : LoadInv c t0 st n) :
    LoadInv c t0 (osStartTasksRegister c internal st i n app).1
      (osStartTasksRegister c internal st i n app).2
    ∧ t0 ≤ (osStartTasksRegister c internal st i n app).1.trace.length := by
  obtain ⟨h1, h2, h3, h4, h5⟩ := h
  obtain ⟨f1, f2, f3⟩ := cpuLoadAnswer_frame (osStartTasksPopulate c st n app)
  have hpop : ∀ j, j < n → ((osStartTasksPopulate c st n app).task j).tid = j + 1 := by
    intro j hj
    rw [osStartTasksPopulate, task_setTask_ne _ _ _ _ (by omega)]
    exact h4 j hj
  have hpopn : ((osStartTasksPopulate c st n app).task n).tid = n + 1 := by
    rw [osStartTasksPopulate, task_setTask_eq _ _ _ (by omega), h3]
    exact Nat.mod_eq_of_lt (by omega)
  have hlen : (osStartTasksPopulate c st n app).mTasks.length = c.MAX_TASKS := by
    simp [osStartTasksPopulate, State.setTask, h1]
  have htr : (osStartTasksPopulate c st n app).trace = st.trace := rfl
  have hnt : (osStartTasksPopulate c st n app).mNextTid = st.mNextTid := rfl
  unfold osStartTasksRegister
  simp only []
  cases hr : (cpuLoadAnswer (osStartTasksPopulate c st n app)).1 with
  | true =>
    simp only [if_true]
    refine ⟨⟨by simpa [State.call, f1] using hlen, by omega, ?_, ?_, ?_⟩, ?_⟩
    · simp only [State.call, f2, hnt, h3]
      rw [Nat.mod_eq_of_lt (show n + 1 < U32 by omega)]
    · intro j hj
      have e : ∀ tr m, ({ (cpuLoadAnswer (osStartTasksPopulate c st n app)).2 with
          trace := tr, mNextTid := m } : State).task j
            = (osStartTasksPopulate c st n app).task j := by
        intro tr m
        simp only [State.task, f1]
      by_cases hjn : j = n
      · subst hjn
        simpa [State.call, State.task, f1] using hpopn
      · simpa [State.call, State.task, f1] using hpop j (by omega)
    · simp only [State.call, f3, htr]
      rw [List.drop_append_of_le_length ht, List.filter_append, List.length_append, h5]
      cases internal <;> simp [Call.isLoadOk]
    · simp only [State.call, f3, htr, List.length_append]
      omega
  | false =>
    simp only [Bool.false_eq_true, if_false]
    refine ⟨⟨by simpa [State.call, f1] using hlen, h2, ?_, ?_, ?_⟩, ?_⟩
    · simp only [State.call, f2, hnt, h3]
    · intro j hj
      simpa [State.call, State.task, f1] using hpop j hj
    · simp only [State.call, f3, htr]
      rw [List.drop_append_of_le_length ht, List.filter_append, List.length_append, h5]
      cases internal <;> simp [Call.isLoadOk]
    · simp only [State.call, f3, htr, List.length_append]
      omega

theorem osStartTasksInternal_inv (c : Consts) (img : AppImage) (hc : c.MAX_TASKS < U32)
    (t0 : Nat) (fuel : Nat) (st : State) (i n app : Nat)
    (ht : t0 ≤ st.trace.length) (h : LoadInv c t0 st n) :
    LoadInv c t0 (osStartTasksInternal c img fuel st i n app).st
        (osStartTasksInternal c img fuel st i n app).nTasks
      ∧ t0 ≤ (osStartTasksInternal c img fuel st i n app).st.trace.length := by
  induction fuel generalizing st n app with
  | zero => exact ⟨h, ht⟩
  | succ fuel ih =>
    rw [osStartTasksInternal]
    simp only []
    split
    · rename_i hcond
      split
      · split
        · exact ih st n _ ht h
        · obtain ⟨g1, g2⟩ := osStartTasksRegister_inv c hc t0 true st i n app ht hcond.2.1 h
          exact ih _ _ _ g2 g1
      · exact ih st n _ ht h
    · exact ⟨h, ht⟩

theorem osStartTasksExternal_inv (c : Consts) (img : AppImage) (hc : c.MAX_TASKS < U32)
    (t0 : Nat) (fuel : Nat) (st : State) (i n app : Nat)
    (ht : t0 ≤ st.trace.length) (h : LoadInv c t0 st n) :
    LoadInv c t0 (osStartTasksExternal c img fuel st i n app).st
        (osStartTasksExternal c img fuel st i n app).nTasks
      ∧ t0 ≤ (osStartTasksExternal c img fuel st i n app).st.trace.length := by
  induction fuel generalizing st n app with
  | zero => exact ⟨h, ht⟩
  | succ fuel ih =>
    rw [osStartTasksExternal]
    simp only []
    split
    · rename_i hcond
      split
      · split
        · exact ih st n _ ht h
        · obtain ⟨g1, g2⟩ := osStartTasksRegister_inv c hc t0 false st i n app ht hcond.2.1 h
          exact ih _ _ _ g2 g1
      · exact ih st n _ ht h
    · exact ⟨h, ht⟩

/-- C9. Started with the zeroed task table and `mNextTid = 1`, whatever the
two app regions hold and whatever the load calls answer, at every point the
load phase of `osStartTasks` reaches (the end of the scans, or the loop head
at which a bounded run stops): with `nTasks = n`, exactly `n` load calls have
returned true, slot `j < n` carries tid `j + 1`, and the next tid is
`n + 1`; so the tids of the loaded slots are non-zero and strictly increasing
with the slot, which is the order of the scan. -/
theorem osStartTasksLoad_tids (c : Consts) (img : AppImage) (fuel : Nat) (st0 : State)
    (hc : c.MAX_TASKS < U32)
    (htab : st0.mTasks = List.replicate c.MAX_TASKS (Task.zero c)) (htid : st0.mNextTid = 1) :
    (osStartTasksLoad c img fuel st0).nTasks ≤ c.MAX_TASKS
    ∧ ((callsSince st0 (osStartTasksLoad c img fuel st0).st).filter Call.isLoadOk).length
        = (osStartTasksLoad c img fuel st0).nTasks
    ∧ (∀ j, j < (osStartTasksLoad c img fuel st0).nTasks →
        ((osStartTasksLoad c img fuel st0).st.task j).tid = j + 1)
    ∧ (osStartTasksLoad c img fuel st0).st.mNextTid
        = ((osStartTasksLoad c img fuel st0).nTasks + 1) % U32
    ∧ (∀ j, j < (osStartTasksLoad c img fuel st0).nTasks →
        ((osStartTasksLoad c img fuel st0).st.task j).tid ≠ 0)
    ∧ (∀ j k, j < k → k < (osStartTasksLoad c img fuel st0).nTasks →
        ((osStartTasksLoad c img fuel st0).st.task j).tid
          < ((osStartTasksLoad c img fuel st0).st.task k).tid) := by
  have h0 : LoadInv c st0.trace.length st0 0 := by
    refine ⟨by simp [htab], Nat.zero_le _, by simp [htid, U32], fun j hj => absurd hj (by omega),
      by simp⟩
  have key : LoadInv c st0.trace.length (osStartTasksLoad c img fuel st0).st
      (osStartTasksLoad c img fuel st0).nTasks := by
    obtain ⟨g1, g2⟩ := osStartTasksInternal_inv c img hc _ fuel st0 0 0 img.internal_app_start
      (le_refl _) h0
    unfold osStartTasksLoad
    cases h1 : osStartTasksInternal c img fuel st0 0 0 img.internal_app_start with
    | running st1 n1 =>
      rw [h1] at g1
      exact g1
    | done st1 n1 =>
      rw [h1] at g1 g2
      exact (osStartTasksExternal_inv c img hc _ fuel st1 0 n1 img.app_start g2 g1).1
  obtain ⟨_, k2, k3, k4, k5⟩ := key
  refine ⟨k2, k5, k4, k3, ?_, ?_⟩
  · intro j hj
    rw [k4 j hj]
    omega
  · intro j k hjk hk
    rw [k4 j (by omega), k4 k hk]
    omega

/-- C9 at a concrete image: both internal apps of `wImage` load, and the load
phase ends with `nTasks = 2`, tids 1 and 2 in slots 0 and 1, next tid 3. -/
theorem osStartTasksLoad_tids_witness :
    (osStartTasksLoad wConsts wImage 4 (wInit ⟨[true, true], []⟩)).nTasks = 2
    ∧ (∀ j, j < 2 →
        ((osStartTasksLoad wConsts wImage 4 (wInit ⟨[true, true], []⟩)).st.task j).tid = j + 1)
    ∧ (osStartTasksLoad wConsts wImage 4 (wInit ⟨[true, true], []⟩)).st.mNextTid = 3 := by
  have h : (osStartTasksLoad wConsts wImage 4 (wInit ⟨[true, true], []⟩)).nTasks = 2 := by
    decide
  obtain ⟨_, _, h3, h4, _, _⟩ := osStartTasksLoad_tids wConsts wImage 4
    (wInit ⟨[true, true], []⟩) (by decide) rfl rfl
  rw [h] at h3 h4
  exact ⟨h, h3, h4⟩

/-! ### Frame: what leaves the queues and the slab alone -/

theorem qs_evtWrite (st : State) (p : EvtPtr) (i v : Nat) : (evtWrite st p i v).qs = st.qs := by
  cases p <;> rfl

theorem qs_evtUnsubAt (st : State) (k i : Nat) : (evtUnsubAt st k i).qs = st.qs := by
  unfold evtUnsubAt
  simp only [qs_evtWrite]
  rfl

theorem qs_evtListMove (st : State) (k newSz a : Nat) : (evtListMove st k newSz a).qs = st.qs := by
  unfold evtListMove
  by_cases hp : (st.task k).subbedEvents ≠ .embedded k
  · simp only [if_pos hp]
    rfl
  · simp only [if_neg hp]
    rfl

theorem qs_evtListGrow (st : State) (k : Nat) : (evtListGrow st k).qs = st.qs := by
  unfold evtListGrow
  simp only []
  split
  · rfl
  · rw [qs_evtListMove]
    rfl

theorem qs_evtAppend (st : State) (k evt : Nat) : (evtAppend st k evt).qs = st.qs := by
  unfold evtAppend
  simp only [State.setTask, State.qs]
  exact qs_evtWrite st _ _ _

theorem qs_evtSubAt (st : State) (k evt : Nat) : (evtSubAt st k evt).qs = st.qs := by
  unfold evtSubAt
  have hg : (if (st.task k).subbedEvtListSz = (st.task k).subbedEvtCount then
      evtListGrow st k else st).qs = st.qs := by
    split
    · exact qs_evtListGrow st k
    · rfl
  generalize (if (st.task k).subbedEvtListSz = (st.task k).subbedEvtCount then
      evtListGrow st k else st) = g at hg ⊢
  simp only []
  split
  · rw [qs_evtAppend, hg]
  · exact hg

theorem qs_osInternalEvtHandle_sub (c : Consts) (st : State) (evtType evtData : Nat)
    (h : evtType = EVT_SUBSCRIBE_TO_EVT ∨ evtType = EVT_UNSUBSCRIBE_TO_EVT) :
    (osInternalEvtHandle c st evtType evtData).qs = st.qs := by
  unfold osInternalEvtHandle
  simp only [if_pos h]
  split
  · rfl
  · split
    · exact qs_evtUnsubAt _ _ _
    · split
      · exact qs_evtSubAt _ _ _
      · rfl

theorem qs_evtFreeCall (st : State) (f : EventFreeF) (d : Nat)
    (hf : f ≠ .osDeferredActionFreeF) : (evtFreeCall st f d).qs = st.qs := by
  cases f with
  | null => rfl
  | osDeferredActionFreeF => exact absurd rfl hf
  | fn a => rfl

/-- The handler leaves the queues alone, and the slab too unless the record of
a private event names `osDeferredActionFreeF` as its inner free hook. -/
theorem qs_osInternalEvtHandle (c : Consts) (st : State) (evtType evtData : Nat)
    (hf : (st.mDeferedActionsSlab.deref evtData).privateEvt.evtFreeF ≠ .osDeferredActionFreeF) :
    (osInternalEvtHandle c st evtType evtData).qs = st.qs := by
  by_cases h01 : evtType = EVT_SUBSCRIBE_TO_EVT ∨ evtType = EVT_UNSUBSCRIBE_TO_EVT
  · exact qs_osInternalEvtHandle_sub c st evtType evtData h01
  · by_cases h2 : evtType = EVT_DEFERRED_CALLBACK
    · subst h2
      rw [osInternalEvtHandle_deferred]
      rfl
    · by_cases h3 : evtType = EVT_PRIVATE_EVT
      · subst h3
        rw [osInternalEvtHandle_private_eq]
        split
        · rw [qs_evtFreeCall _ _ _ hf]
          cases osTaskFindByTid c st (st.mDeferedActionsSlab.deref evtData).privateEvt.toTid <;> rfl
        · cases osTaskFindByTid c st (st.mDeferedActionsSlab.deref evtData).privateEvt.toTid <;> rfl
      · have h4 : 3 < evtType := by
          simp only [EVT_SUBSCRIBE_TO_EVT, EVT_UNSUBSCRIBE_TO_EVT, EVT_DEFERRED_CALLBACK,
            EVT_PRIVATE_EVT] at h01 h2 h3
          omega
        rw [osInternalEvtHandle_other c st evtType evtData h4]

theorem deref_ne_hook (s : SlabAllocator) (p : Nat)
    (h : ∀ da ∈ s.items, da.privateEvt.evtFreeF ≠ .osDeferredActionFreeF) :
    (s.deref p).privateEvt.evtFreeF ≠ .osDeferredActionFreeF := by
  unfold SlabAllocator.deref
  rw [List.getD_eq_getElem?_getD]
  cases hg : s.items[p]? with
  | none =>
    simp only [Option.getD_none]
    decide
  | some da =>
    simp only [Option.getD_some]
    exact h da (List.getElem?_mem hg)

theorem qs_osMainHandled (c : Consts) (st : State) (ev : Event) (q : EvtQueue)
    (h : ∀ da ∈ st.mDeferedActionsSlab.items, da.privateEvt.evtFreeF ≠ .osDeferredActionFreeF) :
    (osMainHandled c st ev q).qs = (q, st.mEvtsExternal, st.mDeferedActionsSlab) := by
  unfold osMainHandled
  split
  · rw [qs_osInternalEvtHandle c { st with mEvtsInternal := q } _ _ (deref_ne_hook _ _ h)]
    rfl
  · rw [osMainBroadcast_eq]
    rfl

/-- The queues and the slab after one iteration of the main loop on a
dequeued event. -/
theorem qs_osMainIter (c : Consts) (st : State) (ev : Event) (q : EvtQueue)
    (hdq : evtQueueDequeue st.mEvtsInternal = some (ev, q))
    (h : ∀ da ∈ st.mDeferedActionsSlab.items, da.privateEvt.evtFreeF ≠ .osDeferredActionFreeF) :
    (osMainIter c st).qs =
      (q, st.mEvtsExternal,
        if ev.evtFreeF = .osDeferredActionFreeF then
          slabAllocatorFree st.mDeferedActionsSlab ev.evtData
        else st.mDeferedActionsSlab) := by
  rw [osMainIter_eq c st ev q hdq]
  have hq := qs_osMainHandled c st ev q h
  cases hf : ev.evtFreeF with
  | null => simpa [hf] using hq
  | fn a =>
    simp only [ne_eq, reduceCtorEq, not_false_eq_true, if_true, if_false]
    rw [qs_evtFreeCall _ _ _ (by simp), hq]
  | osDeferredActionFreeF =>
    simp only [ne_eq, reduceCtorEq, not_false_eq_true, if_true]
    simp only [State.qs, Prod.mk.injEq] at hq ⊢
    obtain ⟨h1, h2, h3⟩ := hq
    exact ⟨h1, h2, by simp [evtFreeCall, State.call, h3]⟩

/-! ### The slab invariant -/

theorem count_set_false (l : List Bool) (p : Nat) (h : l.getD p false = true) :
    (l.set p false).count true + 1 = l.count true := by
  induction l generalizing p with
  | nil => simp at h
  | cons b l ih =>
    cases p with
    | zero =>
      simp at h
      simp [h]
    | succ p =>
      simp at h
      have := ih p (by simpa using h)
      cases b <;> simp [List.count_cons] <;> omega

theorem getD_set_ne (l : List Bool) (p r : Nat) (b d : Bool) (h : r ≠ p) :
    (l.set p b).getD r d = l.getD r d := by
  simp only [List.getD_eq_getElem?_getD]
  rw [List.getElem?_set_ne (Ne.symm h)]

theorem getD_set_self (l : List Bool) (p : Nat) (b d : Bool) (h : p < l.length) :
    (l.set p b).getD p d = b := by
  simp only [List.getD_eq_getElem?_getD]
  rw [List.getElem?_set_self h]
  rfl

theorem hookPtrs_append_hook (evts : List Event) (t p : Nat) :
    hookPtrs (evts ++ [⟨t, p, .osDeferredActionFreeF⟩]) = hookPtrs evts ++ [p] := by
  simp [hookPtrs, List.filter_append]

theorem hookPtrs_append_other (evts : List Event) (e : Event)
    (h : e.evtFreeF ≠ .osDeferredActionFreeF) : hookPtrs (evts ++ [e]) = hookPtrs evts := by
  simp [hookPtrs, List.filter_append, h]

theorem hookPtrs_cons_hook (evts : List Event) (e : Event)
    (h : e.evtFreeF = .osDeferredActionFreeF) : hookPtrs (e :: evts) = e.evtData :: hookPtrs evts := by
  simp [hookPtrs, h]

theorem hookPtrs_cons_other (evts : List Event) (e : Event)
    (h : e.evtFreeF ≠ .osDeferredActionFreeF) : hookPtrs (e :: evts) = hookPtrs evts := by
  simp [hookPtrs, h]

theorem items_set_ne_hook (items : List DeferredAction) (p : Nat) (x : DeferredAction)
    (h : ∀ da ∈ items, da.privateEvt.evtFreeF ≠ .osDeferredActionFreeF)
    (hx : x.privateEvt.evtFreeF ≠ .osDeferredActionFreeF) :
    ∀ da ∈ items.set p x, da.privateEvt.evtFreeF ≠ .osDeferredActionFreeF := by
  intro da hda
  rcases List.mem_or_eq_of_mem_set hda with h1 | h1
  · exact h da h1
  · rw [h1]
    exact hx

theorem produce_slabInv (st : State) (fill : DeferredAction → DeferredAction) (evtType : Nat)
    (hfill : ∀ da, da.privateEvt.evtFreeF ≠ .osDeferredActionFreeF →
      (fill da).privateEvt.evtFreeF ≠ .osDeferredActionFreeF)
    (h : SlabInv st) : SlabInv (produce st fill evtType).2 := by
  obtain ⟨h1, h2, h3, h4, h5⟩ := h
  cases hf : firstFree st.mDeferedActionsSlab.used with
  | none =>
    rw [produce_none st fill evtType hf]
    exact ⟨h1, h2, h3, h4, h5⟩
  | some p =>
    obtain ⟨f1, f2, _⟩ := firstFree_some _ _ hf
    have hx : (fill (st.mDeferedActionsSlab.items.getD p default)).privateEvt.evtFreeF
        ≠ .osDeferredActionFreeF := hfill _ (deref_ne_hook st.mDeferedActionsSlab p h4)
    have hitems := items_set_ne_hook st.mDeferedActionsSlab.items p _ h4 hx
    have hpn : p ∉ hookPtrs st.mEvtsInternal.evts := by
      intro hp
      have := (h2 p hp).2
      rw [List.getD_eq_getElem?_getD] at this f2
      rw [List.getElem?_eq_getElem f1] at this f2
      simp at this f2
      rw [this] at f2
      cases f2
    rw [produce_some st fill evtType p hf]
    by_cases hq : st.mEvtsInternal.evts.length < st.mEvtsInternal.size
    · rw [osEnqueueDeferred_room
        { st with mDeferedActionsSlab :=
          ⟨st.mDeferedActionsSlab.used.set p true,
            st.mDeferedActionsSlab.items.set p (fill (st.mDeferedActionsSlab.items.getD p default))⟩ }
        evtType p hq]
      refine ⟨?_, ?_, ?_, hitems, ?_⟩
      · simp only [hookPtrs_append_hook]
        exact List.Nodup.append h1 (List.nodup_singleton p) (by simpa using hpn)
      · intro r hr
        simp only [hookPtrs_append_hook, List.mem_append, List.mem_singleton] at hr
        simp only [List.length_set]
        by_cases hrp : r = p
        · subst hrp
          exact ⟨f1, getD_set_self _ _ _ _ f1⟩
        · rcases hr with hr | hr
          · rw [getD_set_ne _ _ _ _ _ hrp]
            exact h2 r hr
          · exact absurd hr hrp
      · simp only [hookPtrs_append_hook, List.length_append, List.length_singleton,
          SlabAllocator.outstanding, count_set_true _ _ f1 f2]
        simp only [SlabAllocator.outstanding] at h3
        omega
      · simpa using h5
    · rw [osEnqueueDeferred_full
        { st with mDeferedActionsSlab :=
          ⟨st.mDeferedActionsSlab.used.set p true,
            st.mDeferedActionsSlab.items.set p (fill (st.mDeferedActionsSlab.items.getD p default))⟩ }
        evtType p hq]
      have hu := set_set_of_getD _ _ f2
      refine ⟨h1, ?_, ?_, hitems, ?_⟩
      · simpa [slabAllocatorFree, hu] using h2
      · simpa [slabAllocatorFree, SlabAllocator.outstanding, hu] using h3
      · simpa [slabAllocatorFree, hu] using h5

theorem osEnqueueEvt_slabInv (st : State) (evtType evtData : Nat) (f : EventFreeF)
    (external : Bool) (hf : f ≠ .osDeferredActionFreeF) (h : SlabInv st) :
    SlabInv (osEnqueueEvt st evtType evtData f external).2 := by
  obtain ⟨h1, h2, h3, h4, h5⟩ := h
  unfold osEnqueueEvt evtQueueEnqueue
  cases external with
  | true =>
    simp only [if_true]
    exact ⟨h1, h2, h3, h4, h5⟩
  | false =>
    simp only [Bool.false_eq_true, if_false]
    split
    · have e := hookPtrs_append_other st.mEvtsInternal.evts ⟨evtType, evtData, f⟩ hf
      refine ⟨?_, ?_, ?_, h4, h5⟩
      · simpa [e] using h1
      · simpa [e] using h2
      · simpa [e] using h3
    · exact ⟨h1, h2, h3, h4, h5⟩

theorem evtQueueDequeue_some (q : EvtQueue) (ev : Event) (q2 : EvtQueue)
    (h : evtQueueDequeue q = some (ev, q2)) : q.evts = ev :: q2.evts := by
  unfold evtQueueDequeue at h
  split at h
  · cases h
  · rename_i e rest he
    simp only [Option.some.injEq, Prod.mk.injEq] at h
    obtain ⟨rfl, rfl⟩ := h
    exact he

theorem osMainIter_none (c : Consts) (st : State) (h : evtQueueDequeue st.mEvtsInternal = none) :
    osMainIter c st = st := by
  simp [osMainIter, h]

theorem osMainIter_slabInv (c : Consts) (st : State) (h : SlabInv st) :
    SlabInv (osMainIter c st) := by
  cases hdq : evtQueueDequeue st.mEvtsInternal with
  | none =>
    rw [osMainIter_none c st hdq]
    exact h
  | some r =>
    obtain ⟨ev, q⟩ := r
    obtain ⟨h1, h2, h3, h4, h5⟩ := h
    have hqs := qs_osMainIter c st ev q hdq h4
    have hev := evtQueueDequeue_some _ _ _ hdq
    simp only [State.qs, Prod.mk.injEq] at hqs
    obtain ⟨e1, _, e3⟩ := hqs
    rw [hev] at h1 h2 h3
    unfold SlabInv
    rw [e1, e3]
    by_cases hf : ev.evtFreeF = .osDeferredActionFreeF
    · rw [if_pos hf]
      rw [hookPtrs_cons_hook _ _ hf] at h1 h2 h3
      have hp := h2 ev.evtData (List.mem_cons_self _ _)
      have hnd := List.nodup_cons.1 h1
      refine ⟨hnd.2, ?_, ?_, h4, ?_⟩
      · intro r hr
        have hrp : r ≠ ev.evtData := fun e => hnd.1 (e ▸ hr)
        simp only [slabAllocatorFree, List.length_set]
        rw [getD_set_ne _ _ _ _ _ hrp]
        exact h2 r (List.mem_cons_of_mem _ hr)
      · have := count_set_false _ _ hp.2
        simp only [SlabAllocator.outstanding, slabAllocatorFree, List.length_cons] at h3 ⊢
        omega
      · simpa [slabAllocatorFree] using h5
    · rw [if_neg hf]
      rw [hookPtrs_cons_other _ _ hf] at h1 h2 h3
      exact ⟨h1, h2, h3, h4, h5⟩

theorem step_slabInv (c : Consts) (st st2 : State) (hs : Step c st st2) (h : SlabInv st) :
    SlabInv st2 := by
  cases hs with
  | subscribe tid evt =>
    rw [osEventSubscribe_produce]
    exact produce_slabInv st _ _ (fun _ hda => hda) h
  | unsubscribe tid evt =>
    rw [osEventUnsubscribe_produce]
    exact produce_slabInv st _ _ (fun _ hda => hda) h
  | defer callback cookie =>
    rw [osDefer_produce]
    exact produce_slabInv st _ _ (fun _ hda => hda) h
  | privateEvt evtType evtData f toTid hf =>
    rw [osEnqueuePrivateEvt_produce]
    exact produce_slabInv st _ _ (fun _ _ => hf) h
  | enqueue evtType evtData f external _ hf => exact osEnqueueEvt_slabInv st _ _ f external hf h
  | dequeueExt =>
    unfold osDequeueExtEvt
    split
    · exact h
    · exact h
  | iter => exact osMainIter_slabInv c st h

theorem reachable_slabInv (c : Consts) (s0 st : State) (h0 : SlabInv s0)
    (hr : Reachable c s0 st) : SlabInv st := by
  induction hr with
  | start => exact h0
  | step st1 st2 _ hs ih => exact step_slabInv c st1 st2 hs ih

theorem qs_cpuLoadAnswer (st : State) : (cpuLoadAnswer st).2.qs = st.qs := by
  unfold cpuLoadAnswer
  split <;> rfl

theorem qs_cpuInitAnswer (st : State) : (cpuInitAnswer st).2.qs = st.qs := by
  unfold cpuInitAnswer
  split <;> rfl

theorem qs_osStartTasksRegister (c : Consts) (internal : Bool) (st : State) (i n app : Nat) :
    (osStartTasksRegister c internal st i n app).1.qs = st.qs := by
  unfold osStartTasksRegister
  simp only []
  split
  · exact qs_cpuLoadAnswer (osStartTasksPopulate c st n app)
  · exact qs_cpuLoadAnswer (osStartTasksPopulate c st n app)

theorem qs_osStartTasksInternal (c : Consts) (img : AppImage) (fuel : Nat) (st : State)
    (i n app : Nat) : (osStartTasksInternal c img fuel st i n app).st.qs = st.qs := by
  induction fuel generalizing st n app with
  | zero => rfl
  | succ fuel ih =>
    rw [osStartTasksInternal]
    simp only []
    split
    · split
      · split
        · exact ih st n _
        · rw [ih, qs_osStartTasksRegister]
      · exact ih st n _
    · rfl

theorem qs_osStartTasksExternal (c : Consts) (img : AppImage) (fuel : Nat) (st : State)
    (i n app : Nat) : (osStartTasksExternal c img fuel st i n app).st.qs = st.qs := by
  induction fuel generalizing st n app with
  | zero => rfl
  | succ fuel ih =>
    rw [osStartTasksExternal]
    simp only []
    split
    · split
      · split
        · exact ih st n _
        · rw [ih, qs_osStartTasksRegister]
      · exact ih st n _
    · rfl

theorem qs_osStartTasksLoad (c : Consts) (img : AppImage) (fuel : Nat) (st : State) :
    (osStartTasksLoad c img fuel st).st.qs = st.qs := by
  have h1 := qs_osStartTasksInternal c img fuel st 0 0 img.internal_app_start
  unfold osStartTasksLoad
  cases hi : osStartTasksInternal c img fuel st 0 0 img.internal_app_start with
  | running st1 n1 =>
    rw [hi] at h1
    exact h1
  | done st1 n1 =>
    rw [hi] at h1
    simp only []
    rw [qs_osStartTasksExternal]
    exact h1

theorem qs_osStartTasksInitLoop (fuel : Nat) (st : State) (i n : Nat) (r : State × Nat)
    (h : osStartTasksInitLoop fuel st i n = some r) : r.1.qs = st.qs := by
  induction fuel generalizing st i n with
  | zero => simp [osStartTasksInitLoop] at h
  | succ fuel ih =>
    rw [osStartTasksInitLoop] at h
    simp only [] at h
    split at h
    · split at h
      · rw [ih _ _ _ h]
        exact qs_cpuInitAnswer st
      · rw [ih _ _ _ h]
        exact qs_cpuInitAnswer st
    · cases h
      rfl

theorem qs_osStartTasks (c : Consts) (img : AppImage) (fuel : Nat) (st st1 : State)
    (h : osStartTasks c img fuel st = some st1) : st1.qs = st.qs := by
  unfold osStartTasks at h
  have hl := qs_osStartTasksLoad c img fuel st
  cases hs : osStartTasksLoad c img fuel st with
  | running s n =>
    rw [hs] at h
    cases h
  | done s n =>
    rw [hs] at h hl
    simp only [Option.map_eq_some'] at h
    obtain ⟨r, hr, rfl⟩ := h
    rw [qs_osStartTasksInitLoop _ _ _ _ r hr]
    exact hl

/-- The queues and the slab that bring-up leaves: `EVT_APP_START` alone in the
internal queue, the external queue empty, every one of the 32 slab records
free and zeroed. -/
theorem qs_osMainBringUp (c : Consts) (img : AppImage) (fuel : Nat) (heap : Heap)
    (cpu : CpuAnswers) (s0 : State) (h : osMainBringUp c img fuel heap cpu = some s0) :
    s0.qs = (⟨512, [⟨c.EVT_APP_START, 0, .null⟩]⟩, evtQueueAlloc 256, slabAllocatorNew 32) := by
  unfold osMainBringUp at h
  simp only [osInit, InitResult.toState, Bool.true_eq_false, if_false] at h
  split at h
  · cases h
  · rename_i st1 hs
    have hq := qs_osStartTasks c img fuel _ st1 hs
    simp only [Option.some.injEq] at h
    subst h
    simp only [State.qs, Prod.mk.injEq] at hq
    obtain ⟨q1, q2, q3⟩ := hq
    simp only [State.qs, osEnqueueEvt, evtQueueEnqueue, Bool.false_eq_true, if_false, q1, q2, q3,
      evtQueueAlloc]
    simp

theorem osMainBringUp_slabInv (c : Consts) (img : AppImage) (fuel : Nat) (heap : Heap)
    (cpu : CpuAnswers) (s0 : State) (h : osMainBringUp c img fuel heap cpu = some s0) :
    SlabInv s0 := by
  have hq := qs_osMainBringUp c img fuel heap cpu s0 h
  simp only [State.qs, Prod.mk.injEq] at hq
  obtain ⟨q1, _, q3⟩ := hq
  unfold SlabInv
  rw [q1, q3]
  refine ⟨by simp [hookPtrs], by simp [hookPtrs], by simp [hookPtrs, SlabAllocator.outstanding,
    slabAllocatorNew], ?_, by simp [slabAllocatorNew]⟩
  intro da hda
  simp only [slabAllocatorNew] at hda
  rw [List.eq_of_mem_replicate hda]
  decide

/-- C8. In every state reached from a bring-up state by producer calls,
enqueues of user events, external dequeues and main-loop iterations, the
number of slab records in use equals the number of deferred-action events
(the events carrying `osDeferredActionFreeF`) waiting in the internal queue;
and the iteration that dequeues such an event finds its record in use and
frees that record and no other, whatever the handling did (unknown tid,
dropped subscribe). -/
theorem slab_matches_queue (c : Consts) (s0 st : State)
    (h0 : ∃ img fuel heap cpu, osMainBringUp c img fuel heap cpu = some s0)
    (hr : Reachable c s0 st) :
    st.mDeferedActionsSlab.outstanding = (hookPtrs st.mEvtsInternal.evts).length
    ∧ ∀ ev q, evtQueueDequeue st.mEvtsInternal = some (ev, q) →
        ev.evtFreeF = .osDeferredActionFreeF →
          st.mDeferedActionsSlab.used.getD ev.evtData false = true
          ∧ (osMainIter c st).mDeferedActionsSlab.used
              = st.mDeferedActionsSlab.used.set ev.evtData false
          ∧ (osMainIter c st).mDeferedActionsSlab.outstanding + 1
              = st.mDeferedActionsSlab.outstanding
          ∧ (osMainIter c st).mDeferedActionsSlab.outstanding
              = (hookPtrs (osMainIter c st).mEvtsInternal.evts).length := by
  obtain ⟨img, fuel, heap, cpu, hb⟩ := h0
  have hinv := reachable_slabInv c s0 st (osMainBringUp_slabInv c img fuel heap cpu s0 hb) hr
  refine ⟨hinv.2.2.1, ?_⟩
  intro ev q hdq hf
  have hinv2 := osMainIter_slabInv c st hinv
  obtain ⟨_, h2, _, h4, _⟩ := hinv
  have hqs := qs_osMainIter c st ev q hdq h4
  simp only [State.qs, Prod.mk.injEq, if_pos hf] at hqs
  have hev := evtQueueDequeue_some _ _ _ hdq
  have hp : ev.evtData ∈ hookPtrs st.mEvtsInternal.evts := by
    rw [hev, hookPtrs_cons_hook _ _ hf]
    exact List.mem_cons_self _ _
  have hu := (h2 _ hp).2
  refine ⟨hu, ?_, ?_, hinv2.2.2.1⟩
  · rw [hqs.2.2]
    rfl
  · rw [hqs.2.2]
    exact count_set_false _ _ hu

/-- C8 at a concrete run: after bring-up, `osEventSubscribe` for the unknown
tid 999 takes one record; the first iteration handles `EVT_APP_START`, the
second drops the subscribe and frees the record. -/
theorem slab_matches_queue_witness :
    ∃ s0, osMainBringUp wConsts wImage 4 ⟨[], []⟩ ⟨[true, true], [true, true]⟩ = some s0
      ∧ (osMainIter wConsts (osEventSubscribe s0 999 512).2).mDeferedActionsSlab.outstanding = 1
      ∧ (osMainIter wConsts (osMainIter wConsts
          (osEventSubscribe s0 999 512).2)).mDeferedActionsSlab.outstanding = 0 := by
  have hb : osMainBringUp wConsts wImage 4 ⟨[], []⟩ ⟨[true, true], [true, true]⟩
      = some ((osMainBringUp wConsts wImage 4 ⟨[], []⟩ ⟨[true, true], [true, true]⟩).get
        (by decide)) := by
    simp
  refine ⟨_, hb, ?_, ?_⟩
  · have h := (slab_matches_queue wConsts _ _ ⟨wImage, 4, ⟨[], []⟩, ⟨[true, true], [true, true]⟩, hb⟩
      (Reachable.step _ _ (Reachable.step _ _ Reachable.start (Step.subscribe _ 999 512))
        (Step.iter _))).1
    rw [h]
    decide
  · have h := (slab_matches_queue wConsts _ _ ⟨wImage, 4, ⟨[], []⟩, ⟨[true, true], [true, true]⟩, hb⟩
      (Reachable.step _ _ (Reachable.step _ _ (Reachable.step _ _ Reachable.start
        (Step.subscribe _ 999 512)) (Step.iter _)) (Step.iter _))).1
    rw [h]
    decide

/-! ### Deferred callbacks -/

theorem mem_hookPtrs (evts : List Event) (p : Nat) :
    p ∈ hookPtrs evts ↔ ∃ e ∈ evts, e.evtFreeF = .osDeferredActionFreeF ∧ e.evtData = p := by
  simp [hookPtrs, and_assoc]

theorem deref_store_ne (s : SlabAllocator) (p r : Nat) (x : DeferredAction) (h : r ≠ p) :
    (⟨s.used, s.items.set p x⟩ : SlabAllocator).deref r = s.deref r := by
  simp only [SlabAllocator.deref, List.getD_eq_getElem?_getD]
  rw [List.getElem?_set_ne (Ne.symm h)]

theorem produce_deferPending (st : State) (fill : DeferredAction → DeferredAction)
    (evtType p cb ck : Nat)
    (hfill : ∀ da, da.privateEvt.evtFreeF ≠ .osDeferredActionFreeF →
      (fill da).privateEvt.evtFreeF ≠ .osDeferredActionFreeF)
    (h : DeferPending p cb ck st) : DeferPending p cb ck (produce st fill evtType).2 := by
  have hinv2 := produce_slabInv st fill evtType hfill h.1
  obtain ⟨⟨_, h2, _, _, _⟩, hp, he, hd⟩ := h
  cases hf : firstFree st.mDeferedActionsSlab.used with
  | none =>
    rw [produce_none st fill evtType hf] at hinv2 ⊢
    exact ⟨hinv2, hp, he, hd⟩
  | some r =>
    obtain ⟨f1, f2, _⟩ := firstFree_some _ _ hf
    have hrp : p ≠ r := by
      intro e
      have := (h2 p hp).2
      rw [e, List.getD_eq_getElem?_getD, List.getElem?_eq_getElem f1] at this
      rw [List.getD_eq_getElem?_getD, List.getElem?_eq_getElem f1] at f2
      simp at this f2
      rw [this] at f2
      cases f2
    rw [produce_some st fill evtType r hf] at hinv2 ⊢
    by_cases hq : st.mEvtsInternal.evts.length < st.mEvtsInternal.size
    · rw [osEnqueueDeferred_room
        { st with mDeferedActionsSlab :=
          ⟨st.mDeferedActionsSlab.used.set r true,
            st.mDeferedActionsSlab.items.set r (fill (st.mDeferedActionsSlab.items.getD r default))⟩ }
        evtType r hq] at hinv2 ⊢
      refine ⟨hinv2, ?_, ?_, ?_⟩
      · simp only [hookPtrs_append_hook, List.mem_append]
        exact Or.inl hp
      · intro e hm hh hdp
        simp only [List.mem_append, List.mem_singleton] at hm
        rcases hm with hm | hm
        · exact he e hm hh hdp
        · rw [hm] at hdp
          exact absurd hdp.symm hrp
      · simp only []
        rw [deref_store_ne ⟨st.mDeferedActionsSlab.used.set r true, st.mDeferedActionsSlab.items⟩
          r p _ hrp]
        exact hd
    · rw [osEnqueueDeferred_full
        { st with mDeferedActionsSlab :=
          ⟨st.mDeferedActionsSlab.used.set r true,
            st.mDeferedActionsSlab.items.set r (fill (st.mDeferedActionsSlab.items.getD r default))⟩ }
        evtType r hq] at hinv2 ⊢
      refine ⟨hinv2, hp, he, ?_⟩
      simp only [slabAllocatorFree]
      rw [deref_store_ne
        ⟨(st.mDeferedActionsSlab.used.set r true).set r false, st.mDeferedActionsSlab.items⟩
        r p _ hrp]
      exact hd

theorem step_deferPending (c : Consts) (p cb ck : Nat) (st st2 : State) (hs : Step c st st2)
    (hp2 : p ∈ hookPtrs st2.mEvtsInternal.evts) (h : DeferPending p cb ck st) :
    DeferPending p cb ck st2 := by
  cases hs with
  | subscribe tid evt =>
    rw [osEventSubscribe_produce]
    exact produce_deferPending st _ _ p cb ck (fun _ hda => hda) h
  | unsubscribe tid evt =>
    rw [osEventUnsubscribe_produce]
    exact produce_deferPending st _ _ p cb ck (fun _ hda => hda) h
  | defer callback cookie =>
    rw [osDefer_produce]
    exact produce_deferPending st _ _ p cb ck (fun _ hda => hda) h
  | privateEvt evtType evtData f toTid hf =>
    rw [osEnqueuePrivateEvt_produce]
    exact produce_deferPending st _ _ p cb ck (fun _ _ => hf) h
  | enqueue evtType evtData f external _ hf =>
    have hinv2 := osEnqueueEvt_slabInv st evtType evtData f external hf h.1
    refine ⟨hinv2, hp2, ?_, ?_⟩
    · intro e hm hh hdp
      unfold osEnqueueEvt evtQueueEnqueue at hm
      cases external with
      | true => exact h.2.2.1 e hm hh hdp
      | false =>
        simp only [Bool.false_eq_true, if_false] at hm
        split at hm
        · simp only [List.mem_append, List.mem_singleton] at hm
          rcases hm with hm | hm
          · exact h.2.2.1 e hm hh hdp
          · rw [hm] at hh
            exact absurd hh hf
        · exact h.2.2.1 e hm hh hdp
    · have : (osEnqueueEvt st evtType evtData f external).2.mDeferedActionsSlab
          = st.mDeferedActionsSlab := by
        unfold osEnqueueEvt
        split <;> rfl
      rw [this]
      exact h.2.2.2
  | dequeueExt =>
    have : (osDequeueExtEvt st).2.qs.1 = st.qs.1 ∧ (osDequeueExtEvt st).2.qs.2.2 = st.qs.2.2 := by
      unfold osDequeueExtEvt
      split <;> exact ⟨rfl, rfl⟩
    simp only [State.qs] at this
    unfold DeferPending SlabInv at h ⊢
    rw [this.1, this.2]
    exact h
  | iter =>
    have hinv2 := osMainIter_slabInv c st h.1
    cases hdq : evtQueueDequeue st.mEvtsInternal with
    | none =>
      rw [osMainIter_none c st hdq]
      exact h
    | some r =>
      obtain ⟨ev, q⟩ := r
      have hqs := qs_osMainIter c st ev q hdq h.1.2.2.2.1
      have hev := evtQueueDequeue_some _ _ _ hdq
      simp only [State.qs, Prod.mk.injEq] at hqs
      refine ⟨hinv2, hp2, ?_, ?_⟩
      · intro e hm hh hdp
        rw [hqs.1] at hm
        exact h.2.2.1 e (by rw [hev]; exact List.mem_cons_of_mem _ hm) hh hdp
      · rw [hqs.2.2]
        have := h.2.2.2
        split
        · exact this
        · exact this

theorem reachablePending_deferPending (c : Consts) (p cb ck : Nat) (st st2 : State)
    (h : DeferPending p cb ck st) (hr : ReachablePending c p st st2) :
    DeferPending p cb ck st2 := by
  induction hr with
  | start => exact h
  | step s1 s2 _ hs hp ih => exact step_deferPending c p cb ck s1 s2 hs hp ih

theorem osDefer_deferPending (st : State) (cb ck : Nat) (h : SlabInv st)
    (hd : (osDefer st cb ck).1 = true) :
    ∃ p, (osDefer st cb ck).2.mEvtsInternal.evts
        = st.mEvtsInternal.evts ++ [⟨EVT_DEFERRED_CALLBACK, p, .osDeferredActionFreeF⟩]
      ∧ (osDefer st cb ck).2.mDeferedActionsSlab.outstanding
        = st.mDeferedActionsSlab.outstanding + 1
      ∧ DeferPending p cb ck (osDefer st cb ck).2 := by
  have hinv2 : SlabInv (osDefer st cb ck).2 := by
    rw [osDefer_produce]
    exact produce_slabInv st _ _ (fun _ hda => hda) h
  obtain ⟨p, a1, a2, a3, a4, a5⟩ := produce_accepted st _ _ (osDefer_produce st cb ck ▸ hd)
  rw [← osDefer_produce] at a3 a4 a5
  obtain ⟨f1, f2, _⟩ := firstFree_some _ _ a1
  have hpn : p ∉ hookPtrs st.mEvtsInternal.evts := by
    intro hp
    have := (h.2.1 p hp).2
    rw [List.getD_eq_getElem?_getD, List.getElem?_eq_getElem f1] at this f2
    simp at this f2
    rw [this] at f2
    cases f2
  refine ⟨p, a3, a5, hinv2, ?_, ?_, ?_⟩
  · rw [a3, hookPtrs_append_hook]
    simp
  · intro e hm hh hdp
    rw [a3] at hm
    simp only [List.mem_append, List.mem_singleton] at hm
    rcases hm with hm | hm
    · exact absurd ((mem_hookPtrs _ _).2 ⟨e, hm, hh, hdp⟩) hpn
    · rw [hm]
  · rw [osDefer_produce, produce_some st _ _ p a1]
    simp only [osEnqueueDeferred, osEnqueueEvt, evtQueueEnqueue, if_pos a2, Bool.false_eq_true,
      if_false, if_true]
    simp only [SlabAllocator.deref, List.getD_eq_getElem?_getD]
    rw [List.getElem?_set_self (by rw [← h.2.2.2.2]; exact f1)]
    rfl

/-- The iteration of the main loop that dequeues the event of a pending
`osDefer`. -/
theorem osMainIter_deferPending (c : Consts) (p cb ck : Nat) (st : State) (ev : Event)
    (q : EvtQueue) (hthr : EVT_DEFERRED_CALLBACK < c.EVT_NO_FIRST_USER_EVENT)
    (h : DeferPending p cb ck st) (hdq : evtQueueDequeue st.mEvtsInternal = some (ev, q))
    (hf : ev.evtFreeF = .osDeferredActionFreeF) (hp : ev.evtData = p) :
    (osMainIter c st).trace
        = st.trace ++ [.deferredCallback cb ck, .evtFree .osDeferredActionFreeF p]
    ∧ (osMainIter c st).mTasks = st.mTasks
    ∧ (osMainIter c st).mDeferedActionsSlab.used = st.mDeferedActionsSlab.used.set p false
    ∧ (osMainIter c st).mDeferedActionsSlab.outstanding + 1
        = st.mDeferedActionsSlab.outstanding := by
  obtain ⟨hinv, hpm, he, hd⟩ := h
  have hev := evtQueueDequeue_some _ _ _ hdq
  have hty : ev.evtType = EVT_DEFERRED_CALLBACK :=
    he ev (by rw [hev]; exact List.mem_cons_self _ _) hf hp
  have hqs := qs_osMainIter c st ev q hdq hinv.2.2.2.1
  simp only [State.qs, Prod.mk.injEq, if_pos hf] at hqs
  have hu := (hinv.2.1 p hpm).2
  have hh : osMainHandled c st ev q
      = ({ st with mEvtsInternal := q } : State).call (.deferredCallback cb ck) := by
    rw [osMainHandled, hty, if_pos hthr, osInternalEvtHandle_deferred, hp]
    have : (SlabAllocator.deref ({ st with mEvtsInternal := q } : State).mDeferedActionsSlab
        p).deferred = ⟨cb, ck⟩ := hd
    rw [this]
  rw [osMainIter_eq c st ev q hdq, hh, hf, hp,
    if_pos (show EventFreeF.osDeferredActionFreeF ≠ EventFreeF.null by decide)]
  refine ⟨?_, rfl, rfl, ?_⟩
  · simp [evtFreeCall, State.call]
  · exact count_set_false _ _ hu

/-- C7. In a state reached from bring-up, let `osDefer(cb, ck)` return true.
Then it took one slab record `p` and appended the event
`(EVT_DEFERRED_CALLBACK, p, osDeferredActionFreeF)` to the internal queue; and
whatever steps follow while the event waits, the iteration of the main loop
that dequeues it calls `cb(ck)` once, then the free hook on `p`, and nothing
else (no task handler), leaves the task table as it is, and frees record `p`
and no other, which takes the number of records in use down by the one that
`osDefer` had added. When the internal queue was empty at the call, the next
iteration is that iteration and the number of records in use is back to what
it was before the call. -/
theorem osDefer_runs_once (c : Consts) (s0 st : State) (cb ck : Nat)
    (hthr : EVT_DEFERRED_CALLBACK < c.EVT_NO_FIRST_USER_EVENT)
    (h0 : ∃ img fuel heap cpu, osMainBringUp c img fuel heap cpu = some s0)
    (hr : Reachable c s0 st) (hd : (osDefer st cb ck).1 = true) :
    ∃ p,
      (osDefer st cb ck).2.mEvtsInternal.evts
          = st.mEvtsInternal.evts ++ [⟨EVT_DEFERRED_CALLBACK, p, .osDeferredActionFreeF⟩]
      ∧ (osDefer st cb ck).2.mDeferedActionsSlab.outstanding
          = st.mDeferedActionsSlab.outstanding + 1
      ∧ (∀ st2 ev q, ReachablePending c p (osDefer st cb ck).2 st2 →
          evtQueueDequeue st2.mEvtsInternal = some (ev, q) →
          ev.evtFreeF = .osDeferredActionFreeF → ev.evtData = p →
            ev.evtType = EVT_DEFERRED_CALLBACK
            ∧ callsSince st2 (osMainIter c st2)
                = [.deferredCallback cb ck, .evtFree .osDeferredActionFreeF p]
            ∧ (osMainIter c st2).mTasks = st2.mTasks
            ∧ (osMainIter c st2).mDeferedActionsSlab.used
                = st2.mDeferedActionsSlab.used.set p false
            ∧ (osMainIter c st2).mDeferedActionsSlab.outstanding + 1
                = st2.mDeferedActionsSlab.outstanding)
      ∧ (st.mEvtsInternal.evts = [] →
          callsSince (osDefer st cb ck).2 (osMainIter c (osDefer st cb ck).2)
              = [.deferredCallback cb ck, .evtFree .osDeferredActionFreeF p]
          ∧ (osMainIter c (osDefer st cb ck).2).mTasks = st.mTasks
          ∧ (osMainIter c (osDefer st cb ck).2).mDeferedActionsSlab.outstanding
              = st.mDeferedActionsSlab.outstanding) := by
  obtain ⟨img, fuel, heap, cpu, hb⟩ := h0
  have hinv := reachable_slabInv c s0 st (osMainBringUp_slabInv c img fuel heap cpu s0 hb) hr
  obtain ⟨p, a1, a2, a3⟩ := osDefer_deferPending st cb ck hinv hd
  have key : ∀ st2 ev q, ReachablePending c p (osDefer st cb ck).2 st2 →
      evtQueueDequeue st2.mEvtsInternal = some (ev, q) →
      ev.evtFreeF = .osDeferredActionFreeF → ev.evtData = p →
        ev.evtType = EVT_DEFERRED_CALLBACK
        ∧ callsSince st2 (osMainIter c st2)
            = [.deferredCallback cb ck, .evtFree .osDeferredActionFreeF p]
        ∧ (osMainIter c st2).mTasks = st2.mTasks
        ∧ (osMainIter c st2).mDeferedActionsSlab.used
            = st2.mDeferedActionsSlab.used.set p false
        ∧ (osMainIter c st2).mDeferedActionsSlab.outstanding + 1
            = st2.mDeferedActionsSlab.outstanding := by
    intro st2 ev q hp2 hdq hf hp
    have hpend := reachablePending_deferPending c p cb ck _ st2 a3 hp2
    obtain ⟨b1, b2, b3, b4⟩ := osMainIter_deferPending c p cb ck st2 ev q hthr hpend hdq hf hp
    have hev := evtQueueDequeue_some _ _ _ hdq
    exact ⟨hpend.2.2.1 ev (by rw [hev]; exact List.mem_cons_self _ _) hf hp,
      callsSince_append _ _ _ b1, b2, b3, b4⟩
  refine ⟨p, a1, a2, key, ?_⟩
  intro hempty
  have hdq : evtQueueDequeue (osDefer st cb ck).2.mEvtsInternal
      = some (⟨EVT_DEFERRED_CALLBACK, p, .osDeferredActionFreeF⟩,
          { (osDefer st cb ck).2.mEvtsInternal with evts := [] }) := by
    unfold evtQueueDequeue
    rw [a1, hempty]
    rfl
  obtain ⟨_, k2, k3, _, k5⟩ := key _ _ _ ReachablePending.start hdq rfl rfl
  refine ⟨k2, ?_, by omega⟩
  rw [k3, osDefer_produce]
  have : ∀ fill ty, (produce st fill ty).2.mTasks = st.mTasks := by
    intro fill ty
    unfold produce osEnqueueDeferred osEnqueueEvt
    simp only []
    split
    · rfl
    · simp only [Bool.false_eq_true, if_false]
      split <;> rfl
  exact this _ _

/-- C7 at a concrete run: after bring-up and the iteration that handles
`EVT_APP_START`, `osDefer(7, 8)` is accepted, and the next iteration calls the
callback 7 on the cookie 8 once and gives the record back. -/
theorem osDefer_runs_once_witness :
    ∃ s0 p, osMainBringUp wConsts wImage 4 ⟨[], []⟩ ⟨[true, true], [true, true]⟩ = some s0
      ∧ callsSince (osDefer (osMainIter wConsts s0) 7 8).2
          (osMainIter wConsts (osDefer (osMainIter wConsts s0) 7 8).2)
          = [.deferredCallback 7 8, .evtFree .osDeferredActionFreeF p]
      ∧ (osMainIter wConsts (osDefer (osMainIter wConsts s0) 7 8).2).mDeferedActionsSlab.outstanding
          = (osMainIter wConsts s0).mDeferedActionsSlab.outstanding := by
  have hb : osMainBringUp wConsts wImage 4 ⟨[], []⟩ ⟨[true, true], [true, true]⟩
      = some ((osMainBringUp wConsts wImage 4 ⟨[], []⟩ ⟨[true, true], [true, true]⟩).get
        (by decide)) := by
    simp
  obtain ⟨p, _, _, _, h4⟩ := osDefer_runs_once wConsts _ _ 7 8 (by decide)
    ⟨wImage, 4, ⟨[], []⟩, ⟨[true, true], [true, true]⟩, hb⟩
    (Reachable.step _ _ Reachable.start (Step.iter _)) (by decide)
  obtain ⟨k1, _, k3⟩ := h4 (by decide)
  exact ⟨_, p, hb, k1, k3⟩

/-! ### Subscription lists: scan, append, swap-remove -/

theorem map_getD_range (l : List Nat) (n : Nat) (h : n ≤ l.length) :
    (List.range n).map (fun i => l.getD i 0) = l.take n := by
  apply List.ext_getElem
  · simp [h]
  · intro i h1 h2
    simp only [List.length_map, List.length_range] at h1
    simp only [List.getElem_map, List.getElem_range, List.getElem_take]
    rw [List.getD_eq_getElem?_getD, List.getElem?_eq_getElem (by omega)]
    rfl

theorem swapRemove_perm (l : List Nat) (i : Nat) (hi : i < l.length) :
    ((l.set i (l.getD (l.length - 1) 0)).take (l.length - 1)).Perm (l.eraseIdx i) := by
  induction l generalizing i with
  | nil => simp at hi
  | cons a t ih =>
    cases i with
    | zero =>
      cases ht : t with
      | nil => simp
      | cons b u =>
        have hne : b :: u ≠ [] := by simp
        have hlast : (a :: b :: u).getD ((a :: b :: u).length - 1) 0 = (b :: u).getLast hne := by
          rw [List.getLast_eq_getElem]
          simp [List.getD_eq_getElem?_getD]
        rw [hlast]
        simp only [List.set_cons_zero, List.length_cons, Nat.add_sub_cancel, List.take_succ_cons,
          List.eraseIdx_cons_zero]
        have h2 : List.take u.length (b :: u) = (b :: u).dropLast := by
          rw [List.dropLast_eq_take]
          simp
        rw [h2]
        have h3 := List.dropLast_append_getLast hne
        have h4 : ([(b :: u).getLast hne] ++ (b :: u).dropLast).Perm
            ((b :: u).dropLast ++ [(b :: u).getLast hne]) := List.perm_append_comm
        exact h4.trans (List.Perm.of_eq h3)
    | succ j =>
      simp only [List.length_cons, Nat.succ_lt_succ_iff] at hi
      obtain ⟨m, hm⟩ : ∃ m, t.length = m + 1 := ⟨t.length - 1, by omega⟩
      have hget : (a :: t).getD ((a :: t).length - 1) 0 = t.getD (t.length - 1) 0 := by
        simp only [List.length_cons, Nat.add_sub_cancel, hm]
        simp [List.getD_eq_getElem?_getD]
      rw [hget]
      have := ih j hi
      simp only [List.set_cons_succ, List.length_cons, Nat.add_sub_cancel, List.eraseIdx_cons_succ]
      rw [hm] at this ⊢
      simp only [Nat.add_sub_cancel, List.take_succ_cons] at this ⊢
      exact List.Perm.cons a this

theorem swapRemove_spec (l : List Nat) (i : Nat) (hi : i < l.length) (hnd : l.Nodup) :
    ((l.set i (l.getD (l.length - 1) 0)).take (l.length - 1)).Nodup
    ∧ ∀ x, x ∈ (l.set i (l.getD (l.length - 1) 0)).take (l.length - 1)
        ↔ x ∈ l ∧ x ≠ l.getD i 0 := by
  have hp := swapRemove_perm l i hi
  refine ⟨hp.nodup_iff.2 (hnd.sublist (List.eraseIdx_sublist l i)), ?_⟩
  intro x
  rw [hp.mem_iff, ← hnd.erase_getElem i hi, hnd.mem_erase_iff, List.getD_eq_getElem?_getD,
    List.getElem?_eq_getElem hi]
  simp only [Option.getD_some]
  exact And.comm

theorem take_set_succ (l : List Nat) (n x : Nat) (h : n < l.length) :
    (l.set n x).take (n + 1) = l.take n ++ [x] := by
  rw [List.take_succ, List.getElem?_set_self h, List.set_take,
    List.set_eq_of_length_le (by simp)]
  rfl

theorem evtRead_eq_buf (st : State) (p : EvtPtr) (i : Nat) :
    evtRead st p i = (evtBuf st p).getD i 0 := by
  cases p <;> rfl

theorem subbedEvtList_eq_take (st : State) (k : Nat)
    (h : (st.task k).subbedEvtCount ≤ (evtBuf st (st.task k).subbedEvents).length) :
    subbedEvtList st k = (evtBuf st (st.task k).subbedEvents).take (st.task k).subbedEvtCount := by
  unfold subbedEvtList
  rw [← map_getD_range _ _ h]
  apply List.map_congr_left
  intro i _
  exact evtRead_eq_buf st _ i

theorem task_setTask (st : State) (k j : Nat) (t : Task) :
    (st.setTask k t).task j = if j = k ∧ k < st.mTasks.length then t else st.task j := by
  by_cases h : j = k ∧ k < st.mTasks.length
  · rw [if_pos h, h.1]
    exact task_setTask_eq st k t h.2
  · rw [if_neg h]
    by_cases hjk : j = k
    · subst hjk
      have : st.mTasks.length ≤ j := by
        by_contra hc
        exact h ⟨rfl, by omega⟩
      simp only [State.task, State.setTask]
      rw [List.set_eq_of_length_le this]
    · exact task_setTask_ne st k j t hjk

theorem length_setTask (st : State) (k : Nat) (t : Task) :
    (st.setTask k t).mTasks.length = st.mTasks.length := by
  simp [State.setTask]

theorem length_evtWrite (st : State) (p : EvtPtr) (i v : Nat) :
    (evtWrite st p i v).mTasks.length = st.mTasks.length := by
  cases p with
  | null => rfl
  | embedded s => exact length_setTask _ _ _
  | heap a => rfl

theorem heap_evtWrite_embedded (st : State) (s i v : Nat) :
    (evtWrite st (.embedded s) i v).heap = st.heap := rfl

theorem sameTaskFields_evtWrite (st : State) (p : EvtPtr) (i v : Nat) :
    SameTaskFields st (evtWrite st p i v) := by
  refine ⟨length_evtWrite st p i v, ?_⟩
  intro j
  cases p with
  | null => exact ⟨rfl, rfl, rfl, rfl, rfl, rfl⟩
  | heap a => exact ⟨rfl, rfl, rfl, rfl, rfl, rfl⟩
  | embedded s =>
    simp only [evtWrite]
    rw [task_setTask]
    split
    · rename_i h
      rw [h.1]
      exact ⟨rfl, rfl, rfl, rfl, rfl, rfl⟩
    · exact ⟨rfl, rfl, rfl, rfl, rfl, rfl⟩

theorem evtBuf_evtWrite (st : State) (p : EvtPtr) (i v : Nat) (h : PtrOk st p) :
    evtBuf (evtWrite st p i v) p = (evtBuf st p).set i v := by
  cases p with
  | null => exact absurd h (by simp [PtrOk])
  | embedded s =>
    simp only [evtWrite, evtBuf]
    rw [task_setTask_eq _ _ _ h]
  | heap a =>
    obtain ⟨w, hw⟩ := h
    have ha : a < st.heap.chunks.length := by
      have := List.getElem?_eq_some_iff.1 hw
      exact this.1
    simp only [evtWrite, evtBuf, List.getD_eq_getElem?_getD]
    rw [List.getElem?_set_self ha]
    rfl

theorem ptrOk_evtWrite (st : State) (p q : EvtPtr) (i v : Nat) (h : PtrOk st q) :
    PtrOk (evtWrite st p i v) q := by
  cases q with
  | null => exact h
  | embedded s =>
    simp only [PtrOk, length_evtWrite]
    exact h
  | heap a =>
    cases p with
    | null => exact h
    | embedded s => exact h
    | heap b =>
      obtain ⟨w, hw⟩ := h
      simp only [PtrOk, evtWrite]
      by_cases hab : a = b
      · subst hab
        have ha : a < st.heap.chunks.length := (List.getElem?_eq_some_iff.1 hw).1
        exact ⟨_, List.getElem?_set_self ha⟩
      · exact ⟨w, by rw [List.getElem?_set_ne (Ne.symm hab)]; exact hw⟩

theorem evtBuf_setTask (st : State) (k : Nat) (t : Task) (p : EvtPtr)
    (h : t.subbedEventsInt = (st.task k).subbedEventsInt) :
    evtBuf (st.setTask k t) p = evtBuf st p := by
  cases p with
  | null => rfl
  | heap a => rfl
  | embedded s =>
    simp only [evtBuf]
    rw [task_setTask]
    split
    · rename_i hs
      rw [h, hs.1]
    · rfl

theorem ptrOk_setTask (st : State) (k : Nat) (t : Task) (q : EvtPtr) (h : PtrOk st q) :
    PtrOk (st.setTask k t) q := by
  cases q with
  | null => exact h
  | embedded s =>
    simp only [PtrOk, length_setTask]
    exact h
  | heap a => exact h

theorem subbedEvtScan_spec (rd : Nat → Nat) (evt n i : Nat) :
    i ≤ subbedEvtScan rd evt n i ∧ subbedEvtScan rd evt n i ≤ i + n
    ∧ (subbedEvtScan rd evt n i < i + n → rd (subbedEvtScan rd evt n i) = evt)
    ∧ ∀ j, i ≤ j → j < subbedEvtScan rd evt n i → rd j ≠ evt := by
  induction n generalizing i with
  | zero =>
    simp only [subbedEvtScan]
    exact ⟨le_refl _, le_refl _, fun h => absurd h (by omega), fun j h1 h2 => absurd h1 (by omega)⟩
  | succ n ih =>
    rw [subbedEvtScan]
    by_cases h : rd i = evt
    · rw [if_pos h]
      exact ⟨le_refl _, by omega, fun _ => h, fun j h1 h2 => absurd h1 (by omega)⟩
    · rw [if_neg h]
      obtain ⟨h1, h2, h3, h4⟩ := ih (i + 1)
      refine ⟨by omega, by omega, fun hlt => h3 (by omega), ?_⟩
      intro j hj1 hj2
      by_cases hji : j = i
      · rw [hji]
        exact h
      · exact h4 j (by omega) hj2

/-- The scan of the handler, in terms of the subscription list: it stops at
the count exactly when the event is not in the list, and otherwise at an
index holding the event. -/
theorem subbedEvtScan_list (st : State) (k evt : Nat) :
    (subbedEvtScan (evtRead st (st.task k).subbedEvents) evt (st.task k).subbedEvtCount 0
        = (st.task k).subbedEvtCount ↔ evt ∉ subbedEvtList st k)
    ∧ subbedEvtScan (evtRead st (st.task k).subbedEvents) evt (st.task k).subbedEvtCount 0
        ≤ (st.task k).subbedEvtCount
    ∧ (subbedEvtScan (evtRead st (st.task k).subbedEvents) evt (st.task k).subbedEvtCount 0
        ≠ (st.task k).subbedEvtCount →
        evtRead st (st.task k).subbedEvents
          (subbedEvtScan (evtRead st (st.task k).subbedEvents) evt (st.task k).subbedEvtCount 0)
          = evt) := by
  obtain ⟨_, h2, h3, h4⟩ := subbedEvtScan_spec (evtRead st (st.task k).subbedEvents) evt
    (st.task k).subbedEvtCount 0
  simp only [Nat.zero_add] at h2 h3
  refine ⟨?_, h2, fun hne => h3 (by omega)⟩
  unfold subbedEvtList
  constructor
  · intro he hm
    simp only [List.mem_map, List.mem_range] at hm
    obtain ⟨j, hj, hr⟩ := hm
    exact h4 j (Nat.zero_le _) (by omega) hr
  · intro hn
    by_contra hc
    apply hn
    simp only [List.mem_map, List.mem_range]
    exact ⟨_, by omega, h3 (by omega)⟩

theorem evtBuf_setTask_count (st : State) (k n : Nat) (p : EvtPtr) :
    evtBuf (st.setTask k { st.task k with subbedEvtCount := n }) p = evtBuf st p :=
  evtBuf_setTask st k { st.task k with subbedEvtCount := n } p rfl

/-- What the append of the subscribe branch does to a well-formed slot with a
free entry: the event joins the end of the list, the capacity and the list
pointer stay, and no slot changes its tid or its header. -/
theorem evtAppend_spec (st : State) (k evt : Nat) (hok : TaskOk st k)
    (hroom : (st.task k).subbedEvtCount < (st.task k).subbedEvtListSz)
    (hnew : evt ∉ subbedEvtList st k) :
    TaskOk (evtAppend st k evt) k
    ∧ subbedEvtList (evtAppend st k evt) k = subbedEvtList st k ++ [evt]
    ∧ ((evtAppend st k evt).task k).subbedEvtCount = (st.task k).subbedEvtCount + 1
    ∧ ((evtAppend st k evt).task k).subbedEvtListSz = (st.task k).subbedEvtListSz
    ∧ (evtAppend st k evt).mTasks.length = st.mTasks.length
    ∧ ∀ j, ((evtAppend st k evt).task j).tid = (st.task j).tid
        ∧ ((evtAppend st k evt).task j).appHdr = (st.task j).appHdr := by
  obtain ⟨h1, h2, h3, h4, h5, h6⟩ := hok
  obtain ⟨w0, w⟩ := sameTaskFields_evtWrite st (st.task k).subbedEvents (st.task k).subbedEvtCount evt
  have hlen : k < (evtWrite st (st.task k).subbedEvents (st.task k).subbedEvtCount evt).mTasks.length := by
    rw [w0]
    exact h1
  have hmod : ((st.task k).subbedEvtCount + 1) % U16 = (st.task k).subbedEvtCount + 1 :=
    Nat.mod_eq_of_lt (by omega)
  have hk : (evtAppend st k evt).task k
      = { (evtWrite st (st.task k).subbedEvents (st.task k).subbedEvtCount evt).task k with
          subbedEvtCount := (st.task k).subbedEvtCount + 1 } := by
    unfold evtAppend
    simp only []
    rw [task_setTask_eq _ _ _ hlen, (w k).2.1, hmod]
  have hbuf : evtBuf (evtAppend st k evt) (st.task k).subbedEvents
      = (evtBuf st (st.task k).subbedEvents).set (st.task k).subbedEvtCount evt := by
    unfold evtAppend
    exact (evtBuf_setTask_count _ _ _ _).trans (evtBuf_evtWrite _ _ _ _ h2)
  have hp : ((evtAppend st k evt).task k).subbedEvents = (st.task k).subbedEvents := by
    rw [hk]
    exact (w k).2.2.2.1
  have hc : ((evtAppend st k evt).task k).subbedEvtCount = (st.task k).subbedEvtCount + 1 := by
    rw [hk]
  have hs : ((evtAppend st k evt).task k).subbedEvtListSz = (st.task k).subbedEvtListSz := by
    rw [hk]
    exact (w k).2.2.1
  have hl : (evtAppend st k evt).mTasks.length = st.mTasks.length := by
    unfold evtAppend
    simp only []
    rw [length_setTask, w0]
  have hlist : subbedEvtList (evtAppend st k evt) k = subbedEvtList st k ++ [evt] := by
    rw [subbedEvtList_eq_take _ _ (by rw [hp, hc, hbuf, List.length_set]; omega), hp, hc, hbuf,
      take_set_succ _ _ _ (by omega), subbedEvtList_eq_take _ _ (by omega)]
  refine ⟨⟨by rw [hl]; exact h1, ?_, by rw [hc, hs]; omega, ?_, by rw [hs]; exact h5, ?_⟩,
    hlist, hc, hs, hl, ?_⟩
  · rw [hp]
    unfold evtAppend
    exact ptrOk_setTask _ _ _ _ (ptrOk_evtWrite _ _ _ _ _ h2)
  · rw [hs, hp, hbuf, List.length_set]
    exact h4
  · rw [hlist]
    exact List.Nodup.append h6 (List.nodup_singleton evt) (by simpa using hnew)
  · intro j
    unfold evtAppend
    simp only []
    rw [task_setTask]
    split
    · rename_i hj
      rw [hj.1]
      exact ⟨(w k).1, (w k).2.2.2.2.1⟩
    · exact ⟨(w j).1, (w j).2.2.2.2.1⟩

theorem swap_take (B : List Nat) (n i : Nat) (h1 : 1 ≤ n) (h2 : n ≤ B.length) :
    (B.set i (B.getD (n - 1) 0)).take (n - 1)
      = ((B.take n).set i ((B.take n).getD ((B.take n).length - 1) 0)).take
          ((B.take n).length - 1) := by
  have hlen : (B.take n).length = n := by
    rw [List.length_take]
    omega
  have hv : (B.take n).getD (n - 1) 0 = B.getD (n - 1) 0 := by
    simp only [List.getD_eq_getElem?_getD]
    rw [List.getElem?_take_of_lt (by omega)]
  rw [hlen, hv, List.set_take, List.set_take, List.take_take, Nat.min_eq_left (by omega)]

/-- What the removal of the unsubscribe branch does to a well-formed slot
whose list holds the event at index `i`: the list loses that entry and keeps
every other, the capacity and the list pointer stay, and no slot changes its
tid or its header. -/
theorem evtUnsubAt_spec (st : State) (k i : Nat) (hok : TaskOk st k)
    (hi : i < (st.task k).subbedEvtCount) :
    TaskOk (evtUnsubAt st k i) k
    ∧ (∀ x, x ∈ subbedEvtList (evtUnsubAt st k i) k
        ↔ x ∈ subbedEvtList st k ∧ x ≠ evtRead st (st.task k).subbedEvents i)
    ∧ ((evtUnsubAt st k i).task k).subbedEvtCount + 1 = (st.task k).subbedEvtCount
    ∧ ((evtUnsubAt st k i).task k).subbedEvtListSz = (st.task k).subbedEvtListSz
    ∧ (evtUnsubAt st k i).mTasks.length = st.mTasks.length
    ∧ ∀ j, ((evtUnsubAt st k i).task j).tid = (st.task j).tid
        ∧ ((evtUnsubAt st k i).task j).appHdr = (st.task j).appHdr := by
  obtain ⟨h1, h2, h3, h4, h5, h6⟩ := hok
  have hmod : ((st.task k).subbedEvtCount + U16 - 1) % U16 = (st.task k).subbedEvtCount - 1 := by
    have : (st.task k).subbedEvtCount + U16 - 1 = (st.task k).subbedEvtCount - 1 + U16 := by omega
    rw [this, Nat.add_mod_right]
    exact Nat.mod_eq_of_lt (by omega)
  have hst1 : ∀ j, (st.setTask k { st.task k with
      subbedEvtCount := (st.task k).subbedEvtCount - 1 }).task j
        = if j = k then { st.task k with subbedEvtCount := (st.task k).subbedEvtCount - 1 }
          else st.task j := by
    intro j
    rw [task_setTask]
    by_cases hj : j = k
    · rw [if_pos ⟨hj, h1⟩, if_pos hj]
    · rw [if_neg (fun h => hj h.1), if_neg hj]
  have hb1 : evtBuf (st.setTask k { st.task k with
      subbedEvtCount := (st.task k).subbedEvtCount - 1 }) (st.task k).subbedEvents
        = evtBuf st (st.task k).subbedEvents := evtBuf_setTask_count _ _ _ _
  have hp1 : PtrOk (st.setTask k { st.task k with
      subbedEvtCount := (st.task k).subbedEvtCount - 1 }) (st.task k).subbedEvents :=
    ptrOk_setTask _ _ _ _ h2
  have hun : evtUnsubAt st k i
      = evtWrite (st.setTask k { st.task k with subbedEvtCount := (st.task k).subbedEvtCount - 1 })
          (st.task k).subbedEvents i
          ((evtBuf st (st.task k).subbedEvents).getD ((st.task k).subbedEvtCount - 1) 0) := by
    unfold evtUnsubAt
    simp only []
    rw [hmod, evtRead_eq_buf, hb1]
  obtain ⟨w0, w⟩ := sameTaskFields_evtWrite
    (st.setTask k { st.task k with subbedEvtCount := (st.task k).subbedEvtCount - 1 })
    (st.task k).subbedEvents i
    ((evtBuf st (st.task k).subbedEvents).getD ((st.task k).subbedEvtCount - 1) 0)
  rw [← hun] at w0 w
  have hbuf : evtBuf (evtUnsubAt st k i) (st.task k).subbedEvents
      = (evtBuf st (st.task k).subbedEvents).set i
          ((evtBuf st (st.task k).subbedEvents).getD ((st.task k).subbedEvtCount - 1) 0) := by
    rw [hun, evtBuf_evtWrite _ _ _ _ hp1, hb1]
  have hp : ((evtUnsubAt st k i).task k).subbedEvents = (st.task k).subbedEvents := by
    rw [(w k).2.2.2.1, hst1, if_pos rfl]
  have hc : ((evtUnsubAt st k i).task k).subbedEvtCount = (st.task k).subbedEvtCount - 1 := by
    rw [(w k).2.1, hst1, if_pos rfl]
  have hs : ((evtUnsubAt st k i).task k).subbedEvtListSz = (st.task k).subbedEvtListSz := by
    rw [(w k).2.2.1, hst1, if_pos rfl]
  have hl : (evtUnsubAt st k i).mTasks.length = st.mTasks.length := by
    rw [w0, length_setTask]
  have hold := subbedEvtList_eq_take st k (by omega)
  have hnew : subbedEvtList (evtUnsubAt st k i) k
      = ((subbedEvtList st k).set i ((subbedEvtList st k).getD ((subbedEvtList st k).length - 1) 0)).take
          ((subbedEvtList st k).length - 1) := by
    have hlen : (subbedEvtList st k).length = (st.task k).subbedEvtCount := by
      rw [hold, List.length_take]
      omega
    rw [subbedEvtList_eq_take _ _ (by rw [hp, hc, hbuf, List.length_set]; omega), hp, hc, hbuf,
      hold]
    exact swap_take _ _ _ (by omega) (by omega)
  have hri : evtRead st (st.task k).subbedEvents i = (subbedEvtList st k).getD i 0 := by
    rw [evtRead_eq_buf, hold]
    simp only [List.getD_eq_getElem?_getD]
    rw [List.getElem?_take_of_lt hi]
  have hlen : i < (subbedEvtList st k).length := by
    rw [hold, List.length_take]
    omega
  obtain ⟨s1, s2⟩ := swapRemove_spec (subbedEvtList st k) i hlen h6
  rw [← hnew] at s1 s2
  refine ⟨⟨by rw [hl]; exact h1, ?_, by rw [hc, hs]; omega, ?_, by rw [hs]; exact h5, s1⟩,
    ?_, by rw [hc]; omega, hs, hl, ?_⟩
  · rw [hp, hun]
    exact ptrOk_evtWrite _ _ _ _ _ hp1
  · rw [hs, hp, hbuf, List.length_set]
    exact h4
  · intro x
    rw [s2 x, hri]
  · intro j
    rw [(w j).1, (w j).2.2.2.2.1, hst1]
    split
    · rename_i hj
      rw [hj]
      exact ⟨rfl, rfl⟩
    · exact ⟨rfl, rfl⟩

/-! ### Subscription lists: growth -/

theorem heapAlloc_true (h : Heap) (bytes : Nat) (rest : List Bool) (hav : h.avail = true :: rest) :
    heapAlloc h bytes
      = (some h.chunks.length,
          ⟨h.chunks ++ [some (List.replicate (bytes / 4) 0)], rest⟩) := by
  simp [heapAlloc, hav]

theorem length_memcpyWords (rd : Nat → Nat) (n : Nat) (dst : List Nat) :
    (memcpyWords rd n dst).length = dst.length := by
  simp [memcpyWords]

theorem getD_memcpyWords (rd : Nat → Nat) (n j : Nat) (dst : List Nat) (hj : j < n)
    (hd : j < dst.length) : (memcpyWords rd n dst).getD j 0 = rd j := by
  simp only [memcpyWords, List.getD_eq_getElem?_getD]
  rw [List.getElem?_eq_getElem (by simpa using hd)]
  simp [hj]

theorem evtListMove_mTasks (s : State) (k newSz a : Nat) :
    (evtListMove s k newSz a).mTasks
      = s.mTasks.set k { s.task k with subbedEvents := .heap a, subbedEvtListSz := newSz % U16 } := by
  unfold evtListMove
  by_cases hp : (s.task k).subbedEvents ≠ .embedded k
  · simp only [if_pos hp]
    rfl
  · simp only [if_neg hp]
    rfl

theorem evtListMove_heap (s : State) (k newSz a : Nat) :
    (evtListMove s k newSz a).heap
      = if (s.task k).subbedEvents ≠ .embedded k then
          heapFree ⟨s.heap.chunks.set a (some (memcpyWords (evtRead s (s.task k).subbedEvents)
            (s.task k).subbedEvtListSz ((s.heap.chunks.getD a none).getD []))), s.heap.avail⟩
            (s.task k).subbedEvents
        else ⟨s.heap.chunks.set a (some (memcpyWords (evtRead s (s.task k).subbedEvents)
            (s.task k).subbedEvtListSz ((s.heap.chunks.getD a none).getD []))), s.heap.avail⟩ := by
  unfold evtListMove
  by_cases hp : (s.task k).subbedEvents ≠ .embedded k
  · simp only [if_pos hp]
    rfl
  · simp only [if_neg hp]
    rfl

/-- The chunk the list has moved to, after `evtListMove`, when the old list
does not live in that chunk. -/
theorem evtListMove_chunk (s : State) (k newSz a : Nat) (ha : a < s.heap.chunks.length)
    (hne : (s.task k).subbedEvents ≠ .heap a) :
    (evtListMove s k newSz a).heap.avail = s.heap.avail
    ∧ (evtListMove s k newSz a).heap.chunks[a]?
        = some (some (memcpyWords (evtRead s (s.task k).subbedEvents)
            (s.task k).subbedEvtListSz ((s.heap.chunks.getD a none).getD []))) := by
  rw [evtListMove_heap]
  by_cases hp : (s.task k).subbedEvents ≠ .embedded k
  · rw [if_pos hp]
    cases hptr : (s.task k).subbedEvents with
    | null => exact ⟨rfl, List.getElem?_set_self ha⟩
    | embedded t => exact ⟨rfl, List.getElem?_set_self ha⟩
    | heap b =>
      have hba : b ≠ a := by
        intro e
        rw [hptr, e] at hne
        exact hne rfl
      refine ⟨rfl, ?_⟩
      simp only [heapFree]
      rw [List.getElem?_set_ne hba]
      exact List.getElem?_set_self ha
  · rw [if_neg hp]
    exact ⟨rfl, List.getElem?_set_self ha⟩

theorem evtRead_congr (s st : State) (p : EvtPtr) (j : Nat) (h1 : s.mTasks = st.mTasks)
    (h2 : ∀ (b : Nat) (w : List Nat), st.heap.chunks[b]? = some (some w) →
      s.heap.chunks[b]? = some (some w))
    (hp : PtrOk st p) : evtRead s p j = evtRead st p j := by
  cases p with
  | null => rfl
  | embedded t => simp only [evtRead, State.task, h1]
  | heap b =>
    obtain ⟨w, hw⟩ := hp
    simp only [evtRead, List.getD_eq_getElem?_getD, hw, h2 b w hw]

/-- What the block "enlarge the list" does to a well-formed slot when the heap
grants the chunk and the new capacity fits its 16-bit field: the list moves
to the fresh chunk with its entries and count unchanged, the capacity becomes
`(3 * cap + 1) / 2`, and no slot changes its tid or its header. -/
theorem evtListGrow_spec (st : State) (k : Nat) (rest : List Bool) (hok : TaskOk st k)
    (hav : st.heap.avail = true :: rest)
    (hsz : ((st.task k).subbedEvtListSz * 3 + 1) / 2 < U16) :
    TaskOk (evtListGrow st k) k
    ∧ subbedEvtList (evtListGrow st k) k = subbedEvtList st k
    ∧ ((evtListGrow st k).task k).subbedEvtCount = (st.task k).subbedEvtCount
    ∧ ((evtListGrow st k).task k).subbedEvtListSz = ((st.task k).subbedEvtListSz * 3 + 1) / 2
    ∧ ((evtListGrow st k).task k).subbedEvents = .heap st.heap.chunks.length
    ∧ (evtListGrow st k).mTasks.length = st.mTasks.length
    ∧ (evtListGrow st k).heap.avail = rest
    ∧ ∀ j, ((evtListGrow st k).task j).tid = (st.task j).tid
        ∧ ((evtListGrow st k).task j).appHdr = (st.task j).appHdr := by
  obtain ⟨h1, h2, h3, h4, h5, h6⟩ := hok
  have hdiv : 4 * (((st.task k).subbedEvtListSz * 3 + 1) / 2) / 4
      = ((st.task k).subbedEvtListSz * 3 + 1) / 2 := by omega
  have hmod : ((st.task k).subbedEvtListSz * 3 + 1) / 2 % U16
      = ((st.task k).subbedEvtListSz * 3 + 1) / 2 := Nat.mod_eq_of_lt hsz
  have hge : (st.task k).subbedEvtListSz ≤ ((st.task k).subbedEvtListSz * 3 + 1) / 2 := by omega
  obtain ⟨s, hs, m1, m2⟩ : ∃ s : State,
      evtListGrow st k = evtListMove s k (((st.task k).subbedEvtListSz * 3 + 1) / 2)
        st.heap.chunks.length
      ∧ s.mTasks = st.mTasks
      ∧ s.heap = ⟨st.heap.chunks ++ [some (List.replicate
          (((st.task k).subbedEvtListSz * 3 + 1) / 2) 0)], rest⟩ := by
    refine ⟨({ st with heap := ⟨st.heap.chunks ++ [some (List.replicate
      (((st.task k).subbedEvtListSz * 3 + 1) / 2) 0)], rest⟩ } : State).call
      (.heapAlloc (4 * (((st.task k).subbedEvtListSz * 3 + 1) / 2)) (some st.heap.chunks.length)),
      ?_, rfl, rfl⟩
    unfold evtListGrow
    simp only [heapAlloc_true st.heap _ rest hav, hdiv]
  have htask : ∀ j, s.task j = st.task j := fun j => by simp only [State.task, m1]
  have ha : st.heap.chunks.length < s.heap.chunks.length := by
    rw [m2]
    simp
  have hne : (s.task k).subbedEvents ≠ .heap st.heap.chunks.length := by
    rw [htask]
    intro e
    rw [e] at h2
    obtain ⟨w, hw⟩ := h2
    have := (List.getElem?_eq_some_iff.1 hw).1
    omega
  have hzero : (s.heap.chunks.getD st.heap.chunks.length none).getD []
      = List.replicate (((st.task k).subbedEvtListSz * 3 + 1) / 2) 0 := by
    rw [m2]
    simp [List.getD_eq_getElem?_getD]
  have hrd : ∀ j, evtRead s (st.task k).subbedEvents j = evtRead st (st.task k).subbedEvents j := by
    intro j
    refine evtRead_congr s st _ j m1 ?_ h2
    intro b w hw
    rw [m2]
    simp only []
    rw [List.getElem?_append_left (List.getElem?_eq_some_iff.1 hw).1]
    exact hw
  obtain ⟨c1, c2⟩ := evtListMove_chunk s k (((st.task k).subbedEvtListSz * 3 + 1) / 2)
    st.heap.chunks.length ha hne
  rw [← hs] at c1 c2
  rw [htask, hzero] at c2
  have hrdf : evtRead s (st.task k).subbedEvents = evtRead st (st.task k).subbedEvents :=
    funext hrd
  rw [hrdf] at c2
  have htasks := evtListMove_mTasks s k (((st.task k).subbedEvtListSz * 3 + 1) / 2)
    st.heap.chunks.length
  rw [← hs, htask, m1, hmod] at htasks
  have htk : ∀ j, (evtListGrow st k).task j
      = if j = k then { st.task k with
          subbedEvents := .heap st.heap.chunks.length,
          subbedEvtListSz := ((st.task k).subbedEvtListSz * 3 + 1) / 2 } else st.task j := by
    intro j
    have e := task_setTask st k j { st.task k with
          subbedEvents := .heap st.heap.chunks.length,
          subbedEvtListSz := ((st.task k).subbedEvtListSz * 3 + 1) / 2 }
    simp only [State.task, State.setTask] at e
    simp only [State.task, htasks, e]
    by_cases hj : j = k
    · rw [if_pos ⟨hj, h1⟩, if_pos hj]
    · rw [if_neg (fun h => hj h.1), if_neg hj]
  have hbuf : evtBuf (evtListGrow st k) (.heap st.heap.chunks.length)
      = memcpyWords (evtRead st (st.task k).subbedEvents) (st.task k).subbedEvtListSz
          (List.replicate (((st.task k).subbedEvtListSz * 3 + 1) / 2) 0) := by
    simp only [evtBuf, List.getD_eq_getElem?_getD, c2]
    rfl
  have hp : ((evtListGrow st k).task k).subbedEvents = .heap st.heap.chunks.length := by
    rw [htk, if_pos rfl]
  have hc : ((evtListGrow st k).task k).subbedEvtCount = (st.task k).subbedEvtCount := by
    rw [htk, if_pos rfl]
  have hsz2 : ((evtListGrow st k).task k).subbedEvtListSz
      = ((st.task k).subbedEvtListSz * 3 + 1) / 2 := by
    rw [htk, if_pos rfl]
  have hl : (evtListGrow st k).mTasks.length = st.mTasks.length := by
    rw [htasks, List.length_set]
  have hlist : subbedEvtList (evtListGrow st k) k = subbedEvtList st k := by
    unfold subbedEvtList
    rw [hc, hp]
    apply List.map_congr_left
    intro j hj
    rw [evtRead_eq_buf, hbuf]
    have hj2 := List.mem_range.1 hj
    exact getD_memcpyWords _ _ _ _ (by omega) (by simp; omega)
  refine ⟨⟨by rw [hl]; exact h1, ?_, by rw [hc, hsz2]; omega, ?_, by rw [hsz2]; exact hsz, ?_⟩,
    hlist, hc, hsz2, hp, hl, ?_, ?_⟩
  · rw [hp]
    exact ⟨_, c2⟩
  · rw [hsz2, hp, hbuf, length_memcpyWords]
    simp
  · rw [hlist]
    exact h6
  · rw [c1, m2]
  · intro j
    rw [htk]
    split
    · rename_i hj
      rw [hj]
      exact ⟨rfl, rfl⟩
    · exact ⟨rfl, rfl⟩

/-! ### Subscribes, unsubscribes and broadcasts in queue order -/

theorem osTaskFindByTidLoop_congr (l1 l2 : List Task) (tid n i : Nat)
    (h : ∀ j, (l2.getD j default).tid = (l1.getD j default).tid) :
    osTaskFindByTidLoop l2 tid n i = osTaskFindByTidLoop l1 tid n i := by
  induction n generalizing i with
  | zero => rfl
  | succ n ih => simp only [osTaskFindByTidLoop, h i, ih]

theorem osTaskFindByTid_congr (c : Consts) (st st2 : State) (tid : Nat)
    (h : ∀ j, (st2.task j).tid = (st.task j).tid) :
    osTaskFindByTid c st2 tid = osTaskFindByTid c st tid :=
  osTaskFindByTidLoop_congr st.mTasks st2.mTasks tid c.MAX_TASKS 0 h

theorem subbedEvtList_congr (st st2 : State) (k : Nat) (h1 : st2.mTasks = st.mTasks)
    (h2 : st2.heap = st.heap) : subbedEvtList st2 k = subbedEvtList st k := by
  have ht : ∀ j, st2.task j = st.task j := fun j => by simp only [State.task, h1]
  have hr : ∀ p i, evtRead st2 p i = evtRead st p i := by
    intro p i
    cases p with
    | null => rfl
    | embedded s => simp only [evtRead, ht]
    | heap a => simp only [evtRead, h2]
  unfold subbedEvtList
  rw [ht]
  exact List.map_congr_left (fun i _ => hr _ i)

theorem isSubscribed_congr (st st2 : State) (k evt : Nat) (h1 : st2.mTasks = st.mTasks)
    (h2 : st2.heap = st.heap) : isSubscribed st2 k evt = isSubscribed st k evt := by
  unfold isSubscribed
  rw [subbedEvtList_congr st st2 k h1 h2]
  simp only [State.task, h1]

theorem subInv_congr (c : Consts) (tid evt k : Nat) (st st2 : State) (h1 : st2.mTasks = st.mTasks)
    (h2 : st2.heap = st.heap) (h : SubInv c tid evt k st) : SubInv c tid evt k st2 := by
  have ht : ∀ j, st2.task j = st.task j := fun j => by simp only [State.task, h1]
  have hb : ∀ p, evtBuf st2 p = evtBuf st p := by
    intro p
    cases p with
    | null => rfl
    | embedded s => simp only [evtBuf, ht]
    | heap a => simp only [evtBuf, h2]
  have hp : ∀ p, PtrOk st p → PtrOk st2 p := by
    intro p hp
    cases p with
    | null => exact hp
    | embedded s =>
      simp only [PtrOk, h1]
      exact hp
    | heap a =>
      simp only [PtrOk, h2]
      exact hp
  obtain ⟨a1, ⟨b1, b2, b3, b4, b5, b6⟩, a3⟩ := h
  refine ⟨?_, ⟨?_, ?_, ?_, ?_, ?_, ?_⟩, ?_⟩
  · rw [osTaskFindByTid_congr c st st2 tid (fun j => by rw [ht])]
    exact a1
  · rw [h1]
    exact b1
  · rw [ht]
    exact hp _ b2
  · rw [ht]
    exact b3
  · rw [ht, hb]
    exact b4
  · rw [ht]
    exact b5
  · rw [subbedEvtList_congr st st2 k h1 h2]
    exact b6
  · unfold CanSubscribe at a3 ⊢
    rw [subbedEvtList_congr st st2 k h1 h2, ht, h2]
    exact a3

theorem isSubscribed_iff (st : State) (k evt : Nat) (hok : TaskOk st k) :
    isSubscribed st k evt = true ↔ evt ∈ subbedEvtList st k := by
  have hp : (st.task k).subbedEvents ≠ .null := by
    intro h
    have := hok.2.1
    rw [h] at this
    exact this
  simp [isSubscribed, hp]

/-- The handler on `EVT_SUBSCRIBE{tid, evt}` when no subscribe can be dropped:
afterwards the task is subscribed to `evt`. -/
theorem osInternalEvtHandle_subscribe (c : Consts) (tid evt k : Nat) (st : State) (evtData : Nat)
    (hrec : (st.mDeferedActionsSlab.deref evtData).evtSub = ⟨tid, evt⟩)
    (h : SubInv c tid evt k st) :
    SubInv c tid evt k (osInternalEvtHandle c st EVT_SUBSCRIBE_TO_EVT evtData)
    ∧ isSubscribed (osInternalEvtHandle c st EVT_SUBSCRIBE_TO_EVT evtData) k evt = true
    ∧ ((osInternalEvtHandle c st EVT_SUBSCRIBE_TO_EVT evtData).task k).appHdr = (st.task k).appHdr := by
  obtain ⟨a1, a2, a3⟩ := h
  obtain ⟨s1, _, _⟩ := subbedEvtScan_list st k evt
  have hev : (st.mDeferedActionsSlab.deref evtData).evtSub.evt = evt := by rw [hrec]
  have htid : (st.mDeferedActionsSlab.deref evtData).evtSub.tid = tid := by rw [hrec]
  by_cases hin : evt ∈ subbedEvtList st k
  · have hne : subbedEvtScan (evtRead st (st.task k).subbedEvents) evt (st.task k).subbedEvtCount 0
        ≠ (st.task k).subbedEvtCount := fun e => (s1.1 e) hin
    have hres : osInternalEvtHandle c st EVT_SUBSCRIBE_TO_EVT evtData = st := by
      simp [osInternalEvtHandle, EVT_SUBSCRIBE_TO_EVT, EVT_UNSUBSCRIBE_TO_EVT, htid, hev, a1, hne]
    rw [hres]
    exact ⟨⟨a1, a2, a3⟩, (isSubscribed_iff st k evt a2).2 hin, rfl⟩
  · have heq : subbedEvtScan (evtRead st (st.task k).subbedEvents) evt (st.task k).subbedEvtCount 0
        = (st.task k).subbedEvtCount := s1.2 hin
    have hres0 : osInternalEvtHandle c st EVT_SUBSCRIBE_TO_EVT evtData = evtSubAt st k evt := by
      simp [osInternalEvtHandle, EVT_SUBSCRIBE_TO_EVT, EVT_UNSUBSCRIBE_TO_EVT, htid, hev, a1, heq]
    by_cases hroom : (st.task k).subbedEvtCount < (st.task k).subbedEvtListSz
    · have hres : evtSubAt st k evt = evtAppend st k evt := by
        have hn1 : ¬ (st.task k).subbedEvtListSz = (st.task k).subbedEvtCount := by omega
        simp [evtSubAt, hn1, hroom]
      rw [hres0, hres]
      obtain ⟨t1, t2, t3, t4, _, t6⟩ := evtAppend_spec st k evt a2 hroom hin
      have hmem : evt ∈ subbedEvtList (evtAppend st k evt) k := by
        rw [t2]
        simp
      refine ⟨⟨?_, t1, Or.inl hmem⟩, (isSubscribed_iff _ k evt t1).2 hmem, (t6 k).2⟩
      rw [osTaskFindByTid_congr c st _ tid (fun j => (t6 j).1)]
      exact a1
    · have hfull : (st.task k).subbedEvtListSz = (st.task k).subbedEvtCount := by
        have := a2.2.2.1
        omega
      obtain ⟨g1, g2, rest, g3⟩ : 1 ≤ (st.task k).subbedEvtListSz
          ∧ ((st.task k).subbedEvtListSz * 3 + 1) / 2 < U16
          ∧ ∃ rest, st.heap.avail = true :: rest := by
        rcases a3 with a3 | a3 | a3
        · exact absurd a3 hin
        · exact absurd a3 hroom
        · exact a3
      obtain ⟨r1, r2, r3, r4, _, _, _, r8⟩ := evtListGrow_spec st k rest a2 g3 g2
      have hroom2 : ((evtListGrow st k).task k).subbedEvtCount
          < ((evtListGrow st k).task k).subbedEvtListSz := by
        rw [r3, r4]
        omega
      have hres : evtSubAt st k evt = evtAppend (evtListGrow st k) k evt := by
        simp [evtSubAt, hfull, hroom2]
      rw [hres0, hres]
      obtain ⟨t1, t2, t3, t4, _, t6⟩ := evtAppend_spec (evtListGrow st k) k evt r1 hroom2
        (by rw [r2]; exact hin)
      have hmem : evt ∈ subbedEvtList (evtAppend (evtListGrow st k) k evt) k := by
        rw [t2]
        simp
      refine ⟨⟨?_, t1, Or.inl hmem⟩, (isSubscribed_iff _ k evt t1).2 hmem,
        ((t6 k).2).trans (r8 k).2⟩
      rw [osTaskFindByTid_congr c st _ tid (fun j => ((t6 j).1).trans (r8 j).1)]
      exact a1

/-- The handler on `EVT_UNSUBSCRIBE{tid, evt}` for a well-formed slot:
afterwards the task is not subscribed to `evt`. -/
theorem osInternalEvtHandle_unsubscribe (c : Consts) (tid evt k : Nat) (st : State)
    (evtData : Nat) (hrec : (st.mDeferedActionsSlab.deref evtData).evtSub = ⟨tid, evt⟩)
    (h : SubInv c tid evt k st) :
    SubInv c tid evt k (osInternalEvtHandle c st EVT_UNSUBSCRIBE_TO_EVT evtData)
    ∧ isSubscribed (osInternalEvtHandle c st EVT_UNSUBSCRIBE_TO_EVT evtData) k evt = false
    ∧ ((osInternalEvtHandle c st EVT_UNSUBSCRIBE_TO_EVT evtData).task k).appHdr
        = (st.task k).appHdr := by
  obtain ⟨a1, a2, a3⟩ := h
  obtain ⟨s1, s2, s3⟩ := subbedEvtScan_list st k evt
  have hev : (st.mDeferedActionsSlab.deref evtData).evtSub.evt = evt := by rw [hrec]
  have htid : (st.mDeferedActionsSlab.deref evtData).evtSub.tid = tid := by rw [hrec]
  by_cases hin : evt ∈ subbedEvtList st k
  · have hne : subbedEvtScan (evtRead st (st.task k).subbedEvents) evt (st.task k).subbedEvtCount 0
        ≠ (st.task k).subbedEvtCount := fun e => (s1.1 e) hin
    have hres : osInternalEvtHandle c st EVT_UNSUBSCRIBE_TO_EVT evtData
        = evtUnsubAt st k (subbedEvtScan (evtRead st (st.task k).subbedEvents) evt
            (st.task k).subbedEvtCount 0) := by
      simp [osInternalEvtHandle, EVT_SUBSCRIBE_TO_EVT, EVT_UNSUBSCRIBE_TO_EVT, htid, hev, a1, hne]
    rw [hres]
    obtain ⟨t1, t2, t3, t4, _, t6⟩ := evtUnsubAt_spec st k (subbedEvtScan
      (evtRead st (st.task k).subbedEvents) evt (st.task k).subbedEvtCount 0) a2 (by omega)
    have hnot : evt ∉ subbedEvtList (evtUnsubAt st k (subbedEvtScan
        (evtRead st (st.task k).subbedEvents) evt (st.task k).subbedEvtCount 0)) k := by
      intro hm
      exact ((t2 evt).1 hm).2 (s3 hne).symm
    refine ⟨⟨?_, t1, Or.inr (Or.inl (by have h3 := t3; have h4 := a2.2.2.1; rw [t4]; omega))⟩, ?_,
      (t6 k).2⟩
    · rw [osTaskFindByTid_congr c st _ tid (fun j => (t6 j).1)]
      exact a1
    · cases hb : isSubscribed (evtUnsubAt st k (subbedEvtScan
          (evtRead st (st.task k).subbedEvents) evt (st.task k).subbedEvtCount 0)) k evt with
      | false => rfl
      | true => exact absurd ((isSubscribed_iff _ k evt t1).1 hb) hnot
  · have heq : subbedEvtScan (evtRead st (st.task k).subbedEvents) evt (st.task k).subbedEvtCount 0
        = (st.task k).subbedEvtCount := s1.2 hin
    have hres : osInternalEvtHandle c st EVT_UNSUBSCRIBE_TO_EVT evtData = st := by
      simp [osInternalEvtHandle, EVT_SUBSCRIBE_TO_EVT, EVT_UNSUBSCRIBE_TO_EVT, htid, hev, a1, heq]
    rw [hres]
    refine ⟨⟨a1, a2, a3⟩, ?_, rfl⟩
    cases hb : isSubscribed st k evt with
    | false => rfl
    | true => exact absurd ((isSubscribed_iff _ k evt a2).1 hb) hin

theorem evtFreeCall_items (st : State) (f : EventFreeF) (d : Nat) :
    (evtFreeCall st f d).mDeferedActionsSlab.items = st.mDeferedActionsSlab.items := by
  cases f <;> rfl

theorem count_handleCall_broadcastCalls (c : Consts) (st : State) (evtType evtData k : Nat) :
    (broadcastCalls c st evtType evtData).count (.cpuAppHandle (st.task k).appHdr k evtType evtData)
      = if k < c.MAX_TASKS ∧ isSubscribed st k evtType = true then 1 else 0 := by
  have hnd : (broadcastCalls c st evtType evtData).Nodup := by
    unfold broadcastCalls deliveries
    refine List.Nodup.map_on ?_ (List.Nodup.filter _ (List.nodup_range _))
    intro a _ b _ hab
    simp only [handleCall, Call.cpuAppHandle.injEq] at hab
    exact hab.2.1
  have hmem : Call.cpuAppHandle (st.task k).appHdr k evtType evtData
      ∈ broadcastCalls c st evtType evtData ↔ k < c.MAX_TASKS ∧ isSubscribed st k evtType = true := by
    simp only [broadcastCalls, deliveries, List.mem_map, List.mem_filter, List.mem_range,
      handleCall, Call.cpuAppHandle.injEq]
    constructor
    · rintro ⟨i, hi, _, rfl, _⟩
      exact hi
    · intro h
      exact ⟨k, h, by simp⟩
  by_cases h : k < c.MAX_TASKS ∧ isSubscribed st k evtType = true
  · rw [if_pos h]
    exact List.count_eq_one_of_mem hnd (hmem.2 h)
  · rw [if_neg h]
    exact List.count_eq_zero_of_not_mem (fun hm => h (hmem.1 hm))

/-- The calls of an iteration that dequeues a user event. -/
theorem osMainIter_user_calls (c : Consts) (st : State) (ev : Event) (q : EvtQueue)
    (hdq : evtQueueDequeue st.mEvtsInternal = some (ev, q))
    (hu : c.EVT_NO_FIRST_USER_EVENT ≤ ev.evtType) :
    callsSince st (osMainIter c st) = broadcastCalls c st ev.evtType ev.evtData ++ freeCalls ev := by
  have ht := osMainIter_trace c st ev q hdq
  rw [osMainHandled_user c st ev q hu] at ht
  exact callsSince_append st _ _ (by rw [ht, List.append_assoc])

/-- One iteration of the main loop that dequeues a user event, or a subscribe
or an unsubscribe whose record names the task `tid` and the event `evt`: the
hypotheses on the slot are kept, and the subscription of the task to `evt` is
what the dequeued event says. -/
theorem osMainIter_subStep_head (c : Consts) (tid evt k : Nat) (st : State) (ev : Event)
    (q : EvtQueue) (hthr : EVT_UNSUBSCRIBE_TO_EVT < c.EVT_NO_FIRST_USER_EVENT)
    (hdq : evtQueueDequeue st.mEvtsInternal = some (ev, q))
    (hinv : SubInv c tid evt k st)
    (hhead : ev.evtType < c.EVT_NO_FIRST_USER_EVENT →
      (ev.evtType = EVT_SUBSCRIBE_TO_EVT ∨ ev.evtType = EVT_UNSUBSCRIBE_TO_EVT)
      ∧ (st.mDeferedActionsSlab.items.getD ev.evtData default).evtSub = ⟨tid, evt⟩) :
    SubInv c tid evt k (osMainIter c st)
    ∧ (osMainIter c st).mEvtsInternal = q
    ∧ (osMainIter c st).mDeferedActionsSlab.items = st.mDeferedActionsSlab.items
    ∧ ((osMainIter c st).task k).appHdr = (st.task k).appHdr
    ∧ isSubscribed (osMainIter c st) k evt
        = (if ev.evtType = EVT_SUBSCRIBE_TO_EVT then true
           else if ev.evtType = EVT_UNSUBSCRIBE_TO_EVT then false else isSubscribed st k evt) := by
  have hinv1 : SubInv c tid evt k { st with mEvtsInternal := q } :=
    subInv_congr c tid evt k st _ rfl rfl hinv
  have key : SubInv c tid evt k (osMainHandled c st ev q)
      ∧ (osMainHandled c st ev q).mEvtsInternal = q
      ∧ (osMainHandled c st ev q).mDeferedActionsSlab.items = st.mDeferedActionsSlab.items
      ∧ ((osMainHandled c st ev q).task k).appHdr = (st.task k).appHdr
      ∧ isSubscribed (osMainHandled c st ev q) k evt
          = (if ev.evtType = EVT_SUBSCRIBE_TO_EVT then true
             else if ev.evtType = EVT_UNSUBSCRIBE_TO_EVT then false
             else isSubscribed st k evt) := by
    by_cases hu : c.EVT_NO_FIRST_USER_EVENT ≤ ev.evtType
    · rw [osMainHandled_user c st ev q hu]
      have h0 : ev.evtType ≠ EVT_SUBSCRIBE_TO_EVT := by
        simp only [EVT_SUBSCRIBE_TO_EVT, EVT_UNSUBSCRIBE_TO_EVT] at hthr ⊢
        omega
      have h1 : ev.evtType ≠ EVT_UNSUBSCRIBE_TO_EVT := by
        simp only [EVT_UNSUBSCRIBE_TO_EVT] at hthr ⊢
        omega
      rw [if_neg h0, if_neg h1]
      exact ⟨subInv_congr c tid evt k st _ rfl rfl hinv, rfl, rfl, rfl,
        isSubscribed_congr st _ k evt rfl rfl⟩
    · have hi : ev.evtType < c.EVT_NO_FIRST_USER_EVENT := by omega
      obtain ⟨hty, hrec⟩ := hhead hi
      have hqs := qs_osInternalEvtHandle_sub c { st with mEvtsInternal := q } ev.evtType
        ev.evtData hty
      simp only [State.qs, Prod.mk.injEq] at hqs
      rw [osMainHandled, if_pos hi]
      rcases hty with hty | hty
      · rw [hty] at hqs ⊢
        obtain ⟨b1, b2, b3⟩ := osInternalEvtHandle_subscribe c tid evt k
          { st with mEvtsInternal := q } ev.evtData hrec hinv1
        rw [if_pos rfl]
        exact ⟨b1, hqs.1, by rw [hqs.2.2], b3, b2⟩
      · rw [hty] at hqs ⊢
        obtain ⟨b1, b2, b3⟩ := osInternalEvtHandle_unsubscribe c tid evt k
          { st with mEvtsInternal := q } ev.evtData hrec hinv1
        rw [if_neg (by decide), if_pos rfl]
        exact ⟨b1, hqs.1, by rw [hqs.2.2], b3, b2⟩
  rw [osMainIter_eq c st ev q hdq]
  by_cases hf : ev.evtFreeF ≠ .null
  · rw [if_pos hf]
    obtain ⟨f1, f2, _, f4⟩ := evtFreeCall_frame (osMainHandled c st ev q) ev.evtFreeF ev.evtData
    obtain ⟨k1, k2, k3, k4, k5⟩ := key
    refine ⟨subInv_congr c tid evt k _ _ f1 f4 k1, by rw [f2, k2], by rw [evtFreeCall_items, k3],
      ?_, by rw [isSubscribed_congr _ _ k evt f1 f4, k5]⟩
    simp only [State.task, f1]
    exact k4
  · rw [if_neg hf]
    exact key

/-- One iteration of the main loop on a queue of subscribes, unsubscribes and
user events: the hypotheses on the slot are kept, and the subscription of the
task to `evt` is what the dequeued event says. -/
theorem osMainIter_subStep (c : Consts) (tid evt k : Nat) (st : State) (ev : Event)
    (q : EvtQueue) (hthr : EVT_UNSUBSCRIBE_TO_EVT < c.EVT_NO_FIRST_USER_EVENT)
    (hdq : evtQueueDequeue st.mEvtsInternal = some (ev, q))
    (hinv : SubInv c tid evt k st)
    (hq : SubQueue c tid evt st.mDeferedActionsSlab.items st.mEvtsInternal.evts) :
    SubInv c tid evt k (osMainIter c st)
    ∧ (osMainIter c st).mEvtsInternal = q
    ∧ (osMainIter c st).mDeferedActionsSlab.items = st.mDeferedActionsSlab.items
    ∧ ((osMainIter c st).task k).appHdr = (st.task k).appHdr
    ∧ isSubscribed (osMainIter c st) k evt
        = (if ev.evtType = EVT_SUBSCRIBE_TO_EVT then true
           else if ev.evtType = EVT_UNSUBSCRIBE_TO_EVT then false else isSubscribed st k evt) := by
  have hev := evtQueueDequeue_some _ _ _ hdq
  exact osMainIter_subStep_head c tid evt k st ev q hthr hdq hinv
    (hq ev (by rw [hev]; exact List.mem_cons_self _ _))

/-- The state after `n` iterations of the main loop on a queue of
subscribes, unsubscribes and user events. -/
theorem osMainIters_subInv (c : Consts) (tid evt k : Nat) (n : Nat) (st : State)
    (hthr : EVT_UNSUBSCRIBE_TO_EVT < c.EVT_NO_FIRST_USER_EVENT)
    (hinv : SubInv c tid evt k st)
    (hq : SubQueue c tid evt st.mDeferedActionsSlab.items st.mEvtsInternal.evts) :
    SubInv c tid evt k (osMainIters c n st)
    ∧ (osMainIters c n st).mEvtsInternal.evts = st.mEvtsInternal.evts.drop n
    ∧ ((osMainIters c n st).task k).appHdr = (st.task k).appHdr
    ∧ isSubscribed (osMainIters c n st) k evt
        = subscribedAfter (isSubscribed st k evt) (st.mEvtsInternal.evts.take n) := by
  induction n generalizing st with
  | zero => exact ⟨hinv, by simp [osMainIters], rfl, by simp [osMainIters, subscribedAfter]⟩
  | succ n ih =>
    rw [osMainIters]
    cases hdq : evtQueueDequeue st.mEvtsInternal with
    | none =>
      have hnil : st.mEvtsInternal.evts = [] := by
        unfold evtQueueDequeue at hdq
        split at hdq
        · assumption
        · cases hdq
      rw [osMainIter_none c st hdq]
      obtain ⟨i1, i2, i3, i4⟩ := ih st hinv hq
      refine ⟨i1, ?_, i3, ?_⟩
      · rw [i2, hnil]
        simp
      · rw [i4, hnil]
        simp
    | some r =>
      obtain ⟨ev, q⟩ := r
      have hev := evtQueueDequeue_some _ _ _ hdq
      obtain ⟨s1, s2, s3, s4, s5⟩ := osMainIter_subStep c tid evt k st ev q hthr hdq hinv hq
      have hq2 : SubQueue c tid evt (osMainIter c st).mDeferedActionsSlab.items
          (osMainIter c st).mEvtsInternal.evts := by
        rw [s2, s3]
        intro e he
        exact hq e (by rw [hev]; exact List.mem_cons_of_mem _ he)
      obtain ⟨i1, i2, i3, i4⟩ := ih (osMainIter c st) s1 hq2
      refine ⟨i1, ?_, by rw [i3, s4], ?_⟩
      · rw [i2, s2, hev]
        rfl
      · rw [i4, s2, s5, hev]
        rfl

/-- C1, as amended. Let slot `k` be the slot `osTaskFindByTid` returns for
task `tid`, well formed, and let a subscribe of `evt` be one that cannot be
dropped: the list holds `evt` already, or has a free entry, or can grow
because the next `heapAlloc` returns a chunk. For every internal queue made of `EVT_SUBSCRIBE{tid, evt}`,
`EVT_UNSUBSCRIBE{tid, evt}` and user events, processed one by one by the main
loop: the iteration that dequeues a broadcast of `evt` from position `n`
calls the handler of slot `k` on it exactly once when the last subscribe or
unsubscribe among the `n` events before it is a subscribe, or when there is
none and the task was subscribed at the start, and not at all otherwise; and
after any number `m` of iterations the task is subscribed exactly when the
last subscribe or unsubscribe among the first `m` events says so. -/
theorem broadcast_follows_last_subscription (c : Consts) (st : State)
    (tid evt k n evtData : Nat) (f : EventFreeF)
    (hthr : EVT_UNSUBSCRIBE_TO_EVT < c.EVT_NO_FIRST_USER_EVENT)
    (hevt : c.EVT_NO_FIRST_USER_EVENT ≤ evt)
    (hk : osTaskFindByTid c st tid = some k) (hok : TaskOk st k)
    (hroom : CanSubscribe st k evt)
    (hq : SubQueue c tid evt st.mDeferedActionsSlab.items st.mEvtsInternal.evts)
    (hn : st.mEvtsInternal.evts[n]? = some ⟨evt, evtData, f⟩) :
    (callsSince (osMainIters c n st) (osMainIter c (osMainIters c n st))).count
        (.cpuAppHandle (st.task k).appHdr k evt evtData)
      = (if subscribedAfter (isSubscribed st k evt) (st.mEvtsInternal.evts.take n) = true then 1
         else 0)
    ∧ ∀ m, isSubscribed (osMainIters c m st) k evt
        = subscribedAfter (isSubscribed st k evt) (st.mEvtsInternal.evts.take m) := by
  have hinv : SubInv c tid evt k st := ⟨hk, hok, hroom⟩
  refine ⟨?_, fun m => (osMainIters_subInv c tid evt k m st hthr hinv hq).2.2.2⟩
  obtain ⟨_, i2, i3, i4⟩ := osMainIters_subInv c tid evt k n st hthr hinv hq
  have hlt : n < st.mEvtsInternal.evts.length := (List.getElem?_eq_some_iff.1 hn).1
  have hdrop : st.mEvtsInternal.evts.drop n
      = ⟨evt, evtData, f⟩ :: st.mEvtsInternal.evts.drop (n + 1) := by
    rw [List.drop_eq_getElem_cons hlt]
    congr 1
    exact (List.getElem?_eq_some_iff.1 hn).2
  have hdq : evtQueueDequeue (osMainIters c n st).mEvtsInternal
      = some (⟨evt, evtData, f⟩,
          { (osMainIters c n st).mEvtsInternal with
              evts := st.mEvtsInternal.evts.drop (n + 1) }) := by
    unfold evtQueueDequeue
    rw [i2, hdrop]
  rw [osMainIter_user_calls c _ _ _ hdq hevt, List.count_append, ← i3,
    count_handleCall_broadcastCalls, i4]
  have hfree : (freeCalls (⟨evt, evtData, f⟩ : Event)).count
      (.cpuAppHandle ((osMainIters c n st).task k).appHdr k evt evtData) = 0 := by
    apply List.count_eq_zero_of_not_mem
    unfold freeCalls
    split <;> simp
  rw [hfree, Nat.add_zero]
  have hkm := (osTaskFindByTid_some c st tid k hk).1
  simp only [hkm, true_and]

/-- C1, as amended, at the queue of the spec's scenario: task 1 is subscribed
to 512; the queue holds a broadcast of 512 and then `EVT_UNSUBSCRIBE{1, 512}`.
The broadcast reaches the task once, and after both iterations the task is not
subscribed. And at a full list that can grow: after `EVT_SUBSCRIBE{1, 512}`
the broadcast of 512 reaches the task once. -/
theorem broadcast_follows_last_subscription_witness :
    (callsSince (wSubState [⟨512, 55, .null⟩, ⟨EVT_UNSUBSCRIBE_TO_EVT, 0, .osDeferredActionFreeF⟩])
        (osMainIter wConsts
          (wSubState [⟨512, 55, .null⟩, ⟨EVT_UNSUBSCRIBE_TO_EVT, 0, .osDeferredActionFreeF⟩]))).count
        (.cpuAppHandle 100 0 512 55) = 1
    ∧ isSubscribed (osMainIters wConsts 2
        (wSubState [⟨512, 55, .null⟩, ⟨EVT_UNSUBSCRIBE_TO_EVT, 0, .osDeferredActionFreeF⟩])) 0 512
        = false
    ∧ (callsSince (osMainIters wConsts 1 wGrowState)
        (osMainIter wConsts (osMainIters wConsts 1 wGrowState))).count
        (.cpuAppHandle 100 0 512 55) = 1 := by
  have hok : TaskOk (wSubState [⟨512, 55, .null⟩,
      ⟨EVT_UNSUBSCRIBE_TO_EVT, 0, .osDeferredActionFreeF⟩]) 0 := by
    refine ⟨by decide, ?_, by decide, by decide, by decide, by decide⟩
    show 0 < 3
    decide
  have h := broadcast_follows_last_subscription wConsts
    (wSubState [⟨512, 55, .null⟩, ⟨EVT_UNSUBSCRIBE_TO_EVT, 0, .osDeferredActionFreeF⟩])
    1 512 0 0 55 .null (by decide) (by decide) (by decide) hok (Or.inl (by decide))
    (by unfold SubQueue; decide) rfl
  have hok2 : TaskOk wGrowState 0 := by
    refine ⟨by decide, ?_, by decide, by decide, by decide, by decide⟩
    show 0 < 3
    decide
  have h2 := broadcast_follows_last_subscription wConsts wGrowState
    1 512 0 1 55 .null (by decide) (by decide) (by decide) hok2
    (Or.inr (Or.inr ⟨by decide, by decide, [], rfl⟩))
    (by unfold SubQueue; decide) rfl
  exact ⟨h.1, (h.2 2).trans (by decide), h2.1.trans (by decide)⟩

/-- C1 as stated fails at a concrete input. Task 1 is registered in slot 0
with a full inline list, and the heap has no memory. The queue holds
`EVT_SUBSCRIBE{1, 512}` and then a broadcast of 512: the last subscribe or
unsubscribe before the broadcast is a subscribe, yet the handler asks the
heap for a larger list, is refused, drops the subscribe, and the iteration of
the broadcast calls no handler. -/
theorem subscribe_dropped_when_list_is_full :
    osTaskFindByTid wConsts wFullState 1 = some 0
    ∧ (wFullState.mDeferedActionsSlab.deref 0).evtSub = ⟨1, 512⟩
    ∧ subscribedAfter (isSubscribed wFullState 0 512) (wFullState.mEvtsInternal.evts.take 1) = true
    ∧ callsSince wFullState (osMainIters wConsts 1 wFullState)
        = [.heapAlloc 12 none, .evtFree .osDeferredActionFreeF 0]
    ∧ callsSince (osMainIters wConsts 1 wFullState)
        (osMainIter wConsts (osMainIters wConsts 1 wFullState)) = [] := by
  decide

/-! ### Bring-up: the init phase -/

theorem cpuInitAnswer_frame (st : State) :
    (cpuInitAnswer st).2.mTasks = st.mTasks ∧ (cpuInitAnswer st).2.trace = st.trace := by
  unfold cpuInitAnswer
  split <;> exact ⟨rfl, rfl⟩

theorem slotIdents_congr (st st2 : State) (i n : Nat)
    (h : ∀ j, i ≤ j → j < i + n → st2.task j = st.task j) :
    slotIdents st2 i n = slotIdents st i n := by
  unfold slotIdents
  apply List.map_congr_left
  intro j hj
  rw [List.mem_range'_1] at hj
  rw [h j hj.1 hj.2]

theorem slotIdents_succ (st : State) (i n : Nat) :
    slotIdents st i (n + 1) = ((st.task i).appHdr, (st.task i).tid) :: slotIdents st (i + 1) n := by
  simp [slotIdents, List.range'_succ]

theorem slotIdents_snoc (st : State) (i n : Nat) :
    slotIdents st i (n + 1)
      = slotIdents st i n ++ [((st.task (i + n)).appHdr, (st.task (i + n)).tid)] := by
  simp [slotIdents, List.range'_concat]

theorem cpuInitAnswer_task (st : State) (j : Nat) : (cpuInitAnswer st).2.task j = st.task j := by
  simp only [State.task, (cpuInitAnswer_frame st).1]

theorem initInv_ok (s0 : State) (n0 : Nat) (st : State) (i n : Nat) (l : List Call)
    (h : InitInv s0 n0 st i n l) (hi : i < n) :
    InitInv s0 n0
      ((cpuInitAnswer st).2.call (.cpuAppInit (st.task i).appHdr i (st.task i).tid true))
      (i + 1) n (l ++ [.cpuAppInit (st.task i).appHdr i (st.task i).tid true]) := by
  obtain ⟨h1, h2, h3, h4, h5, h6⟩ := h
  have hm := (cpuInitAnswer_frame st).1
  have ht := (cpuInitAnswer_frame st).2
  have htask : ∀ j, ((cpuInitAnswer st).2.call
      (.cpuAppInit (st.task i).appHdr i (st.task i).tid true)).task j = st.task j := by
    intro j
    simp only [State.task, State.call, hm]
  refine ⟨?_, by omega, h3, ?_, ?_, ?_⟩
  · simp only [State.call, hm, h1]
  · simp only [State.call, ht, h4, List.append_assoc]
  · have e : n - i = (n - (i + 1)) + 1 := by omega
    rw [e, slotIdents_succ] at h5
    rw [slotIdents_congr st _ _ _ (fun j _ _ => htask j)]
    simpa [List.filterMap_append, Call.initIdent] using h5
  · rw [show i + 1 = 0 + (i + 1) from by omega, slotIdents_congr st _ _ _ (fun j _ _ => htask j),
      show 0 + (i + 1) = i + 1 from by omega, slotIdents_snoc, ← h6]
    simp [List.filterMap_append, Call.initOkIdent]

theorem initInv_fail (s0 : State) (n0 : Nat) (st : State) (i n : Nat) (l : List Call)
    (hn0 : n0 ≤ s0.mTasks.length) (h : InitInv s0 n0 st i n l) (hi : i < n) :
    InitInv s0 n0
      ((((cpuInitAnswer st).2.call (.cpuAppInit (st.task i).appHdr i (st.task i).tid false)).call
          (.cpuAppUnload (st.task i).appHdr i)).setTask i (st.task (n - 1)))
      i (n - 1)
      (l ++ [.cpuAppInit (st.task i).appHdr i (st.task i).tid false,
        .cpuAppUnload (st.task i).appHdr i]) := by
  obtain ⟨h1, h2, h3, h4, h5, h6⟩ := h
  have hm := (cpuInitAnswer_frame st).1
  have ht := (cpuInitAnswer_frame st).2
  generalize hst3 : (((cpuInitAnswer st).2.call
      (.cpuAppInit (st.task i).appHdr i (st.task i).tid false)).call
        (.cpuAppUnload (st.task i).appHdr i)).setTask i (st.task (n - 1)) = st3
  have hlen : st3.mTasks.length = st.mTasks.length := by
    rw [← hst3]
    simp [State.setTask, State.call, hm]
  have hne : ∀ j, j ≠ i → st3.task j = st.task j := by
    intro j hj
    rw [← hst3, task_setTask_ne _ _ _ _ hj]
    simp only [State.task, State.call, hm]
  have heq : st3.task i = st.task (n - 1) := by
    rw [← hst3, task_setTask_eq]
    simp only [State.call, hm]
    omega
  have htr : st3.trace = st.trace ++ [.cpuAppInit (st.task i).appHdr i (st.task i).tid false,
      .cpuAppUnload (st.task i).appHdr i] := by
    rw [← hst3]
    simp [State.setTask, State.call, ht]
  refine ⟨by rw [hlen, h1], by omega, by omega, ?_, ?_, ?_⟩
  · rw [htr, h4, List.append_assoc]
  · have hp : (slotIdents st3 i (n - 1 - i)).Perm (slotIdents st (i + 1) (n - 1 - i)) := by
      rcases Nat.eq_zero_or_pos (n - 1 - i) with hz | hz
      · rw [hz]
        simp [slotIdents]
      · obtain ⟨m, hm2⟩ : ∃ m, n - 1 - i = m + 1 := ⟨n - 1 - i - 1, by omega⟩
        rw [hm2, slotIdents_succ, slotIdents_snoc, heq,
          slotIdents_congr st st3 (i + 1) m (fun j hj1 _ => hne j (by omega)),
          show i + 1 + m = n - 1 from by omega]
        exact (List.perm_append_singleton _ _).symm
    have e : n - i = (n - 1 - i) + 1 := by omega
    rw [e, slotIdents_succ] at h5
    have hl : (l ++ [Call.cpuAppInit (st.task i).appHdr i (st.task i).tid false,
        Call.cpuAppUnload (st.task i).appHdr i]).filterMap Call.initIdent
        = l.filterMap Call.initIdent ++ [((st.task i).appHdr, (st.task i).tid)] := by
      simp [List.filterMap_append, Call.initIdent]
    rw [hl, List.append_assoc]
    refine List.Perm.trans ?_ h5
    exact List.Perm.append_left _ (List.Perm.cons _ hp)
  · rw [slotIdents_congr st st3 0 i (fun j _ hj2 => hne j (by omega)), ← h6]
    simp [List.filterMap_append, Call.initOkIdent]

theorem osStartTasksInitLoop_inv (s0 : State) (n0 : Nat) (hn0 : n0 ≤ s0.mTasks.length)
    (fuel : Nat) (st : State) (i n : Nat) (l : List Call) (h : InitInv s0 n0 st i n l)
    (hf : n - i < fuel) :
    ∃ st2 n2 l2, osStartTasksInitLoop fuel st i n = some (st2, n2)
      ∧ InitInv s0 n0 st2 n2 n2 l2 := by
  induction fuel generalizing st i n l with
  | zero => omega
  | succ fuel ih =>
    rw [osStartTasksInitLoop]
    by_cases hi : i < n
    · rw [if_pos hi]
      by_cases hr : (cpuInitAnswer st).1 = true
      · simp only [hr, if_true]
        exact ih _ _ _ _ (initInv_ok s0 n0 st i n l h hi) (by omega)
      · have hr2 : (cpuInitAnswer st).1 = false := by simpa using hr
        simp only [hr2, Bool.false_eq_true, if_false]
        have := initInv_fail s0 n0 st i n l hn0 h hi
        simp only [task_call, cpuInitAnswer_task]
        exact ih _ _ _ _ this (by omega)
    · rw [if_neg hi]
      have : i = n := by
        have := h.2.1
        omega
      subst this
      exact ⟨st, i, l, rfl, h⟩

theorem osTaskFindByTid_first (c : Consts) (st : State) (tid k : Nat) (hk : k < c.MAX_TASKS)
    (ht : (st.task k).tid = tid) (hfirst : ∀ j, j < k → (st.task j).tid ≠ tid) :
    osTaskFindByTid c st tid = some k := by
  cases hr : osTaskFindByTid c st tid with
  | none => exact absurd ht (osTaskFindByTid_none c st tid hr k hk)
  | some k2 =>
    obtain ⟨_, h2, h3⟩ := osTaskFindByTid_some c st tid k2 hr
    have h4 : ¬ k2 < k := fun h => hfirst k2 h h2
    have h5 : ¬ k < k2 := fun h => h3 k h ht
    have : k2 = k := by omega
    rw [this]

theorem initOkIdent_sublist (l : List Call) :
    (l.filterMap Call.initOkIdent).Sublist (l.filterMap Call.initIdent) := by
  induction l with
  | nil => simp
  | cons x l ih =>
    cases x with
    | cpuAppInit h s t r =>
      cases r
      · simpa [List.filterMap_cons, Call.initOkIdent, Call.initIdent] using
          List.Sublist.cons _ ih
      · simpa [List.filterMap_cons, Call.initOkIdent, Call.initIdent] using ih
    | _ => simpa [List.filterMap_cons, Call.initOkIdent, Call.initIdent] using ih

theorem mem_initOkIdent (l : List Call) (h s t : Nat)
    (hm : Call.cpuAppInit h s t true ∈ l) : (h, t) ∈ l.filterMap Call.initOkIdent := by
  rw [List.mem_filterMap]
  exact ⟨_, hm, rfl⟩

theorem mem_slotIdents (st : State) (n : Nat) (x : Nat × Nat) (hx : x ∈ slotIdents st 0 n) :
    ∃ k, k < n ∧ (st.task k).appHdr = x.1 ∧ (st.task k).tid = x.2 := by
  unfold slotIdents at hx
  rw [List.mem_map] at hx
  obtain ⟨k, hk, he⟩ := hx
  rw [List.mem_range'_1] at hk
  exact ⟨k, by omega, by rw [← he], by rw [← he]⟩

theorem slotIdents_tids_inj (st : State) (n : Nat)
    (hnd : ((slotIdents st 0 n).map Prod.snd).Nodup) (j k : Nat) (hj : j < k) (hk : k < n) :
    (st.task j).tid ≠ (st.task k).tid := by
  intro he
  have h1 : ((slotIdents st 0 n).map Prod.snd) = (List.range n).map (fun j => (st.task j).tid) := by
    simp [slotIdents, List.range_eq_range']
  rw [h1] at hnd
  have := List.inj_on_of_nodup_map hnd (List.mem_range.2 (by omega : j < n))
    (List.mem_range.2 hk) he
  omega

/-- C11. Let the table have `MAX_TASKS` slots of which the first `n` are
loaded, with pairwise distinct tids. Whatever the init calls answer, the init
phase ends (with the fuel `osStartTasksInit` gives it); its `cpuAppInit` calls
carry, up to order, exactly the header and tid of each loaded slot, each once;
and for every call that returned true, `osTaskFindByTid` of its tid returns a
slot that holds this tid and this header. -/
theorem osStartTasksInit_keeps_tids (c : Consts) (st : State) (n : Nat)
    (hn : n ≤ c.MAX_TASKS) (hlen : st.mTasks.length = c.MAX_TASKS)
    (hd : ((slotIdents st 0 n).map Prod.snd).Nodup) :
    ∃ st2 n2, osStartTasksInit st n = some (st2, n2)
      ∧ ((callsSince st st2).filterMap Call.initIdent).Perm (slotIdents st 0 n)
      ∧ ∀ h s t, Call.cpuAppInit h s t true ∈ callsSince st st2 →
          ∃ k, osTaskFindByTid c st2 t = some k ∧ (st2.task k).tid = t
            ∧ (st2.task k).appHdr = h := by
  have h0 : InitInv st n st 0 n [] := by
    refine ⟨rfl, Nat.zero_le _, le_refl _, by simp, ?_, by simp [slotIdents]⟩
    simp
  obtain ⟨st2, n2, l2, hr, hi⟩ :=
    osStartTasksInitLoop_inv st n (by omega) (n + 1) st 0 n [] h0 (by omega)
  obtain ⟨_, _, hn2, htr, hperm, hok⟩ := hi
  have hcalls : callsSince st st2 = l2 := callsSince_append st st2 l2 htr
  rw [Nat.sub_self] at hperm
  have hperm2 : (l2.filterMap Call.initIdent).Perm (slotIdents st 0 n) := by
    simpa [slotIdents] using hperm
  refine ⟨st2, n2, hr, by rw [hcalls]; exact hperm2, ?_⟩
  intro h s t hm
  rw [hcalls] at hm
  have hmem := mem_initOkIdent l2 h s t hm
  rw [hok] at hmem
  obtain ⟨k, hk, hk1, hk2⟩ := mem_slotIdents st2 n2 (h, t) hmem
  have hnd : ((slotIdents st2 0 n2).map Prod.snd).Nodup := by
    rw [← hok]
    exact ((hperm2.map Prod.snd).nodup_iff.2 hd).sublist ((initOkIdent_sublist l2).map Prod.snd)
  refine ⟨k, osTaskFindByTid_first c st2 t k (by omega) hk2 ?_, hk2, hk1⟩
  intro j hj he
  exact slotIdents_tids_inj st2 n2 hnd j k hj hk (by rw [he, hk2])

theorem osStartTasksInit_keeps_tids_witness :
    ((slotIdents (wLoaded [false, true]) 0 2).map Prod.snd).Nodup
    ∧ (∃ st2 n2, osStartTasksInit (wLoaded [false, true]) 2 = some (st2, n2)
      ∧ ((callsSince (wLoaded [false, true]) st2).filterMap Call.initIdent).Perm
          (slotIdents (wLoaded [false, true]) 0 2)
      ∧ ∀ h s t, Call.cpuAppInit h s t true ∈ callsSince (wLoaded [false, true]) st2 →
          ∃ k, osTaskFindByTid wConsts st2 t = some k ∧ (st2.task k).tid = t
            ∧ (st2.task k).appHdr = h)
    ∧ (osStartTasksInit (wLoaded [false, true]) 2).map
        (fun r => (r.1.tids, r.2, callsSince (wLoaded [false, true]) r.1,
          osTaskFindByTid wConsts r.1 2, (r.1.task 0).appHdr))
      = some ([2, 2, 0], 1,
          [.cpuAppInit 1000 0 1 false, .cpuAppUnload 1000 0, .cpuAppInit 1016 0 2 true],
          some 0, 1016) :=
  ⟨by decide,
    osStartTasksInit_keeps_tids wConsts (wLoaded [false, true]) 2 (by decide) (by decide)
      (by decide),
    by decide⟩

/-! ### Bring-up: duplicate ids, failed allocations, the load call -/

/-- In the external scan a valid header whose id is already registered sends
the loop back to its condition with the same `app`: the scan stays at that
header whatever the fuel. -/
theorem osStartTasksExternal_stuck (c : Consts) (img : AppImage) (st : State) (i n app : Nat)
    (hcond : (img.code_end + U32 - app) % U32 ≥ c.sizeofAppHdr ∧ n < c.MAX_TASKS
        ∧ magicOk c (img.hdrAt app) = true ∧ (img.hdrAt app).version = c.APP_HDR_VER_CUR)
    (hm : (img.hdrAt app).marker = c.APP_HDR_MARKER_VALID)
    (hdup : (osFindTaskByAppID c img st (img.hdrAt app).appId).isSome = true) (fuel : Nat) :
    osStartTasksExternal c img fuel st i n app = .running st n := by
  induction fuel with
  | zero => rfl
  | succ fuel ih =>
    rw [osStartTasksExternal]
    simp only [hcond, hm, hdup, and_self, if_true]
    exact ih

/-- C12 at a failing input. The external region holds three valid apps, the
first two with the same id. The scan registers the first and then stays at
the second: with any fuel beyond the first it is still at the loop head with
one task loaded, so `osStartTasks` and the bring-up never return and the third
app is never registered. The same three headers as internal apps are scanned
to the end: the duplicate is skipped and the third app is registered. -/
theorem duplicate_external_app_stops_scan :
    (∀ fuel, osStartTasksLoad wConsts wImageDup (fuel + 1) (wInit ⟨[true, true, true], []⟩)
        = osStartTasksLoad wConsts wImageDup 1 (wInit ⟨[true, true, true], []⟩))
    ∧ ((osStartTasksLoad wConsts wImageDup 1 (wInit ⟨[true, true, true], []⟩)).isDone,
        (osStartTasksLoad wConsts wImageDup 1 (wInit ⟨[true, true, true], []⟩)).nTasks,
        (osStartTasksLoad wConsts wImageDup 1 (wInit ⟨[true, true, true], []⟩)).st.tids,
        (osStartTasksLoad wConsts wImageDup 1 (wInit ⟨[true, true, true], []⟩)).st.trace)
      = (false, 1, [1, 0, 0], [.cpuAppLoad 2000 0 true])
    ∧ (∀ fuel, osMainBringUp wConsts wImageDup fuel ⟨[], []⟩ ⟨[true, true, true], []⟩ = none)
    ∧ ((osStartTasksLoad wConsts wImageDupInt 4 (wInit ⟨[true, true, true], []⟩)).isDone,
        (osStartTasksLoad wConsts wImageDupInt 4 (wInit ⟨[true, true, true], []⟩)).nTasks,
        (osStartTasksLoad wConsts wImageDupInt 4 (wInit ⟨[true, true, true], []⟩)).st.tids,
        (osStartTasksLoad wConsts wImageDupInt 4 (wInit ⟨[true, true, true], []⟩)).st.mTasks.map
          (·.appHdr))
      = (true, 2, [1, 2, 0], [1000, 1032, 0]) := by
  have hload : ∀ fuel,
      osStartTasksLoad wConsts wImageDup (fuel + 1) (wInit ⟨[true, true, true], []⟩)
        = osStartTasksLoad wConsts wImageDup 1 (wInit ⟨[true, true, true], []⟩) := by
    intro fuel
    have h1 : ∀ f, osStartTasksInternal wConsts wImageDup (f + 1)
        (wInit ⟨[true, true, true], []⟩) 0 0 wImageDup.internal_app_start
        = .done (wInit ⟨[true, true, true], []⟩) 0 := by
      intro f
      rw [osStartTasksInternal]
      exact if_neg (by decide)
    have h2 : ∀ f, osStartTasksExternal wConsts wImageDup (f + 1)
        (wInit ⟨[true, true, true], []⟩) 0 0 wImageDup.app_start
        = .running (osStartTasksRegister wConsts false (wInit ⟨[true, true, true], []⟩) 0 0
            2000).1 1 := by
      intro f
      rw [osStartTasksExternal]
      have e : (2000 + (wImageDup.hdrAt 2000).rel_end) % U32 = 2032 := by decide
      simp only [show wImageDup.app_start = 2000 from rfl, e]
      rw [if_pos (by decide), if_pos (by decide), if_neg (by decide)]
      exact osStartTasksExternal_stuck wConsts wImageDup _ 0 _ 2032 (by decide) (by decide)
        (by decide) f
    unfold osStartTasksLoad
    rw [h1 fuel, h1 0]
    simp only []
    rw [h2 fuel, h2 0]
  refine ⟨hload, by decide, ?_, by decide⟩
  intro fuel
  cases fuel with
  | zero => rfl
  | succ f =>
    have h3 : osStartTasks wConsts wImageDup (f + 1) (wInit ⟨[true, true, true], []⟩) = none := by
      unfold osStartTasks
      rw [hload f]
      rfl
    have h4 : (osInit wConsts ⟨true, true, true⟩).toState ⟨[], []⟩ ⟨[true, true, true], []⟩
        = some (wInit ⟨[true, true, true], []⟩) := by decide
    unfold osMainBringUp
    rw [h4]
    simp only [h3]

/-- When the three allocations succeed, `osMainStart` followed by the enqueue
of `EVT_APP_START` is the bring-up `osMainBringUp`. -/
theorem osMainStart_all_ok (c : Consts) (img : AppImage) (fuel : Nat) (heap : Heap)
    (cpu : CpuAnswers) :
    osMainBringUp c img fuel heap cpu
      = (osMainStart c img fuel ⟨true, true, true⟩ heap cpu).map
          (fun p => (osEnqueueEvt p.2 c.EVT_APP_START 0 .null false).2) := by
  unfold osMainBringUp osMainStart
  simp only [osInit, InitResult.toState, Option.getD_some, Bool.true_eq_false, if_false]
  cases osStartTasks c img fuel _ <;> rfl

/-- C13 at failing inputs. The allocation of the slab fails, or that of the
external queue (after which the slab is not allocated either), or that of the
internal queue: `osInit` returns with `NULL` handles and `osMain` goes on to
`osStartTasks`, which loads and initialises both apps. In the first two cases
the internal queue exists: `EVT_APP_START` is accepted by it, and the first
iteration of the dispatch loop dequeues it. -/
theorem osMain_runs_after_failed_osInit :
    (osMainStart wConsts wImage 4 ⟨true, true, false⟩ ⟨[], []⟩ ⟨[true, true], [true, true]⟩).map
        (fun p => (p.1.mDeferedActionsSlab.isSome, p.2.trace, p.2.tids))
      = some (false,
          [.cpuInternalAppLoad 1000 0 true, .cpuInternalAppLoad 1000 0 true,
            .cpuAppInit 1000 0 1 true, .cpuAppInit 1016 1 2 true],
          [1, 2, 0])
    ∧ (osMainStart wConsts wImage 4 ⟨true, true, false⟩ ⟨[], []⟩ ⟨[true, true], [true, true]⟩).map
        (fun p => ((osEnqueueEvt p.2 wConsts.EVT_APP_START 0 .null false).1,
          (osEnqueueEvt p.2 wConsts.EVT_APP_START 0 .null false).2.mEvtsInternal.evts,
          (osMainIter wConsts
            (osEnqueueEvt p.2 wConsts.EVT_APP_START 0 .null false).2).mEvtsInternal.evts))
      = some (true, [⟨1024, 0, .null⟩], [])
    ∧ (osMainStart wConsts wImage 4 ⟨true, false, true⟩ ⟨[], []⟩ ⟨[true, true], [true, true]⟩).map
        (fun p => (p.1.mEvtsExternal.isSome, p.1.mDeferedActionsSlab.isSome, p.2.trace, p.2.tids))
      = some (false, false,
          [.cpuInternalAppLoad 1000 0 true, .cpuInternalAppLoad 1000 0 true,
            .cpuAppInit 1000 0 1 true, .cpuAppInit 1016 1 2 true],
          [1, 2, 0])
    ∧ (osMainStart wConsts wImage 4 ⟨true, false, true⟩ ⟨[], []⟩ ⟨[true, true], [true, true]⟩).map
        (fun p => ((osEnqueueEvt p.2 wConsts.EVT_APP_START 0 .null false).1,
          (osEnqueueEvt p.2 wConsts.EVT_APP_START 0 .null false).2.mEvtsInternal.evts,
          (osMainIter wConsts
            (osEnqueueEvt p.2 wConsts.EVT_APP_START 0 .null false).2).mEvtsInternal.evts))
      = some (true, [⟨1024, 0, .null⟩], [])
    ∧ (osMainStart wConsts wImage 4 ⟨false, true, true⟩ ⟨[], []⟩ ⟨[true, true], [true, true]⟩).map
        (fun p => (p.1.mEvtsInternal.isSome, p.2.trace, p.2.tids))
      = some (false,
          [.cpuInternalAppLoad 1000 0 true, .cpuInternalAppLoad 1000 0 true,
            .cpuAppInit 1000 0 1 true, .cpuAppInit 1016 1 2 true],
          [1, 2, 0]) := by
  refine ⟨?_, ?_, ?_, ?_, ?_⟩ <;> decide

/-! ### Subscribing twice -/

/-- An `EVT_SUBSCRIBE` for an event the task's list already holds leaves the
whole state as it is. -/
theorem osInternalEvtHandle_subscribed (c : Consts) (st : State) (evtData k : Nat)
    (hk : osTaskFindByTid c st (st.mDeferedActionsSlab.deref evtData).evtSub.tid = some k)
    (hin : (st.mDeferedActionsSlab.deref evtData).evtSub.evt ∈ subbedEvtList st k) :
    osInternalEvtHandle c st EVT_SUBSCRIBE_TO_EVT evtData = st := by
  have hscan := (subbedEvtScan_list st k (st.mDeferedActionsSlab.deref evtData).evtSub.evt).1
  have hne : subbedEvtScan (evtRead st (st.task k).subbedEvents)
      (st.mDeferedActionsSlab.deref evtData).evtSub.evt (st.task k).subbedEvtCount 0
      ≠ (st.task k).subbedEvtCount := fun h => (hscan.1 h) hin
  unfold osInternalEvtHandle
  simp only [true_or, if_true, hk]
  rw [if_neg (by simp [EVT_SUBSCRIBE_TO_EVT, EVT_UNSUBSCRIBE_TO_EVT]), if_neg (by simp [hne])]

theorem filter_isHandleOf_nil (k : Nat) (l : List Call) (h : l.filter Call.isHandle = []) :
    l.filter (Call.isHandleOf k) = [] := by
  rw [List.filter_eq_nil_iff] at h ⊢
  intro x hx hk
  apply h x hx
  cases x <;> simp_all [Call.isHandleOf, Call.isHandle]

/-- The calls of an iteration that dequeues a subscribe or an unsubscribe:
none of them is a handler call. -/
theorem osMainIter_sub_calls (c : Consts) (st : State) (ev : Event) (q : EvtQueue) (k : Nat)
    (hdq : evtQueueDequeue st.mEvtsInternal = some (ev, q))
    (hty : ev.evtType = EVT_SUBSCRIBE_TO_EVT ∨ ev.evtType = EVT_UNSUBSCRIBE_TO_EVT)
    (hthr : EVT_UNSUBSCRIBE_TO_EVT < c.EVT_NO_FIRST_USER_EVENT) :
    ∃ l, (osMainIter c st).trace = st.trace ++ l ∧ l.filter (Call.isHandleOf k) = [] := by
  have hlt : ev.evtType < c.EVT_NO_FIRST_USER_EVENT := by
    rcases hty with h | h <;> rw [h] <;>
      simp only [EVT_SUBSCRIBE_TO_EVT, EVT_UNSUBSCRIBE_TO_EVT] at hthr ⊢ <;> omega
  obtain ⟨l, hl, hheap⟩ := osInternalEvtHandle_sub_trace c { st with mEvtsInternal := q }
    ev.evtType ev.evtData hty
  refine ⟨l ++ freeCalls ev, ?_, ?_⟩
  · rw [osMainIter_trace c st ev q hdq, osMainHandled, if_pos hlt, hl, List.append_assoc]
  · apply filter_isHandleOf_nil
    rw [List.filter_append, filter_isHandle_heap l hheap, filter_isHandle_freeCalls]
    rfl

theorem filter_isHandleOf_broadcastCalls (c : Consts) (st : State) (evtType evtData k : Nat) :
    (broadcastCalls c st evtType evtData).filter (Call.isHandleOf k)
      = if k < c.MAX_TASKS ∧ isSubscribed st k evtType = true then
          [.cpuAppHandle (st.task k).appHdr k evtType evtData]
        else [] := by
  have h1 : ∀ l : List Nat, (deliveries st evtType evtData l).filter (Call.isHandleOf k)
      = ((l.filter (fun i => isSubscribed st i evtType)).filter (fun i => i == k)).map
          (handleCall st evtType evtData) := by
    intro l
    unfold deliveries
    rw [List.filter_map]
    rfl
  have h2 : ∀ n, ((List.range n).filter (fun i => isSubscribed st i evtType)).filter
      (fun i => i == k) = if k < n ∧ isSubscribed st k evtType = true then [k] else [] := by
    intro n
    induction n with
    | zero => simp
    | succ n ih =>
      rw [List.range_succ, List.filter_append, List.filter_append, ih]
      by_cases hs : isSubscribed st k evtType = true
      · by_cases hk : k < n
        · have : n ≠ k := by omega
          simp [hs, hk, List.filter_cons, this, Nat.lt_succ_of_lt hk]
        · by_cases hk2 : k = n
          · subst hk2
            simp [hs, List.filter_cons]
          · have h3 : ¬ k < n + 1 := by omega
            have h4 : n ≠ k := fun e => hk2 e.symm
            simp [hs, hk, h3, h4, List.filter_cons]
      · by_cases hk2 : n = k
        · subst hk2
          simp [hs, List.filter_cons]
        · simp [hs, hk2, List.filter_cons]
  unfold broadcastCalls
  rw [h1, h2]
  split <;> simp [handleCall]

theorem evtQueueDequeue_cons (q : EvtQueue) (e : Event) (rest : List Event)
    (h : q.evts = e :: rest) : evtQueueDequeue q = some (e, { q with evts := rest }) := by
  unfold evtQueueDequeue
  rw [h]

/-- C14. Let slot `k` be the slot `osTaskFindByTid` returns for task `tid`.
An `EVT_SUBSCRIBE{tid, evt}` handled while the list of slot `k` holds `evt`
leaves the whole state as it is: count, capacity, list pointer and contents,
heap and trace, so that nothing is allocated. And when the slot is well
formed and a subscribe of `evt` cannot be dropped (the list holds `evt`, or
has a free entry, or can grow), a queue that starts with two
`EVT_SUBSCRIBE{tid, evt}` and a broadcast of `evt` makes the main loop, in its
next three iterations, call the handler of slot `k` exactly once, on that
broadcast; the second subscribe leaves the task table and the heap as the
first left them. -/
theorem subscribe_twice_delivers_once (c : Consts) (st : State)
    (tid evt k d1 d2 evtData : Nat) (f1 f2 f3 : EventFreeF) (rest : List Event)
    (hk : osTaskFindByTid c st tid = some k)
    (hd1 : (st.mDeferedActionsSlab.deref d1).evtSub = ⟨tid, evt⟩) :
    (evt ∈ subbedEvtList st k → osInternalEvtHandle c st EVT_SUBSCRIBE_TO_EVT d1 = st)
    ∧ (EVT_UNSUBSCRIBE_TO_EVT < c.EVT_NO_FIRST_USER_EVENT → c.EVT_NO_FIRST_USER_EVENT ≤ evt →
        TaskOk st k → CanSubscribe st k evt →
        (st.mDeferedActionsSlab.deref d2).evtSub = ⟨tid, evt⟩ →
        st.mEvtsInternal.evts = ⟨EVT_SUBSCRIBE_TO_EVT, d1, f1⟩
          :: ⟨EVT_SUBSCRIBE_TO_EVT, d2, f2⟩ :: ⟨evt, evtData, f3⟩ :: rest →
        (callsSince st (osMainIters c 3 st)).filter (Call.isHandleOf k)
            = [.cpuAppHandle (st.task k).appHdr k evt evtData]
          ∧ (osMainIters c 2 st).mTasks = (osMainIters c 1 st).mTasks
          ∧ (osMainIters c 2 st).heap = (osMainIters c 1 st).heap) := by
  constructor
  · intro hin
    apply osInternalEvtHandle_subscribed c st d1 k
    · rw [hd1]
      exact hk
    · rw [hd1]
      exact hin
  · intro hthr hevt hok hroom hd2 hq
    have hkm := (osTaskFindByTid_some c st tid k hk).1
    -- first iteration
    have hdq1 := evtQueueDequeue_cons st.mEvtsInternal _ _ hq
    obtain ⟨a1, a2, a3, a4, a5⟩ := osMainIter_subStep_head c tid evt k st _ _ hthr hdq1
      ⟨hk, hok, hroom⟩ (fun _ => ⟨Or.inl rfl, hd1⟩)
    obtain ⟨l1, t1, n1⟩ := osMainIter_sub_calls c st _ _ k hdq1 (Or.inl rfl) hthr
    rw [if_pos rfl] at a5
    generalize hs1 : osMainIter c st = s1 at a1 a2 a3 a4 a5 t1
    -- second iteration
    have hq1 : s1.mEvtsInternal.evts = ⟨EVT_SUBSCRIBE_TO_EVT, d2, f2⟩
        :: ⟨evt, evtData, f3⟩ :: rest := by rw [a2]
    have hdq2 := evtQueueDequeue_cons s1.mEvtsInternal _ _ hq1
    have hrec2 : (s1.mDeferedActionsSlab.items.getD d2 default).evtSub = ⟨tid, evt⟩ := by
      rw [a3]
      exact hd2
    obtain ⟨b1, b2, b3, b4, b5⟩ := osMainIter_subStep_head c tid evt k s1 _ _ hthr hdq2 a1
      (fun _ => ⟨Or.inl rfl, hrec2⟩)
    obtain ⟨l2, t2, n2⟩ := osMainIter_sub_calls c s1 _ _ k hdq2 (Or.inl rfl) hthr
    rw [if_pos rfl] at b5
    have hin1 : evt ∈ subbedEvtList s1 k := by
      unfold isSubscribed at a5
      simp only [Bool.and_eq_true, decide_eq_true_eq] at a5
      exact a5.2
    have hnoop : osMainHandled c s1 ⟨EVT_SUBSCRIBE_TO_EVT, d2, f2⟩
        { s1.mEvtsInternal with evts := ⟨evt, evtData, f3⟩ :: rest }
        = { s1 with mEvtsInternal :=
            { s1.mEvtsInternal with evts := ⟨evt, evtData, f3⟩ :: rest } } := by
      have hlt : EVT_SUBSCRIBE_TO_EVT < c.EVT_NO_FIRST_USER_EVENT := by
        simp only [EVT_SUBSCRIBE_TO_EVT, EVT_UNSUBSCRIBE_TO_EVT] at hthr ⊢
        omega
      rw [osMainHandled, if_pos hlt]
      apply osInternalEvtHandle_subscribed c _ d2 k
      · show osTaskFindByTid c _ (s1.mDeferedActionsSlab.deref d2).evtSub.tid = some k
        rw [show (s1.mDeferedActionsSlab.deref d2).evtSub = ⟨tid, evt⟩ from hrec2]
        exact (osTaskFindByTid_congr c s1 _ tid (fun _ => rfl)).trans a1.1
      · show (s1.mDeferedActionsSlab.deref d2).evtSub.evt ∈ subbedEvtList _ k
        rw [show (s1.mDeferedActionsSlab.deref d2).evtSub = ⟨tid, evt⟩ from hrec2,
          subbedEvtList_congr s1 { s1 with mEvtsInternal :=
            { s1.mEvtsInternal with evts := ⟨evt, evtData, f3⟩ :: rest } } k rfl rfl]
        exact hin1
    have hframe : (osMainIter c s1).mTasks = s1.mTasks ∧ (osMainIter c s1).heap = s1.heap := by
      rw [osMainIter_eq c s1 _ _ hdq2, hnoop]
      split
      · obtain ⟨g1, _, _, g4⟩ := evtFreeCall_frame
          { s1 with mEvtsInternal := { s1.mEvtsInternal with evts := ⟨evt, evtData, f3⟩ :: rest } }
          f2 d2
        exact ⟨g1, g4⟩
      · exact ⟨rfl, rfl⟩
    generalize hs2 : osMainIter c s1 = s2 at b1 b2 b3 b4 b5 t2 hframe
    -- third iteration
    have hq2 : s2.mEvtsInternal.evts = ⟨evt, evtData, f3⟩ :: rest := by rw [b2]
    have hdq3 := evtQueueDequeue_cons s2.mEvtsInternal _ _ hq2
    have t3b : (osMainIter c s2).trace
        = s2.trace ++ (broadcastCalls c s2 evt evtData ++ freeCalls ⟨evt, evtData, f3⟩) := by
      have ht := osMainIter_trace c s2 _ _ hdq3
      rw [osMainHandled_user c s2 _ _ hevt] at ht
      rw [ht, List.append_assoc]
    have h1 : osMainIters c 1 st = s1 := by
      rw [← hs1]
      rfl
    have h2 : osMainIters c 2 st = s2 := by
      rw [← hs2, ← hs1]
      rfl
    have h3 : osMainIters c 3 st = osMainIter c s2 := by
      rw [← hs2, ← hs1]
      rfl
    refine ⟨?_, by rw [h1, h2]; exact hframe.1, by rw [h1, h2]; exact hframe.2⟩
    have hcalls : callsSince st (osMainIters c 3 st)
        = l1 ++ (l2 ++ (broadcastCalls c s2 evt evtData ++ freeCalls ⟨evt, evtData, f3⟩)) := by
      apply callsSince_append
      rw [h3, t3b, t2, t1, List.append_assoc, List.append_assoc]
    rw [hcalls, List.filter_append, List.filter_append, List.filter_append, n1, n2,
      filter_isHandleOf_broadcastCalls, if_pos ⟨hkm, b5⟩,
      filter_isHandleOf_nil k _ (filter_isHandle_freeCalls _), b4, a4]
    rfl

/-- C14 at concrete inputs. Task 1 is subscribed to 512: an
`EVT_SUBSCRIBE{1, 512}` leaves the state as it is. And the spec's scenario:
task 1 has an empty list; two `EVT_SUBSCRIBE{1, 512}` and a broadcast of 512
give one handler call. -/
theorem subscribe_twice_delivers_once_witness :
    osInternalEvtHandle wConsts (wSubState []) EVT_SUBSCRIBE_TO_EVT 0 = wSubState []
    ∧ (callsSince wTwiceState (osMainIters wConsts 3 wTwiceState)).filter (Call.isHandleOf 0)
        = [.cpuAppHandle 100 0 512 55]
    ∧ callsSince wTwiceState (osMainIters wConsts 3 wTwiceState)
        = [.evtFree .osDeferredActionFreeF 0, .evtFree .osDeferredActionFreeF 1,
            .cpuAppHandle 100 0 512 55] := by
  have hok : TaskOk wTwiceState 0 := by
    refine ⟨by decide, ?_, by decide, by decide, by decide, by decide⟩
    show 0 < 3
    decide
  exact ⟨(subscribe_twice_delivers_once wConsts (wSubState []) 1 512 0 0 0 0 .null .null .null []
      (by decide) (by decide)).1 (by decide),
    ((subscribe_twice_delivers_once wConsts wTwiceState 1 512 0 0 1 55 .osDeferredActionFreeF
      .osDeferredActionFreeF .null [] (by decide) (by decide)).2 (by decide) (by decide) hok
      (Or.inr (Or.inl (by decide))) (by decide) rfl).1,
    by decide⟩

/-! ### Unsubscribing -/

theorem evtBuf_evtWrite_ne (st : State) (p q : EvtPtr) (i v : Nat) (h : p ≠ q) :
    evtBuf (evtWrite st q i v) p = evtBuf st p := by
  cases q with
  | null => rfl
  | embedded s =>
    cases p with
    | null => rfl
    | heap a => rfl
    | embedded s2 =>
      have hs : s2 ≠ s := fun e => h (by rw [e])
      simp only [evtWrite, evtBuf]
      rw [task_setTask_ne _ _ _ _ hs]
  | heap a =>
    cases p with
    | null => rfl
    | embedded s2 => rfl
    | heap a2 =>
      have ha : a2 ≠ a := fun e => h (by rw [e])
      simp only [evtWrite, evtBuf, List.getD_eq_getElem?_getD]
      rw [List.getElem?_set_ne (Ne.symm ha)]

theorem subbedEvtList_eq_of_buf (st st2 : State) (j : Nat)
    (hc : (st2.task j).subbedEvtCount = (st.task j).subbedEvtCount)
    (hp : (st2.task j).subbedEvents = (st.task j).subbedEvents)
    (hb : evtBuf st2 (st.task j).subbedEvents = evtBuf st (st.task j).subbedEvents) :
    subbedEvtList st2 j = subbedEvtList st j := by
  unfold subbedEvtList
  rw [hc, hp]
  apply List.map_congr_left
  intro x _
  rw [evtRead_eq_buf, evtRead_eq_buf, hb]

/-- What the removal of the unsubscribe branch leaves alone: the trace, the
queues, the slab; in every slot, every field but the count of slot `k` and
the contents of the inline arrays; and every array other than the one the
list pointer of slot `k` names. -/
theorem evtUnsubAt_frame (st : State) (k i : Nat) :
    (evtUnsubAt st k i).trace = st.trace
    ∧ (∀ j, j ≠ k → ((evtUnsubAt st k i).task j).tid = (st.task j).tid
        ∧ ((evtUnsubAt st k i).task j).subbedEvtCount = (st.task j).subbedEvtCount
        ∧ ((evtUnsubAt st k i).task j).subbedEvtListSz = (st.task j).subbedEvtListSz
        ∧ ((evtUnsubAt st k i).task j).subbedEvents = (st.task j).subbedEvents
        ∧ ((evtUnsubAt st k i).task j).appHdr = (st.task j).appHdr
        ∧ ((evtUnsubAt st k i).task j).platInfo = (st.task j).platInfo)
    ∧ (∀ p, p ≠ (st.task k).subbedEvents → evtBuf (evtUnsubAt st k i) p = evtBuf st p) := by
  refine ⟨evtUnsubAt_trace st k i, ?_, ?_⟩
  · intro j hj
    unfold evtUnsubAt
    simp only []
    obtain ⟨_, w⟩ := sameTaskFields_evtWrite
      (st.setTask k { st.task k with
        subbedEvtCount := ((st.task k).subbedEvtCount + U16 - 1) % U16 })
      (st.task k).subbedEvents i
      (evtRead (st.setTask k { st.task k with
        subbedEvtCount := ((st.task k).subbedEvtCount + U16 - 1) % U16 })
        (st.task k).subbedEvents (((st.task k).subbedEvtCount + U16 - 1) % U16))
    have e := task_setTask_ne st k j { st.task k with
        subbedEvtCount := ((st.task k).subbedEvtCount + U16 - 1) % U16 } hj
    obtain ⟨w1, w2, w3, w4, w5, w6⟩ := w j
    rw [e] at w1 w2 w3 w4 w5 w6
    exact ⟨w1, w2, w3, w4, w5, w6⟩
  · intro p hp
    unfold evtUnsubAt
    simp only []
    rw [evtBuf_evtWrite_ne _ _ _ _ _ hp, evtBuf_setTask_count]

theorem task_eq_of_fields (t u : Task) (h1 : t.tid = u.tid)
    (h2 : t.subbedEvtCount = u.subbedEvtCount) (h3 : t.subbedEvtListSz = u.subbedEvtListSz)
    (h4 : t.subbedEvents = u.subbedEvents) (h5 : t.appHdr = u.appHdr)
    (h6 : t.platInfo = u.platInfo) (h7 : t.subbedEventsInt = u.subbedEventsInt) : t = u := by
  cases t
  cases u
  simp_all

/-- The list the removal leaves in a well-formed slot: the entry at index `i`
is overwritten with the last entry and the list is shortened by one. -/
theorem evtUnsubAt_list (st : State) (k i : Nat) (hok : TaskOk st k)
    (hi : i < (st.task k).subbedEvtCount) :
    subbedEvtList (evtUnsubAt st k i) k
      = ((subbedEvtList st k).set i
          ((subbedEvtList st k).getD ((subbedEvtList st k).length - 1) 0)).take
          ((subbedEvtList st k).length - 1)
    ∧ ((evtUnsubAt st k i).task k).subbedEvents = (st.task k).subbedEvents
    ∧ ((evtUnsubAt st k i).task k).platInfo = (st.task k).platInfo := by
  obtain ⟨h1, h2, h3, h4, h5, h6⟩ := hok
  have hmod : ((st.task k).subbedEvtCount + U16 - 1) % U16 = (st.task k).subbedEvtCount - 1 := by
    have : (st.task k).subbedEvtCount + U16 - 1 = (st.task k).subbedEvtCount - 1 + U16 := by omega
    rw [this, Nat.add_mod_right]
    exact Nat.mod_eq_of_lt (by omega)
  have hst1 : (st.setTask k { st.task k with
      subbedEvtCount := (st.task k).subbedEvtCount - 1 }).task k
        = { st.task k with subbedEvtCount := (st.task k).subbedEvtCount - 1 } :=
    task_setTask_eq _ _ _ h1
  have hb1 : evtBuf (st.setTask k { st.task k with
      subbedEvtCount := (st.task k).subbedEvtCount - 1 }) (st.task k).subbedEvents
        = evtBuf st (st.task k).subbedEvents := evtBuf_setTask_count _ _ _ _
  have hp1 : PtrOk (st.setTask k { st.task k with
      subbedEvtCount := (st.task k).subbedEvtCount - 1 }) (st.task k).subbedEvents :=
    ptrOk_setTask _ _ _ _ h2
  have hun : evtUnsubAt st k i
      = evtWrite (st.setTask k { st.task k with subbedEvtCount := (st.task k).subbedEvtCount - 1 })
          (st.task k).subbedEvents i
          ((evtBuf st (st.task k).subbedEvents).getD ((st.task k).subbedEvtCount - 1) 0) := by
    unfold evtUnsubAt
    simp only []
    rw [hmod, evtRead_eq_buf, hb1]
  obtain ⟨_, w⟩ := sameTaskFields_evtWrite
    (st.setTask k { st.task k with subbedEvtCount := (st.task k).subbedEvtCount - 1 })
    (st.task k).subbedEvents i
    ((evtBuf st (st.task k).subbedEvents).getD ((st.task k).subbedEvtCount - 1) 0)
  rw [← hun] at w
  have hbuf : evtBuf (evtUnsubAt st k i) (st.task k).subbedEvents
      = (evtBuf st (st.task k).subbedEvents).set i
          ((evtBuf st (st.task k).subbedEvents).getD ((st.task k).subbedEvtCount - 1) 0) := by
    rw [hun, evtBuf_evtWrite _ _ _ _ hp1, hb1]
  have hp : ((evtUnsubAt st k i).task k).subbedEvents = (st.task k).subbedEvents := by
    rw [(w k).2.2.2.1, hst1]
  have hc : ((evtUnsubAt st k i).task k).subbedEvtCount = (st.task k).subbedEvtCount - 1 := by
    rw [(w k).2.1, hst1]
  have hpl : ((evtUnsubAt st k i).task k).platInfo = (st.task k).platInfo := by
    rw [(w k).2.2.2.2.2, hst1]
  have hold := subbedEvtList_eq_take st k (by omega)
  have hlen : (subbedEvtList st k).length = (st.task k).subbedEvtCount := by
    rw [hold, List.length_take]
    omega
  refine ⟨?_, hp, hpl⟩
  rw [subbedEvtList_eq_take _ _ (by rw [hp, hc, hbuf, List.length_set]; omega), hp, hc, hbuf,
    hold]
  exact swap_take _ _ _ (by omega) (by omega)

theorem osInternalEvtHandle_unsub_eq (c : Consts) (st : State) (evtData tid evt k : Nat)
    (hrec : (st.mDeferedActionsSlab.deref evtData).evtSub = ⟨tid, evt⟩)
    (hk : osTaskFindByTid c st tid = some k) :
    osInternalEvtHandle c st EVT_UNSUBSCRIBE_TO_EVT evtData
      = if subbedEvtScan (evtRead st (st.task k).subbedEvents) evt (st.task k).subbedEvtCount 0
            ≠ (st.task k).subbedEvtCount then
          evtUnsubAt st k
            (subbedEvtScan (evtRead st (st.task k).subbedEvents) evt (st.task k).subbedEvtCount 0)
        else st := by
  unfold osInternalEvtHandle
  simp only [or_true, if_true, hrec, hk, true_and]
  split
  · rfl
  · rw [if_neg (by simp [EVT_SUBSCRIBE_TO_EVT, EVT_UNSUBSCRIBE_TO_EVT])]

/-- C15. Let slot `k` be the slot `osTaskFindByTid` returns for task `tid`,
well formed and with no repeated entry in its list, and let `st2` be the state
after `EVT_UNSUBSCRIBE{tid, evt}` is handled. If `evt` is not in the list,
`st2` is the state before. If it is, then in `st2` the list of slot `k` does
not hold `evt`, holds every other entry it held and nothing else, has no
repeated entry, and is the old list with the last entry written over `evt`
and the length cut by one; the count is one less; capacity, list pointer,
tid, header and platform record of slot `k` are unchanged. In both cases
nothing is called, the queues and the slab are unchanged, and every other slot
`j` keeps all its fields but the contents of its inline array, keeps that
array too unless the list of slot `k` lives in it, and keeps its subscription
list unless it shares the array of slot `k`. -/
theorem osInternalEvtHandle_unsub_removes (c : Consts) (st st2 : State)
    (evtData tid evt k : Nat)
    (hrec : (st.mDeferedActionsSlab.deref evtData).evtSub = ⟨tid, evt⟩)
    (hk : osTaskFindByTid c st tid = some k) (hok : TaskOk st k)
    (h2 : osInternalEvtHandle c st EVT_UNSUBSCRIBE_TO_EVT evtData = st2) :
    (evt ∉ subbedEvtList st k → st2 = st)
    ∧ (evt ∈ subbedEvtList st k →
        evt ∉ subbedEvtList st2 k
        ∧ (∀ x, x ∈ subbedEvtList st2 k ↔ x ∈ subbedEvtList st k ∧ x ≠ evt)
        ∧ (subbedEvtList st2 k).Nodup
        ∧ subbedEvtList st2 k
            = ((subbedEvtList st k).set ((subbedEvtList st k).indexOf evt)
                ((subbedEvtList st k).getD ((subbedEvtList st k).length - 1) 0)).take
                ((subbedEvtList st k).length - 1)
        ∧ (st2.task k).subbedEvtCount + 1 = (st.task k).subbedEvtCount
        ∧ (st2.task k).subbedEvtListSz = (st.task k).subbedEvtListSz
        ∧ (st2.task k).subbedEvents = (st.task k).subbedEvents
        ∧ (st2.task k).tid = (st.task k).tid
        ∧ (st2.task k).appHdr = (st.task k).appHdr
        ∧ (st2.task k).platInfo = (st.task k).platInfo)
    ∧ (∀ j, j ≠ k →
        ((st2.task j).tid = (st.task j).tid
          ∧ (st2.task j).subbedEvtCount = (st.task j).subbedEvtCount
          ∧ (st2.task j).subbedEvtListSz = (st.task j).subbedEvtListSz
          ∧ (st2.task j).subbedEvents = (st.task j).subbedEvents
          ∧ (st2.task j).appHdr = (st.task j).appHdr
          ∧ (st2.task j).platInfo = (st.task j).platInfo)
        ∧ ((st.task k).subbedEvents ≠ .embedded j → st2.task j = st.task j)
        ∧ ((st.task j).subbedEvents ≠ (st.task k).subbedEvents →
            subbedEvtList st2 j = subbedEvtList st j))
    ∧ st2.trace = st.trace ∧ st2.qs = st.qs := by
  obtain ⟨s1, s2, s3⟩ := subbedEvtScan_list st k evt
  rw [osInternalEvtHandle_unsub_eq c st evtData tid evt k hrec hk] at h2
  generalize hi : subbedEvtScan (evtRead st (st.task k).subbedEvents) evt
    (st.task k).subbedEvtCount 0 = i at s1 s2 s3 h2
  by_cases hin : evt ∈ subbedEvtList st k
  · have hne : i ≠ (st.task k).subbedEvtCount := fun e => (s1.1 e) hin
    rw [if_pos hne] at h2
    have hlt : i < (st.task k).subbedEvtCount := by omega
    have hev := s3 hne
    obtain ⟨u1, u2, u3, u4, u5, u6⟩ := evtUnsubAt_spec st k i hok hlt
    obtain ⟨v1, v2, v3⟩ := evtUnsubAt_list st k i hok hlt
    obtain ⟨f1, f2, f3⟩ := evtUnsubAt_frame st k i
    rw [h2] at u1 u2 u3 u4 u5 u6 v1 v2 v3 f1 f2 f3
    rw [hev] at u2
    have hlen : (subbedEvtList st k).length = (st.task k).subbedEvtCount := by
      simp [subbedEvtList]
    have hidx : (subbedEvtList st k).indexOf evt = i := by
      have hil : i < (subbedEvtList st k).length := by omega
      have hget : (subbedEvtList st k)[i] = evt := by
        simp only [subbedEvtList, List.getElem_map, List.getElem_range]
        exact hev
      rw [← hget]
      exact List.indexOf_getElem hok.2.2.2.2.2 i hil
    refine ⟨fun h => absurd hin h, fun _ => ⟨fun h => ((u2 evt).1 h).2 rfl, u2, u1.2.2.2.2.2,
      by rw [hidx]; exact v1, u3, u4, v2, (u6 k).1, (u6 k).2, v3⟩, ?_, f1, ?_⟩
    · intro j hj
      have g := f2 j hj
      refine ⟨g, ?_, ?_⟩
      · intro hp
        have hb := f3 (.embedded j) (fun e => hp e.symm)
        exact task_eq_of_fields _ _ g.1 g.2.1 g.2.2.1 g.2.2.2.1 g.2.2.2.2.1 g.2.2.2.2.2 hb
      · intro hp
        exact subbedEvtList_eq_of_buf st st2 j g.2.1 g.2.2.2.1 (f3 _ hp)
    · rw [← h2]
      exact qs_evtUnsubAt st k i
  · have he : i = (st.task k).subbedEvtCount := s1.2 hin
    rw [if_neg (by simp [he])] at h2
    subst h2
    exact ⟨fun _ => rfl, fun h => absurd h hin,
      fun j _ => ⟨⟨rfl, rfl, rfl, rfl, rfl, rfl⟩, fun _ => rfl, fun _ => rfl⟩, rfl, rfl⟩

/-- C15 at a concrete input: task 1 holds 512, 513, 514 and unsubscribes from
512; the last entry takes the freed place, and slot 1 is unchanged. An
unsubscribe from 600, which the list does not hold, changes nothing. -/
theorem osInternalEvtHandle_unsub_removes_witness :
    subbedEvtList (osInternalEvtHandle wConsts wUnsubState EVT_UNSUBSCRIBE_TO_EVT 0) 0
        = [514, 513]
    ∧ (osInternalEvtHandle wConsts wUnsubState EVT_UNSUBSCRIBE_TO_EVT 0).task 1
        = wUnsubState.task 1
    ∧ osInternalEvtHandle wConsts wUnsubState EVT_UNSUBSCRIBE_TO_EVT 1 = wUnsubState := by
  have hok : TaskOk wUnsubState 0 := by
    refine ⟨by decide, ⟨[512, 513, 514], rfl⟩, by decide, by decide, by decide, by decide⟩
  have h := osInternalEvtHandle_unsub_removes wConsts wUnsubState _ 0 1 512 0 (by decide)
    (by decide) hok rfl
  have h1 := osInternalEvtHandle_unsub_removes wConsts wUnsubState _ 1 1 600 0 (by decide)
    (by decide) hok rfl
  exact ⟨(h.2.1 (by decide)).2.2.2.1.trans (by decide), (h.2.2.1 1 (by decide)).2.1 (by decide),
    h1.1 (by decide)⟩

/-! ### Growth without a bound on the new capacity -/

theorem evtRead_congr_null (s st : State) (p : EvtPtr) (j : Nat) (h1 : s.mTasks = st.mTasks)
    (h2 : ∀ (b : Nat) (w : List Nat), st.heap.chunks[b]? = some (some w) →
      s.heap.chunks[b]? = some (some w))
    (hp : PtrNullOk st p) : evtRead s p j = evtRead st p j := by
  rcases hp with hp | hp
  · rw [hp]
    rfl
  · exact evtRead_congr s st p j h1 h2 hp

theorem ptrOk_heap_lt (st : State) (b : Nat) (h : PtrOk st (.heap b)) :
    b < st.heap.chunks.length := by
  obtain ⟨w, hw⟩ := h
  exact (List.getElem?_eq_some_iff.1 hw).1

/-- What the block "enlarge the list" does to slot `k` when the heap grants
the chunk, whatever the new size: the slot gets the fresh chunk as its list
pointer and the new size, cut to 16 bits, as its capacity; the chunk holds
the old list in its first `subbedEvtListSz` words; no other slot and no other
array changes. -/
theorem evtListGrow_gen (st : State) (k : Nat) (rest : List Bool) (h1 : k < st.mTasks.length)
    (h2 : PtrNullOk st (st.task k).subbedEvents) (hav : st.heap.avail = true :: rest) :
    (evtListGrow st k).task k
        = { st.task k with
            subbedEvents := .heap st.heap.chunks.length,
            subbedEvtListSz := ((st.task k).subbedEvtListSz * 3 + 1) / 2 % U16 }
    ∧ (∀ j, j ≠ k → (evtListGrow st k).task j = st.task j)
    ∧ (evtListGrow st k).mTasks.length = st.mTasks.length
    ∧ (evtListGrow st k).heap.avail = rest
    ∧ (evtListGrow st k).heap.chunks.length = st.heap.chunks.length + 1
    ∧ evtBuf (evtListGrow st k) (.heap st.heap.chunks.length)
        = memcpyWords (evtRead st (st.task k).subbedEvents) (st.task k).subbedEvtListSz
            (List.replicate (((st.task k).subbedEvtListSz * 3 + 1) / 2) 0)
    ∧ (∀ p, p ≠ (st.task k).subbedEvents → PtrNullOk st p →
        evtBuf (evtListGrow st k) p = evtBuf st p ∧ PtrNullOk (evtListGrow st k) p)
    ∧ PtrOk (evtListGrow st k) (.heap st.heap.chunks.length) := by
  have hdiv : 4 * (((st.task k).subbedEvtListSz * 3 + 1) / 2) / 4
      = ((st.task k).subbedEvtListSz * 3 + 1) / 2 := by omega
  obtain ⟨s, hs, m1, m2⟩ : ∃ s : State,
      evtListGrow st k = evtListMove s k (((st.task k).subbedEvtListSz * 3 + 1) / 2)
        st.heap.chunks.length
      ∧ s.mTasks = st.mTasks
      ∧ s.heap = ⟨st.heap.chunks ++ [some (List.replicate
          (((st.task k).subbedEvtListSz * 3 + 1) / 2) 0)], rest⟩ := by
    refine ⟨({ st with heap := ⟨st.heap.chunks ++ [some (List.replicate
      (((st.task k).subbedEvtListSz * 3 + 1) / 2) 0)], rest⟩ } : State).call
      (.heapAlloc (4 * (((st.task k).subbedEvtListSz * 3 + 1) / 2)) (some st.heap.chunks.length)),
      ?_, rfl, rfl⟩
    unfold evtListGrow
    simp only [heapAlloc_true st.heap _ rest hav, hdiv]
  have htask : ∀ j, s.task j = st.task j := fun j => by simp only [State.task, m1]
  have ha : st.heap.chunks.length < s.heap.chunks.length := by
    rw [m2]
    simp
  have hne : (s.task k).subbedEvents ≠ .heap st.heap.chunks.length := by
    rw [htask]
    intro e
    rcases h2 with h2 | h2
    · rw [h2] at e
      cases e
    · rw [e] at h2
      have := ptrOk_heap_lt st _ h2
      omega
  have hzero : (s.heap.chunks.getD st.heap.chunks.length none).getD []
      = List.replicate (((st.task k).subbedEvtListSz * 3 + 1) / 2) 0 := by
    rw [m2]
    simp [List.getD_eq_getElem?_getD]
  have hrd : ∀ j, evtRead s (st.task k).subbedEvents j = evtRead st (st.task k).subbedEvents j := by
    intro j
    refine evtRead_congr_null s st _ j m1 ?_ h2
    intro b w hw
    rw [m2]
    simp only []
    rw [List.getElem?_append_left (List.getElem?_eq_some_iff.1 hw).1]
    exact hw
  obtain ⟨c1, c2⟩ := evtListMove_chunk s k (((st.task k).subbedEvtListSz * 3 + 1) / 2)
    st.heap.chunks.length ha hne
  have hheap := evtListMove_heap s k (((st.task k).subbedEvtListSz * 3 + 1) / 2)
    st.heap.chunks.length
  rw [← hs] at c1 c2 hheap
  rw [htask, hzero] at c2
  have hrdf : evtRead s (st.task k).subbedEvents = evtRead st (st.task k).subbedEvents :=
    funext hrd
  rw [hrdf] at c2
  have htasks := evtListMove_mTasks s k (((st.task k).subbedEvtListSz * 3 + 1) / 2)
    st.heap.chunks.length
  rw [← hs, htask, m1] at htasks
  have htk : ∀ j, (evtListGrow st k).task j
      = if j = k then { st.task k with
          subbedEvents := .heap st.heap.chunks.length,
          subbedEvtListSz := ((st.task k).subbedEvtListSz * 3 + 1) / 2 % U16 }
        else st.task j := by
    intro j
    have e := task_setTask st k j { st.task k with
          subbedEvents := .heap st.heap.chunks.length,
          subbedEvtListSz := ((st.task k).subbedEvtListSz * 3 + 1) / 2 % U16 }
    simp only [State.task, State.setTask] at e
    simp only [State.task, htasks, e]
    by_cases hj : j = k
    · rw [if_pos ⟨hj, h1⟩, if_pos hj]
    · rw [if_neg (fun h => hj h.1), if_neg hj]
  have hlen : (evtListGrow st k).heap.chunks.length = st.heap.chunks.length + 1 := by
    rw [hheap, htask, m2]
    split
    · cases (st.task k).subbedEvents <;> simp [heapFree]
    · simp
  refine ⟨by rw [htk, if_pos rfl], fun j hj => by rw [htk, if_neg hj],
    by rw [htasks, List.length_set], by rw [c1, m2], hlen, ?_, ?_, ⟨_, c2⟩⟩
  · simp only [evtBuf, List.getD_eq_getElem?_getD, c2]
    rfl
  · intro p hp hok
    cases p with
    | null => exact ⟨rfl, Or.inl rfl⟩
    | embedded t =>
      have hb : evtBuf (evtListGrow st k) (.embedded t) = evtBuf st (.embedded t) := by
        simp only [evtBuf]
        rw [htk]
        split
        · rename_i ht
          rw [ht]
        · rfl
      refine ⟨hb, Or.inr ?_⟩
      rcases hok with hok | hok
      · cases hok
      · simp only [PtrOk] at hok ⊢
        rw [htasks, List.length_set]
        exact hok
    | heap b =>
      rcases hok with hok | hok
      · cases hok
      · obtain ⟨w, hw⟩ := hok
        have hb := (List.getElem?_eq_some_iff.1 hw).1
        have hch : (evtListGrow st k).heap.chunks[b]? = some (some w) := by
          rw [hheap, htask, m2]
          have hba : st.heap.chunks.length ≠ b := by omega
          have hw2 : (st.heap.chunks ++ [some (List.replicate
              (((st.task k).subbedEvtListSz * 3 + 1) / 2) 0)])[b]? = some (some w) := by
            rw [List.getElem?_append_left hb]
            exact hw
          split
          · cases hptr : (st.task k).subbedEvents with
            | null =>
              simp only [heapFree]
              rw [List.getElem?_set_ne hba]
              exact hw2
            | embedded t =>
              simp only [heapFree]
              rw [List.getElem?_set_ne hba]
              exact hw2
            | heap b2 =>
              have hbb : b2 ≠ b := by
                intro e
                rw [hptr, e] at hp
                exact hp rfl
              simp only [heapFree]
              rw [List.getElem?_set_ne hbb, List.getElem?_set_ne hba]
              exact hw2
          · simp only []
            rw [List.getElem?_set_ne hba]
            exact hw2
        refine ⟨?_, Or.inr ⟨w, hch⟩⟩
        simp only [evtBuf, List.getD_eq_getElem?_getD, hch, hw]

theorem osInternalEvtHandle_sub_eq (c : Consts) (st : State) (evtData tid evt k : Nat)
    (hrec : (st.mDeferedActionsSlab.deref evtData).evtSub = ⟨tid, evt⟩)
    (hk : osTaskFindByTid c st tid = some k) :
    osInternalEvtHandle c st EVT_SUBSCRIBE_TO_EVT evtData
      = if subbedEvtScan (evtRead st (st.task k).subbedEvents) evt (st.task k).subbedEvtCount 0
            = (st.task k).subbedEvtCount then
          evtSubAt st k evt
        else st := by
  unfold osInternalEvtHandle
  simp only [true_or, if_true, hrec, hk, true_and]
  rw [if_neg (by simp [EVT_SUBSCRIBE_TO_EVT, EVT_UNSUBSCRIBE_TO_EVT])]

/-- The block "enlarge the list" keeps the subscription list of the slot. -/
theorem subbedEvtList_evtListGrow (st : State) (k : Nat) (rest : List Bool)
    (h1 : k < st.mTasks.length) (h2 : PtrNullOk st (st.task k).subbedEvents)
    (hav : st.heap.avail = true :: rest)
    (hc : (st.task k).subbedEvtCount ≤ (st.task k).subbedEvtListSz) :
    subbedEvtList (evtListGrow st k) k = subbedEvtList st k := by
  obtain ⟨g1, _, _, _, _, g6, _⟩ := evtListGrow_gen st k rest h1 h2 hav
  unfold subbedEvtList
  rw [g1]
  simp only []
  apply List.map_congr_left
  intro j hj
  rw [evtRead_eq_buf, g6]
  have hj2 := List.mem_range.1 hj
  exact getD_memcpyWords _ _ _ _ (by omega) (by simp; omega)

/-- C16, at the failing inputs and where the claim holds. Let slot `k` be the
slot `osTaskFindByTid` returns for task `tid`, well formed, with a full list
(count = capacity >= 1) that does not hold `evt`, and let the heap grant the
next allocation. Let `st2` be the state after `EVT_SUBSCRIBE{tid, evt}` is
handled. When `(3 * cap + 1) / 2` fits in 16 bits, the new capacity is this
number, larger than the old one, and the list is the old list followed by
`evt`. When it does not fit, the capacity field receives it cut to 16 bits,
which is less than the old capacity and than the count; `evt` is not stored
and the list is the old one. -/
theorem subscribe_on_full_list (c : Consts) (st st2 : State) (evtData tid evt k : Nat)
    (rest : List Bool)
    (hrec : (st.mDeferedActionsSlab.deref evtData).evtSub = ⟨tid, evt⟩)
    (hk : osTaskFindByTid c st tid = some k) (hok : TaskOk st k)
    (hfull : (st.task k).subbedEvtCount = (st.task k).subbedEvtListSz)
    (hpos : 1 ≤ (st.task k).subbedEvtListSz)
    (hnew : evt ∉ subbedEvtList st k) (hav : st.heap.avail = true :: rest)
    (h2 : osInternalEvtHandle c st EVT_SUBSCRIBE_TO_EVT evtData = st2) :
    (((st.task k).subbedEvtListSz * 3 + 1) / 2 < U16 →
        (st2.task k).subbedEvtListSz = ((st.task k).subbedEvtListSz * 3 + 1) / 2
        ∧ (st.task k).subbedEvtListSz < (st2.task k).subbedEvtListSz
        ∧ (st2.task k).subbedEvtCount = (st.task k).subbedEvtListSz + 1
        ∧ subbedEvtList st2 k = subbedEvtList st k ++ [evt])
    ∧ (U16 ≤ ((st.task k).subbedEvtListSz * 3 + 1) / 2 →
        (st2.task k).subbedEvtListSz = ((st.task k).subbedEvtListSz * 3 + 1) / 2 - U16
        ∧ (st2.task k).subbedEvtListSz < (st.task k).subbedEvtListSz
        ∧ (st2.task k).subbedEvtCount = (st.task k).subbedEvtListSz
        ∧ subbedEvtList st2 k = subbedEvtList st k) := by
  have hscan := (subbedEvtScan_list st k evt).1.2 hnew
  rw [osInternalEvtHandle_sub_eq c st evtData tid evt k hrec hk, if_pos hscan] at h2
  unfold evtSubAt at h2
  simp only [hfull, if_true] at h2
  have hU : U16 = 65536 := rfl
  constructor
  · intro hsz
    obtain ⟨g1, g2, g3, g4, _, _, _, _⟩ := evtListGrow_spec st k rest hok hav hsz
    have hroom : ((evtListGrow st k).task k).subbedEvtCount
        < ((evtListGrow st k).task k).subbedEvtListSz := by
      rw [g3, g4]
      omega
    rw [if_pos hroom] at h2
    obtain ⟨a1, a2, a3, a4, _, _⟩ := evtAppend_spec (evtListGrow st k) k evt g1 hroom
      (by rw [g2]; exact hnew)
    rw [h2] at a2 a3 a4
    exact ⟨by rw [a4, g4], by rw [a4, g4]; omega, by rw [a3, g3, hfull], by rw [a2, g2]⟩
  · intro hsz
    obtain ⟨h1, hp, h3, h4, h5, h6⟩ := hok
    obtain ⟨g1, _⟩ := evtListGrow_gen st k rest h1 (Or.inr hp) hav
    have hmod : ((st.task k).subbedEvtListSz * 3 + 1) / 2 % U16
        = ((st.task k).subbedEvtListSz * 3 + 1) / 2 - U16 := by
      rw [hU] at hsz h5 ⊢
      omega
    have hcap : ((evtListGrow st k).task k).subbedEvtListSz
        = ((st.task k).subbedEvtListSz * 3 + 1) / 2 - U16 := by
      rw [g1]
      exact hmod
    have hcnt : ((evtListGrow st k).task k).subbedEvtCount = (st.task k).subbedEvtListSz := by
      rw [g1]
      exact hfull
    have hlt : ((st.task k).subbedEvtListSz * 3 + 1) / 2 - U16 < (st.task k).subbedEvtListSz := by
      rw [hU] at hsz h5 ⊢
      omega
    have hno : ¬ ((evtListGrow st k).task k).subbedEvtListSz
        > ((evtListGrow st k).task k).subbedEvtCount := by
      rw [hcap, hcnt]
      omega
    rw [if_neg hno] at h2
    rw [← h2]
    exact ⟨hcap, by rw [hcap]; exact hlt, hcnt,
      subbedEvtList_evtListGrow st k rest h1 (Or.inr hp) hav (by omega)⟩

theorem wBigState_list : subbedEvtList wBigState 0 = List.range' 1000 43691 := by
  have hb : evtBuf wBigState (wBigState.task 0).subbedEvents = List.range' 1000 43691 := rfl
  have hc : (wBigState.task 0).subbedEvtCount = 43691 := rfl
  rw [subbedEvtList_eq_take wBigState 0 (by rw [hb, hc, List.length_range']), hb, hc]
  exact List.take_of_length_le (by rw [List.length_range'])

theorem wBigState_ok : TaskOk wBigState 0 := by
  have hb : evtBuf wBigState (wBigState.task 0).subbedEvents = List.range' 1000 43691 := rfl
  refine ⟨by decide, ⟨List.range' 1000 43691, rfl⟩, by decide, ?_, by decide, ?_⟩
  · rw [hb, List.length_range']
    decide
  · rw [wBigState_list]
    exact List.nodup_range' 1000 43691

/-- C16 at concrete inputs. A full list of 2 entries grows to capacity 3 and
takes the new event. A full list of 43691 entries is given the capacity
`65537 mod 65536 = 1`: the count stays 43691 and the event 50000 is not
stored. -/
theorem subscribe_on_full_list_witness :
    (((osInternalEvtHandle wConsts wGrowState EVT_SUBSCRIBE_TO_EVT 0).task 0).subbedEvtListSz = 3
      ∧ subbedEvtList (osInternalEvtHandle wConsts wGrowState EVT_SUBSCRIBE_TO_EVT 0) 0
          = [513, 514, 512])
    ∧ (((osInternalEvtHandle wConsts wBigState EVT_SUBSCRIBE_TO_EVT 0).task 0).subbedEvtListSz = 1
      ∧ ((osInternalEvtHandle wConsts wBigState EVT_SUBSCRIBE_TO_EVT 0).task 0).subbedEvtCount
          = 43691
      ∧ subbedEvtList (osInternalEvtHandle wConsts wBigState EVT_SUBSCRIBE_TO_EVT 0) 0
          = List.range' 1000 43691) := by
  have hok : TaskOk wGrowState 0 := by
    refine ⟨by decide, ?_, by decide, by decide, by decide, by decide⟩
    show 0 < 3
    decide
  have hA := (subscribe_on_full_list wConsts wGrowState _ 0 1 512 0 [] rfl (by decide) hok
    (by decide) (by decide) (by decide) rfl rfl).1 (by decide)
  have hnew : 50000 ∉ subbedEvtList wBigState 0 := by
    rw [wBigState_list, List.mem_range']
    omega
  have hB := (subscribe_on_full_list wConsts wBigState _ 0 1 50000 0 [] rfl (by decide)
    wBigState_ok rfl (by decide) hnew rfl rfl).2 (by decide)
  exact ⟨⟨hA.1.trans (by decide), hA.2.2.2.trans (by decide)⟩,
    hB.1.trans (by decide), hB.2.2.1.trans (by decide), hB.2.2.2.trans wBigState_list⟩

/-- C19 at failing inputs. Two internal apps, or an internal and an external
app, all loads succeeding: the second candidate is written to slot 1, and the
load call made for it passes the header of slot 0, which is the first app's,
and the platform record of slot 0. -/
theorem load_called_on_first_slot :
    ((osStartTasksLoad wConsts wImage 4 (wInit ⟨[true, true], []⟩)).st.trace,
        (osStartTasksLoad wConsts wImage 4 (wInit ⟨[true, true], []⟩)).st.mTasks.map (·.appHdr),
        (osStartTasksLoad wConsts wImage 4 (wInit ⟨[true, true], []⟩)).nTasks)
      = ([.cpuInternalAppLoad 1000 0 true, .cpuInternalAppLoad 1000 0 true], [1000, 1016, 0], 2)
    ∧ ((osStartTasksLoad wConsts wImageExt 4 (wInit ⟨[true, true], []⟩)).st.trace,
        (osStartTasksLoad wConsts wImageExt 4 (wInit ⟨[true, true], []⟩)).st.mTasks.map
          (·.appHdr),
        (osStartTasksLoad wConsts wImageExt 4 (wInit ⟨[true, true], []⟩)).nTasks)
      = ([.cpuInternalAppLoad 1000 0 true, .cpuAppLoad 1000 0 true], [1000, 2000, 0], 2) := by
  constructor <;> decide

/-- C20 at failing inputs. Both loads fail: the load phase ends with no task
loaded, yet slot 0 keeps the tid, the header and the list pointer written for
the last candidate; `osTaskFindByTid` and `osFindTaskByAppID` return it, and
after the bring-up a subscribe for tid 1 followed by a broadcast makes the
main loop call the handler of the app whose load failed. With the first load
succeeding and the second failing, slot 1, beyond the loaded count, keeps tid
2 and the second header. -/
theorem failed_load_stays_registered :
    ((osStartTasksLoad wConsts wImage 4 (wInit ⟨[false, false], []⟩)).nTasks,
        (osStartTasksLoad wConsts wImage 4 (wInit ⟨[false, false], []⟩)).st.trace,
        (osStartTasksLoad wConsts wImage 4 (wInit ⟨[false, false], []⟩)).st.task 0)
      = (0, [.cpuInternalAppLoad 1000 0 false, .cpuInternalAppLoad 1016 0 false],
          ⟨1, 0, 2, .embedded 0, 1016, 0, [0, 0]⟩)
    ∧ (osTaskFindByTid wConsts (osStartTasksLoad wConsts wImage 4
          (wInit ⟨[false, false], []⟩)).st 1,
        osFindTaskByAppID wConsts wImage (osStartTasksLoad wConsts wImage 4
          (wInit ⟨[false, false], []⟩)).st 12)
      = (some 0, some 0)
    ∧ (osMainBringUp wConsts wImage 4 ⟨[], []⟩ ⟨[false, false], []⟩).map
        (fun st => (st.trace, st.tids,
          callsSince st (osMainIters wConsts 3
            (osEnqueueEvt (osEventSubscribe st 1 512).2 512 55 .null false).2)))
      = some ([.cpuInternalAppLoad 1000 0 false, .cpuInternalAppLoad 1016 0 false], [1, 0, 0],
          [.evtFree .osDeferredActionFreeF 0, .cpuAppHandle 1016 0 512 55])
    ∧ ((osStartTasksLoad wConsts wImage 4 (wInit ⟨[true, false], []⟩)).nTasks,
        (osStartTasksLoad wConsts wImage 4 (wInit ⟨[true, false], []⟩)).st.task 1,
        osTaskFindByTid wConsts (osStartTasksLoad wConsts wImage 4
          (wInit ⟨[true, false], []⟩)).st 2)
      = (1, ⟨2, 0, 2, .embedded 1, 1016, 0, [0, 0]⟩, some 1) := by
  refine ⟨?_, ?_, ?_, ?_⟩ <;> decide

/-! ### The invariant of the task table -/

theorem findable_congr (c : Consts) (st st2 : State) (j : Nat)
    (h : ∀ i, (st2.task i).tid = (st.task i).tid) : Findable c st2 j ↔ Findable c st j := by
  unfold Findable
  rw [osTaskFindByTid_congr c st st2 _ h, h j]

theorem subbedEvtList_of_count_zero (st : State) (j : Nat)
    (h : (st.task j).subbedEvtCount = 0) : subbedEvtList st j = [] := by
  simp [subbedEvtList, h]

/-- A change of the list of a findable slot `k` that leaves slot `k` with a
list the handler can work on keeps the invariant of the table. -/
theorem tableInv_step (c : Consts) (st st2 : State) (k : Nat) (hinv : TableInv c st)
    (hk : Findable c st k) (hf : ListFrame st st2 k) (hok : ListOk st2 k) :
    TableInv c st2 := by
  obtain ⟨i1, i2, i3⟩ := hinv
  obtain ⟨f1, f2, f3, f4, f5⟩ := hf
  have hfind : ∀ j, Findable c st2 j ↔ Findable c st j := fun j => findable_congr c st st2 j f2
  refine ⟨?_, ?_, ?_⟩
  · intro j hj
    by_cases hjk : j = k
    · rw [hjk]
      exact hok
    · have hj0 := (hfind j).1 hj
      obtain ⟨a1, a2, a3, a4, a5, a6, a7⟩ := i1 j hj0
      obtain ⟨g1, g2, g3⟩ := f3 j hjk
      have hp : (st.task j).subbedEvents ≠ (st.task k).subbedEvents :=
        fun e => hjk (i3 j k hj0 hk e)
      obtain ⟨b1, b2⟩ := f4 _ hp a2
      refine ⟨by rw [f1]; exact a1, by rw [g3]; exact b2, by rw [g1, g3, b1]; exact a3,
        by rw [g2, g3, b1]; exact a4, by rw [g2]; exact a5, by rw [g1]; exact a6, ?_⟩
      rw [subbedEvtList_eq_of_buf st st2 j g1 g3 b1]
      exact a7
  · intro j hj
    have hj0 : ¬ Findable c st j := fun h => hj ((hfind j).2 h)
    have hjk : j ≠ k := fun e => hj0 (e ▸ hk)
    rw [(f3 j hjk).1]
    exact i2 j hj0
  · intro j1 j2 h1 h2 he
    have h10 := (hfind j1).1 h1
    have h20 := (hfind j2).1 h2
    by_cases e1 : j1 = k
    · by_cases e2 : j2 = k
      · rw [e1, e2]
      · exfalso
        rw [e1, (f3 j2 e2).2.2] at he
        rcases f5 with f5 | f5
        · rw [f5] at he
          exact e2 (i3 k j2 hk h20 he).symm
        · exact f5 _ (i1 j2 h20).2.1 he.symm
    · by_cases e2 : j2 = k
      · exfalso
        rw [e2, (f3 j1 e1).2.2] at he
        rcases f5 with f5 | f5
        · rw [f5] at he
          exact e1 (i3 j1 k h10 hk he)
        · exact f5 _ (i1 j1 h10).2.1 he
      · rw [(f3 j1 e1).2.2, (f3 j2 e2).2.2] at he
        exact i3 j1 j2 h10 h20 he

theorem ptrOk_of_buf_pos (st : State) (p : EvtPtr) (h : PtrNullOk st p)
    (hb : 0 < (evtBuf st p).length) : PtrOk st p := by
  rcases h with h | h
  · rw [h] at hb
    simp [evtBuf] at hb
  · exact h

theorem listOk_of_taskOk (st : State) (k : Nat) (h : TaskOk st k) : ListOk st k := by
  obtain ⟨h1, h2, h3, h4, h5, h6⟩ := h
  exact ⟨h1, Or.inr h2, by omega, h4, h5, by omega, h6⟩

theorem taskOk_of_listOk (st : State) (k : Nat) (h : ListOk st k)
    (hc : (st.task k).subbedEvtCount ≤ (st.task k).subbedEvtListSz)
    (hp : 0 < (st.task k).subbedEvtListSz) : TaskOk st k := by
  obtain ⟨h1, h2, h3, h4, h5, h6, h7⟩ := h
  exact ⟨h1, ptrOk_of_buf_pos st _ h2 (by omega), hc, h4, h5, h7⟩

theorem ptrNullOk_evtWrite (st : State) (p q : EvtPtr) (i v : Nat) (h : PtrNullOk st q) :
    PtrNullOk (evtWrite st p i v) q := by
  rcases h with h | h
  · exact Or.inl h
  · exact Or.inr (ptrOk_evtWrite st p q i v h)

theorem ptrNullOk_setTask (st : State) (k : Nat) (t : Task) (q : EvtPtr) (h : PtrNullOk st q) :
    PtrNullOk (st.setTask k t) q := by
  rcases h with h | h
  · exact Or.inl h
  · exact Or.inr (ptrOk_setTask st k t q h)

/-- The removal of the unsubscribe branch, for a slot whose count may exceed
its capacity: the slot still holds a list the handler can work on, and
nothing else of the table changes. -/
theorem evtUnsubAt_listOk (st : State) (k i : Nat) (hok : ListOk st k)
    (hi : i < (st.task k).subbedEvtCount) :
    ListOk (evtUnsubAt st k i) k ∧ ListFrame st (evtUnsubAt st k i) k
    ∧ ((evtUnsubAt st k i).task k).subbedEvtCount + 1 = (st.task k).subbedEvtCount
    ∧ ((evtUnsubAt st k i).task k).subbedEvtListSz = (st.task k).subbedEvtListSz := by
  obtain ⟨h1, h2n, h3, h4, h5, h5c, h6⟩ := hok
  have h2 : PtrOk st (st.task k).subbedEvents := ptrOk_of_buf_pos st _ h2n (by omega)
  have hmod : ((st.task k).subbedEvtCount + U16 - 1) % U16 = (st.task k).subbedEvtCount - 1 := by
    have : (st.task k).subbedEvtCount + U16 - 1 = (st.task k).subbedEvtCount - 1 + U16 := by omega
    rw [this, Nat.add_mod_right]
    exact Nat.mod_eq_of_lt (by omega)
  have hst1 : ∀ j, (st.setTask k { st.task k with
      subbedEvtCount := (st.task k).subbedEvtCount - 1 }).task j
        = if j = k then { st.task k with subbedEvtCount := (st.task k).subbedEvtCount - 1 }
          else st.task j := by
    intro j
    rw [task_setTask]
    by_cases hj : j = k
    · rw [if_pos ⟨hj, h1⟩, if_pos hj]
    · rw [if_neg (fun h => hj h.1), if_neg hj]
  have hb1 : evtBuf (st.setTask k { st.task k with
      subbedEvtCount := (st.task k).subbedEvtCount - 1 }) (st.task k).subbedEvents
        = evtBuf st (st.task k).subbedEvents := evtBuf_setTask_count _ _ _ _
  have hp1 : PtrOk (st.setTask k { st.task k with
      subbedEvtCount := (st.task k).subbedEvtCount - 1 }) (st.task k).subbedEvents :=
    ptrOk_setTask _ _ _ _ h2
  have hun : evtUnsubAt st k i
      = evtWrite (st.setTask k { st.task k with subbedEvtCount := (st.task k).subbedEvtCount - 1 })
          (st.task k).subbedEvents i
          ((evtBuf st (st.task k).subbedEvents).getD ((st.task k).subbedEvtCount - 1) 0) := by
    unfold evtUnsubAt
    simp only []
    rw [hmod, evtRead_eq_buf, hb1]
  obtain ⟨w0, w⟩ := sameTaskFields_evtWrite
    (st.setTask k { st.task k with subbedEvtCount := (st.task k).subbedEvtCount - 1 })
    (st.task k).subbedEvents i
    ((evtBuf st (st.task k).subbedEvents).getD ((st.task k).subbedEvtCount - 1) 0)
  rw [← hun] at w0 w
  have hbuf : evtBuf (evtUnsubAt st k i) (st.task k).subbedEvents
      = (evtBuf st (st.task k).subbedEvents).set i
          ((evtBuf st (st.task k).subbedEvents).getD ((st.task k).subbedEvtCount - 1) 0) := by
    rw [hun, evtBuf_evtWrite _ _ _ _ hp1, hb1]
  have hp : ((evtUnsubAt st k i).task k).subbedEvents = (st.task k).subbedEvents := by
    rw [(w k).2.2.2.1, hst1, if_pos rfl]
  have hc : ((evtUnsubAt st k i).task k).subbedEvtCount = (st.task k).subbedEvtCount - 1 := by
    rw [(w k).2.1, hst1, if_pos rfl]
  have hs : ((evtUnsubAt st k i).task k).subbedEvtListSz = (st.task k).subbedEvtListSz := by
    rw [(w k).2.2.1, hst1, if_pos rfl]
  have hl : (evtUnsubAt st k i).mTasks.length = st.mTasks.length := by
    rw [w0, length_setTask]
  have hold := subbedEvtList_eq_take st k h3
  have hnew : subbedEvtList (evtUnsubAt st k i) k
      = ((subbedEvtList st k).set i ((subbedEvtList st k).getD ((subbedEvtList st k).length - 1) 0)).take
          ((subbedEvtList st k).length - 1) := by
    have hlen : (subbedEvtList st k).length = (st.task k).subbedEvtCount := by
      rw [hold, List.length_take]
      omega
    rw [subbedEvtList_eq_take _ _ (by rw [hp, hc, hbuf, List.length_set]; omega), hp, hc, hbuf,
      hold]
    exact swap_take _ _ _ (by omega) (by omega)
  have hlen : i < (subbedEvtList st k).length := by
    rw [hold, List.length_take]
    omega
  obtain ⟨s1, _⟩ := swapRemove_spec (subbedEvtList st k) i hlen h6
  rw [← hnew] at s1
  have hpn : PtrNullOk (evtUnsubAt st k i) (st.task k).subbedEvents := by
    rw [hun]
    exact Or.inr (ptrOk_evtWrite _ _ _ _ _ hp1)
  obtain ⟨_, f2, f3⟩ := evtUnsubAt_frame st k i
  refine ⟨⟨by rw [hl]; exact h1, by rw [hp]; exact hpn, ?_, ?_, by rw [hs]; exact h5,
    by rw [hc]; omega, s1⟩, ⟨hl, ?_, ?_, ?_, Or.inl hp⟩, by rw [hc]; omega, hs⟩
  · rw [hc, hp, hbuf, List.length_set]
    omega
  · rw [hs, hp, hbuf, List.length_set]
    exact h4
  · intro j
    rw [(w j).1, hst1]
    split
    · rename_i hj
      rw [hj]
    · rfl
  · intro j hj
    exact ⟨(f2 j hj).2.1, (f2 j hj).2.2.1, (f2 j hj).2.2.2.1⟩
  · intro p hp2 hpo
    refine ⟨f3 p hp2, ?_⟩
    rw [hun]
    exact ptrNullOk_evtWrite _ _ _ _ _ (ptrNullOk_setTask _ _ _ _ hpo)

theorem evtBuf_congr (st st2 : State) (p : EvtPtr) (h1 : st2.mTasks = st.mTasks)
    (h2 : st2.heap.chunks = st.heap.chunks) : evtBuf st2 p = evtBuf st p := by
  cases p with
  | null => rfl
  | embedded s => simp only [evtBuf, State.task, h1]
  | heap a => simp only [evtBuf, h2]

theorem ptrNullOk_congr (st st2 : State) (p : EvtPtr) (h1 : st2.mTasks = st.mTasks)
    (h2 : st2.heap.chunks = st.heap.chunks) (h : PtrNullOk st p) : PtrNullOk st2 p := by
  rcases h with h | h
  · exact Or.inl h
  · refine Or.inr ?_
    cases p with
    | null => exact h
    | embedded s =>
      simp only [PtrOk, h1]
      exact h
    | heap a =>
      simp only [PtrOk, h2]
      exact h

theorem task_congr (st st2 : State) (j : Nat) (h1 : st2.mTasks = st.mTasks) :
    st2.task j = st.task j := by
  simp only [State.task, h1]

/-- The invariant of the table depends on the task table and the heap chunks
only. -/
theorem tableInv_congr (c : Consts) (st st2 : State) (h1 : st2.mTasks = st.mTasks)
    (h2 : st2.heap.chunks = st.heap.chunks) (h : TableInv c st) : TableInv c st2 := by
  obtain ⟨i1, i2, i3⟩ := h
  have ht : ∀ j, st2.task j = st.task j := fun j => task_congr st st2 j h1
  have hfind : ∀ j, Findable c st2 j ↔ Findable c st j :=
    fun j => findable_congr c st st2 j (fun i => by rw [ht i])
  refine ⟨?_, ?_, ?_⟩
  · intro j hj
    obtain ⟨a1, a2, a3, a4, a5, a6, a7⟩ := i1 j ((hfind j).1 hj)
    have hb := evtBuf_congr st st2 (st.task j).subbedEvents h1 h2
    refine ⟨by rw [h1]; exact a1, by rw [ht]; exact ptrNullOk_congr st st2 _ h1 h2 a2,
      by rw [ht, hb]; exact a3, by rw [ht, hb]; exact a4, by rw [ht]; exact a5,
      by rw [ht]; exact a6, ?_⟩
    rw [subbedEvtList_eq_of_buf st st2 j (by rw [ht]) (by rw [ht]) hb]
    exact a7
  · intro j hj
    rw [ht]
    exact i2 j (fun h => hj ((hfind j).2 h))
  · intro j1 j2 h1 h2 he
    rw [ht, ht] at he
    exact i3 j1 j2 ((hfind j1).1 h1) ((hfind j2).1 h2) he

/-- The append of the subscribe branch, for a slot with a free entry: the
slot still holds a list the handler can work on, and nothing else of the
table changes. -/
theorem evtAppend_listOk (st : State) (k evt : Nat) (hok : ListOk st k)
    (hroom : (st.task k).subbedEvtCount < (st.task k).subbedEvtListSz)
    (hnew : evt ∉ subbedEvtList st k) :
    ListOk (evtAppend st k evt) k ∧ ListFrame st (evtAppend st k evt) k
    ∧ ((evtAppend st k evt).task k).subbedEvtCount = (st.task k).subbedEvtCount + 1
    ∧ ((evtAppend st k evt).task k).subbedEvtListSz = (st.task k).subbedEvtListSz
    ∧ subbedEvtList (evtAppend st k evt) k = subbedEvtList st k ++ [evt] := by
  have htok := taskOk_of_listOk st k hok (by omega) (by omega)
  obtain ⟨a1, a2, a3, a4, a5, a6⟩ := evtAppend_spec st k evt htok hroom hnew
  obtain ⟨w0, w⟩ := sameTaskFields_evtWrite st (st.task k).subbedEvents
    (st.task k).subbedEvtCount evt
  have hlen : k < (evtWrite st (st.task k).subbedEvents (st.task k).subbedEvtCount evt).mTasks.length := by
    rw [w0]
    exact hok.1
  have hp : ((evtAppend st k evt).task k).subbedEvents = (st.task k).subbedEvents := by
    unfold evtAppend
    simp only []
    rw [task_setTask_eq _ _ _ hlen]
    exact (w k).2.2.2.1
  refine ⟨listOk_of_taskOk _ _ a1, ⟨a5, fun j => (a6 j).1, ?_, ?_, Or.inl hp⟩, a3, a4, a2⟩
  · intro j hj
    unfold evtAppend
    simp only []
    rw [task_setTask_ne _ _ _ _ hj]
    exact ⟨(w j).2.1, (w j).2.2.1, (w j).2.2.2.1⟩
  · intro p hp2 hpo
    unfold evtAppend
    refine ⟨?_, ptrNullOk_setTask _ _ _ _ (ptrNullOk_evtWrite _ _ _ _ _ hpo)⟩
    exact (evtBuf_setTask_count _ _ _ _).trans (evtBuf_evtWrite_ne _ _ _ _ _ hp2)

/-- The block "enlarge the list" when the heap grants the chunk, for a slot
whose count is within its capacity: the slot still holds a list the handler
can work on, with the same entries, and nothing else of the table changes. -/
theorem evtListGrow_listOk (st : State) (k : Nat) (rest : List Bool) (hok : ListOk st k)
    (hc : (st.task k).subbedEvtCount ≤ (st.task k).subbedEvtListSz)
    (hav : st.heap.avail = true :: rest) :
    ListOk (evtListGrow st k) k ∧ ListFrame st (evtListGrow st k) k
    ∧ subbedEvtList (evtListGrow st k) k = subbedEvtList st k := by
  obtain ⟨h1, h2, h3, h4, h5, h6, h7⟩ := hok
  obtain ⟨g1, g2, g3, _, _, g6, g7, g8⟩ := evtListGrow_gen st k rest h1 h2 hav
  have hlist := subbedEvtList_evtListGrow st k rest h1 h2 hav hc
  have hU : U16 = 65536 := rfl
  have hp : ((evtListGrow st k).task k).subbedEvents = .heap st.heap.chunks.length := by
    rw [g1]
  have hcap : ((evtListGrow st k).task k).subbedEvtListSz
      = ((st.task k).subbedEvtListSz * 3 + 1) / 2 % U16 := by
    rw [g1]
  have hcnt : ((evtListGrow st k).task k).subbedEvtCount = (st.task k).subbedEvtCount := by
    rw [g1]
  have hbl : (evtBuf (evtListGrow st k) (.heap st.heap.chunks.length)).length
      = ((st.task k).subbedEvtListSz * 3 + 1) / 2 := by
    rw [g6, length_memcpyWords, List.length_replicate]
  refine ⟨⟨by rw [g3]; exact h1, by rw [hp]; exact Or.inr g8, ?_, ?_, ?_, by rw [hcnt]; exact h6,
    by rw [hlist]; exact h7⟩, ⟨g3, ?_, ?_, g7, Or.inr ?_⟩, hlist⟩
  · rw [hcnt, hp, hbl]
    omega
  · rw [hcap, hp, hbl]
    exact Nat.mod_le _ _
  · rw [hcap]
    exact Nat.mod_lt _ (by rw [hU]; omega)
  · intro j
    by_cases hj : j = k
    · rw [hj, g1]
    · rw [g2 j hj]
  · intro j hj
    rw [g2 j hj]
    exact ⟨rfl, rfl, rfl⟩
  · intro p hpo e
    rw [hp] at e
    rw [e] at hpo
    rcases hpo with hpo | hpo
    · cases hpo
    · have := ptrOk_heap_lt st _ hpo
      omega

theorem evtListGrow_refused (st : State) (k : Nat)
    (h : ∀ rest, st.heap.avail ≠ true :: rest) :
    (evtListGrow st k).mTasks = st.mTasks
    ∧ (evtListGrow st k).heap.chunks = st.heap.chunks := by
  unfold evtListGrow heapAlloc
  cases hav : st.heap.avail with
  | nil => exact ⟨rfl, rfl⟩
  | cons b rest =>
    cases b with
    | false => exact ⟨rfl, rfl⟩
    | true => exact absurd hav (h rest)

theorem findable_of_find (c : Consts) (st : State) (tid k : Nat)
    (h : osTaskFindByTid c st tid = some k) : Findable c st k := by
  unfold Findable
  rw [(osTaskFindByTid_some c st tid k h).2.1]
  exact h

/-- The block "enlarge the list" keeps the invariant of the table, whatever
the heap answers, when the count of the slot is within its capacity. -/
theorem evtListGrow_tableInv (c : Consts) (st : State) (k : Nat) (hinv : TableInv c st)
    (hk : Findable c st k)
    (hc : (st.task k).subbedEvtCount ≤ (st.task k).subbedEvtListSz) :
    TableInv c (evtListGrow st k) ∧ Findable c (evtListGrow st k) k
    ∧ subbedEvtList (evtListGrow st k) k = subbedEvtList st k := by
  by_cases hav : ∃ rest, st.heap.avail = true :: rest
  · obtain ⟨rest, hav⟩ := hav
    obtain ⟨g1, g2, g3⟩ := evtListGrow_listOk st k rest (hinv.1 k hk) hc hav
    exact ⟨tableInv_step c st _ k hinv hk g2 g1, (findable_congr c st _ k g2.2.1).2 hk, g3⟩
  · have hno : ∀ rest, st.heap.avail ≠ true :: rest := fun rest e => hav ⟨rest, e⟩
    obtain ⟨r1, r2⟩ := evtListGrow_refused st k hno
    have ht : ∀ j, (evtListGrow st k).task j = st.task j := fun j => task_congr st _ j r1
    refine ⟨tableInv_congr c st _ r1 r2 hinv,
      (findable_congr c st _ k (fun i => by rw [ht i])).2 hk, ?_⟩
    exact subbedEvtList_eq_of_buf st _ k (by rw [ht]) (by rw [ht])
      (evtBuf_congr st _ _ r1 r2)

/-- The subscribe branch keeps the invariant of the table. -/
theorem evtSubAt_tableInv (c : Consts) (st : State) (k evt : Nat) (hinv : TableInv c st)
    (hk : Findable c st k) (hnew : evt ∉ subbedEvtList st k) :
    TableInv c (evtSubAt st k evt) := by
  unfold evtSubAt
  have key : ∀ s1 : State, TableInv c s1 → Findable c s1 k → evt ∉ subbedEvtList s1 k →
      TableInv c (if (s1.task k).subbedEvtListSz > (s1.task k).subbedEvtCount then
        evtAppend s1 k evt else s1) := by
    intro s1 h1 h2 h3
    split
    · rename_i hroom
      obtain ⟨a1, a2, _⟩ := evtAppend_listOk s1 k evt (h1.1 k h2) hroom h3
      exact tableInv_step c s1 _ k h1 h2 a2 a1
    · exact h1
  by_cases hfull : (st.task k).subbedEvtListSz = (st.task k).subbedEvtCount
  · simp only [hfull, if_true]
    obtain ⟨g1, g2, g3⟩ := evtListGrow_tableInv c st k hinv hk (by omega)
    have := key (evtListGrow st k) g1 g2 (by rw [g3]; exact hnew)
    simpa [hfull] using this
  · simp only [hfull, if_false]
    exact key st hinv hk hnew

/-- The internal event handler keeps the invariant of the table, for every
event type and every record. -/
theorem osInternalEvtHandle_tableInv (c : Consts) (st : State) (evtType evtData : Nat)
    (hinv : TableInv c st) : TableInv c (osInternalEvtHandle c st evtType evtData) := by
  by_cases hty : evtType = EVT_SUBSCRIBE_TO_EVT ∨ evtType = EVT_UNSUBSCRIBE_TO_EVT
  · cases hk : osTaskFindByTid c st (st.mDeferedActionsSlab.deref evtData).evtSub.tid with
    | none =>
      have : osInternalEvtHandle c st evtType evtData = st := by
        unfold osInternalEvtHandle
        simp only [hty, if_true, hk]
      rw [this]
      exact hinv
    | some k =>
      have hf := findable_of_find c st _ k hk
      obtain ⟨s1, s2, s3⟩ := subbedEvtScan_list st k
        (st.mDeferedActionsSlab.deref evtData).evtSub.evt
      rcases hty with hty | hty
      · rw [hty, osInternalEvtHandle_sub_eq c st evtData
          (st.mDeferedActionsSlab.deref evtData).evtSub.tid
          (st.mDeferedActionsSlab.deref evtData).evtSub.evt k rfl hk]
        split
        · rename_i he
          exact evtSubAt_tableInv c st k _ hinv hf (s1.1 he)
        · exact hinv
      · rw [hty, osInternalEvtHandle_unsub_eq c st evtData
          (st.mDeferedActionsSlab.deref evtData).evtSub.tid
          (st.mDeferedActionsSlab.deref evtData).evtSub.evt k rfl hk]
        split
        · rename_i hne
          have hlt : subbedEvtScan (evtRead st (st.task k).subbedEvents)
              (st.mDeferedActionsSlab.deref evtData).evtSub.evt (st.task k).subbedEvtCount 0
              < (st.task k).subbedEvtCount := by omega
          obtain ⟨u1, u2, _⟩ := evtUnsubAt_listOk st k
            (subbedEvtScan (evtRead st (st.task k).subbedEvents)
              (st.mDeferedActionsSlab.deref evtData).evtSub.evt (st.task k).subbedEvtCount 0)
            (hinv.1 k hf) hlt
          exact tableInv_step c st _ k hinv hf u2 u1
        · exact hinv
  · have hframe : (osInternalEvtHandle c st evtType evtData).mTasks = st.mTasks
        ∧ (osInternalEvtHandle c st evtType evtData).heap = st.heap := by
      unfold osInternalEvtHandle
      rw [if_neg hty]
      split
      · exact ⟨rfl, rfl⟩
      · split
        · simp only []
          split
          · obtain ⟨f1, _, _, f4⟩ := evtFreeCall_frame
              (match osTaskFindByTid c st (st.mDeferedActionsSlab.deref evtData).privateEvt.toTid with
                | some k => st.call (.cpuAppHandle (st.task k).appHdr k
                    (st.mDeferedActionsSlab.deref evtData).privateEvt.evtType
                    (st.mDeferedActionsSlab.deref evtData).privateEvt.evtData)
                | none => st)
              (st.mDeferedActionsSlab.deref evtData).privateEvt.evtFreeF
              (st.mDeferedActionsSlab.deref evtData).privateEvt.evtData
            rw [f1, f4]
            split <;> exact ⟨rfl, rfl⟩
          · split <;> exact ⟨rfl, rfl⟩
        · exact ⟨rfl, rfl⟩
    exact tableInv_congr c st _ hframe.1 (by rw [hframe.2]) hinv

theorem osEnqueueDeferred_frame (st : State) (evtType act : Nat) :
    (osEnqueueDeferred st evtType act).2.mTasks = st.mTasks
    ∧ (osEnqueueDeferred st evtType act).2.heap = st.heap := by
  by_cases hq : st.mEvtsInternal.evts.length < st.mEvtsInternal.size
  · rw [osEnqueueDeferred_room st _ _ hq]
    exact ⟨rfl, rfl⟩
  · rw [osEnqueueDeferred_full st _ _ hq]
    exact ⟨rfl, rfl⟩

theorem produce_frame (st : State) (fill : DeferredAction → DeferredAction) (evtType : Nat) :
    (produce st fill evtType).2.mTasks = st.mTasks
    ∧ (produce st fill evtType).2.heap = st.heap := by
  cases hf : firstFree st.mDeferedActionsSlab.used with
  | none =>
    rw [produce_none st fill evtType hf]
    exact ⟨rfl, rfl⟩
  | some p =>
    rw [produce_some st fill evtType p hf]
    exact osEnqueueDeferred_frame _ _ _

theorem osEnqueueEvt_frame (st : State) (evtType evtData : Nat) (f : EventFreeF)
    (external : Bool) :
    (osEnqueueEvt st evtType evtData f external).2.mTasks = st.mTasks
    ∧ (osEnqueueEvt st evtType evtData f external).2.heap = st.heap := by
  unfold osEnqueueEvt
  cases external <;> exact ⟨rfl, rfl⟩

/-- One iteration of the main loop keeps the invariant of the table. -/
theorem osMainIter_tableInv (c : Consts) (st : State) (h : TableInv c st) :
    TableInv c (osMainIter c st) := by
  cases hdq : evtQueueDequeue st.mEvtsInternal with
  | none =>
    rw [osMainIter_none c st hdq]
    exact h
  | some r =>
    obtain ⟨ev, q⟩ := r
    have h1 : TableInv c { st with mEvtsInternal := q } := tableInv_congr c st _ rfl rfl h
    have h2 : TableInv c (osMainHandled c st ev q) := by
      unfold osMainHandled
      split
      · exact osInternalEvtHandle_tableInv c _ _ _ h1
      · rw [osMainBroadcast_eq]
        exact tableInv_congr c _ _ rfl rfl h1
    rw [osMainIter_eq c st ev q hdq]
    split
    · obtain ⟨f1, _, _, f4⟩ := evtFreeCall_frame (osMainHandled c st ev q) ev.evtFreeF ev.evtData
      exact tableInv_congr c _ _ f1 (by rw [f4]) h2
    · exact h2

theorem step_tableInv (c : Consts) (st st2 : State) (hs : Step c st st2) (h : TableInv c st) :
    TableInv c st2 := by
  cases hs with
  | subscribe tid evt =>
    rw [osEventSubscribe_produce]
    exact tableInv_congr c st _ (produce_frame st _ _).1 (by rw [(produce_frame st _ _).2]) h
  | unsubscribe tid evt =>
    rw [osEventUnsubscribe_produce]
    exact tableInv_congr c st _ (produce_frame st _ _).1 (by rw [(produce_frame st _ _).2]) h
  | defer callback cookie =>
    rw [osDefer_produce]
    exact tableInv_congr c st _ (produce_frame st _ _).1 (by rw [(produce_frame st _ _).2]) h
  | privateEvt evtType evtData f toTid hf =>
    rw [osEnqueuePrivateEvt_produce]
    exact tableInv_congr c st _ (produce_frame st _ _).1 (by rw [(produce_frame st _ _).2]) h
  | enqueue evtType evtData f external _ hf =>
    exact tableInv_congr c st _ (osEnqueueEvt_frame st _ _ f external).1
      (by rw [(osEnqueueEvt_frame st _ _ f external).2]) h
  | dequeueExt =>
    unfold osDequeueExtEvt
    split
    · exact h
    · exact tableInv_congr c st _ rfl rfl h
  | iter => exact osMainIter_tableInv c st h

theorem reachable_tableInv (c : Consts) (s0 st : State) (h0 : TableInv c s0)
    (hr : Reachable c s0 st) : TableInv c st := by
  induction hr with
  | start => exact h0
  | step st1 st2 _ hs ih => exact step_tableInv c st1 st2 hs ih

/-- Under the invariant of the table no slot has a repeated entry in its
list. -/
theorem tableInv_nodup (c : Consts) (st : State) (h : TableInv c st) (j : Nat) :
    (subbedEvtList st j).Nodup := by
  by_cases hj : Findable c st j
  · exact (h.1 j hj).2.2.2.2.2.2
  · rw [subbedEvtList_of_count_zero st j (h.2.1 j hj)]
    exact List.nodup_nil

/-! ### The task table after bring-up -/

theorem task_mem (st : State) (j : Nat) (h : j < st.mTasks.length) : st.task j ∈ st.mTasks := by
  simp only [State.task, List.getD_eq_getElem?_getD, List.getElem?_eq_getElem h,
    Option.getD_some]
  exact List.getElem_mem h

theorem task_default (st : State) (j : Nat) (h : st.mTasks.length ≤ j) :
    st.task j = default := by
  simp only [State.task, List.getD_eq_getElem?_getD, List.getElem?_eq_none h, Option.getD_none]

theorem bootInv_setTask (c : Consts) (st : State) (k : Nat) (t : Task) (h : BootInv c st)
    (ht : SlotInit c t) : BootInv c (st.setTask k t) := by
  refine ⟨by rw [length_setTask]; exact h.1, ?_⟩
  intro u hu
  rcases List.mem_or_eq_of_mem_set hu with hu | hu
  · exact h.2 u hu
  · rw [hu]
    exact ht

theorem bootInv_congr (c : Consts) (st st2 : State) (h1 : st2.mTasks = st.mTasks)
    (h : BootInv c st) : BootInv c st2 := by
  unfold BootInv
  rw [h1]
  exact h

theorem osStartTasksRegister_boot (c : Consts) (hc : c.MAX_TASKS < U32) (t0 : Nat)
    (internal : Bool) (st : State) (i n app : Nat) (hn : n < c.MAX_TASKS)
    (h : LoadInv c t0 st n) (hb : BootInv c st) :
    BootInv c (osStartTasksRegister c internal st i n app).1 := by
  have hnt : st.mNextTid = n + 1 := by
    rw [h.2.2.1]
    exact Nat.mod_eq_of_lt (by omega)
  have hs := hb.2 (st.task n) (task_mem st n (by rw [hb.1]; exact hn))
  have hpop : BootInv c (osStartTasksPopulate c st n app) := by
    unfold osStartTasksPopulate
    apply bootInv_setTask c st n _ hb
    refine ⟨hs.1, hs.2.1, Or.inr ⟨?_, ?_, ?_, rfl⟩⟩
    · simp only [hnt]
      omega
    · simp only [hnt]
      omega
    · simp only [hnt, Nat.add_sub_cancel]
  obtain ⟨f1, _, _⟩ := cpuLoadAnswer_frame (osStartTasksPopulate c st n app)
  unfold osStartTasksRegister
  simp only []
  split
  · exact bootInv_congr c _ _ f1 hpop
  · exact bootInv_congr c _ _ f1 hpop

theorem osStartTasksInternal_boot (c : Consts) (img : AppImage) (hc : c.MAX_TASKS < U32)
    (t0 : Nat) (fuel : Nat) (st : State) (i n app : Nat)
    (ht : t0 ≤ st.trace.length) (h : LoadInv c t0 st n) (hb : BootInv c st) :
    BootInv c (osStartTasksInternal c img fuel st i n app).st := by
  induction fuel generalizing st n app with
  | zero => exact hb
  | succ fuel ih =>
    rw [osStartTasksInternal]
    simp only []
    split
    · rename_i hcond
      split
      · split
        · exact ih st n _ ht h hb
        · obtain ⟨g1, g2⟩ := osStartTasksRegister_inv c hc t0 true st i n app ht hcond.2.1 h
          exact ih _ _ _ g2 g1 (osStartTasksRegister_boot c hc t0 true st i n app hcond.2.1 h hb)
      · exact ih st n _ ht h hb
    · exact hb

theorem osStartTasksExternal_boot (c : Consts) (img : AppImage) (hc : c.MAX_TASKS < U32)
    (t0 : Nat) (fuel : Nat) (st : State) (i n app : Nat)
    (ht : t0 ≤ st.trace.length) (h : LoadInv c t0 st n) (hb : BootInv c st) :
    BootInv c (osStartTasksExternal c img fuel st i n app).st := by
  induction fuel generalizing st n app with
  | zero => exact hb
  | succ fuel ih =>
    rw [osStartTasksExternal]
    simp only []
    split
    · rename_i hcond
      split
      · split
        · exact ih st n _ ht h hb
        · obtain ⟨g1, g2⟩ := osStartTasksRegister_inv c hc t0 false st i n app ht hcond.2.1 h
          exact ih _ _ _ g2 g1 (osStartTasksRegister_boot c hc t0 false st i n app hcond.2.1 h hb)
      · exact ih st n _ ht h hb
    · exact hb

theorem osStartTasksInitLoop_boot (c : Consts) (fuel : Nat) (st : State) (i n : Nat)
    (r : State × Nat) (hn : n ≤ c.MAX_TASKS) (hb : BootInv c st)
    (h : osStartTasksInitLoop fuel st i n = some r) : BootInv c r.1 := by
  induction fuel generalizing st i n with
  | zero => simp [osStartTasksInitLoop] at h
  | succ fuel ih =>
    rw [osStartTasksInitLoop] at h
    split at h
    · rename_i hi
      simp only [] at h
      have hm := (cpuInitAnswer_frame st).1
      split at h
      · exact ih _ _ _ hn (bootInv_congr c st _ (by simp only [State.call, hm]) hb) h
      · refine ih _ _ _ (by omega) ?_ h
        apply bootInv_setTask
        · exact bootInv_congr c st _ (by simp only [State.call, hm]) hb
        · have : ∀ cl1 cl2, (((cpuInitAnswer st).2.call cl1).call cl2).task (n - 1)
              = st.task (n - 1) := fun _ _ => cpuInitAnswer_task st _
          rw [this]
          exact hb.2 _ (task_mem st _ (by rw [hb.1]; omega))
    · cases h
      exact hb

theorem osStartTasksLoad_boot (c : Consts) (img : AppImage) (hc : c.MAX_TASKS < U32)
    (fuel : Nat) (st0 : State)
    (htab : st0.mTasks = List.replicate c.MAX_TASKS (Task.zero c)) (htid : st0.mNextTid = 1) :
    BootInv c (osStartTasksLoad c img fuel st0).st
    ∧ (osStartTasksLoad c img fuel st0).nTasks ≤ c.MAX_TASKS := by
  have h0 : LoadInv c st0.trace.length st0 0 := by
    refine ⟨by simp [htab], Nat.zero_le _, by simp [htid, U32], fun j hj => absurd hj (by omega),
      by simp⟩
  have hb0 : BootInv c st0 := by
    refine ⟨by simp [htab], ?_⟩
    intro t ht
    rw [htab] at ht
    rw [List.eq_of_mem_replicate ht]
    exact ⟨rfl, by simp [Task.zero], Or.inl ⟨rfl, rfl, rfl⟩⟩
  obtain ⟨g1, g2⟩ := osStartTasksInternal_inv c img hc _ fuel st0 0 0 img.internal_app_start
    (le_refl _) h0
  have g3 := osStartTasksInternal_boot c img hc _ fuel st0 0 0 img.internal_app_start
    (le_refl _) h0 hb0
  unfold osStartTasksLoad
  cases h1 : osStartTasksInternal c img fuel st0 0 0 img.internal_app_start with
  | running st1 n1 =>
    rw [h1] at g1 g3
    exact ⟨g3, g1.2.1⟩
  | done st1 n1 =>
    rw [h1] at g1 g2 g3
    exact ⟨osStartTasksExternal_boot c img hc _ fuel st1 0 n1 img.app_start g2 g1 g3,
      (osStartTasksExternal_inv c img hc _ fuel st1 0 n1 img.app_start g2 g1).1.2.1⟩

theorem osMainBringUp_boot (c : Consts) (img : AppImage) (hc : c.MAX_TASKS < U32) (fuel : Nat)
    (heap : Heap) (cpu : CpuAnswers) (s0 : State)
    (h : osMainBringUp c img fuel heap cpu = some s0) : BootInv c s0 := by
  unfold osMainBringUp at h
  simp only [osInit, InitResult.toState, Bool.true_eq_false, if_false] at h
  generalize hst0 : (⟨evtQueueAlloc 512, evtQueueAlloc 256, slabAllocatorNew 32,
    List.replicate c.MAX_TASKS (Task.zero c), 1, heap, cpu, []⟩ : State) = st0 at h
  have htab : st0.mTasks = List.replicate c.MAX_TASKS (Task.zero c) := by rw [← hst0]
  have htid : st0.mNextTid = 1 := by rw [← hst0]
  obtain ⟨b1, b2⟩ := osStartTasksLoad_boot c img hc fuel st0 htab htid
  cases h1 : osStartTasks c img fuel st0 with
  | none => simp [h1] at h
  | some st1 =>
    simp only [h1, Option.some.injEq] at h
    have hb1 : BootInv c st1 := by
      unfold osStartTasks at h1
      cases h2 : osStartTasksLoad c img fuel st0 with
      | running s n => simp [h2] at h1
      | done s n =>
        rw [h2] at b1 b2
        simp only [h2, Option.map_eq_some'] at h1
        obtain ⟨r, hr, he⟩ := h1
        rw [← he]
        exact osStartTasksInitLoop_boot c _ s 0 n r b2 b1 hr
    rw [← h]
    exact bootInv_congr c st1 _ (osEnqueueEvt_frame st1 _ _ _ _).1 hb1

/-- The table the bring-up leaves satisfies the invariant of the table. -/
theorem bootInv_tableInv (c : Consts) (st : State) (h : BootInv c st) : TableInv c st := by
  obtain ⟨hlen, hall⟩ := h
  have hslot : ∀ j, j < c.MAX_TASKS → SlotInit c (st.task j) :=
    fun j hj => hall _ (task_mem st j (by rw [hlen]; exact hj))
  have hcount : ∀ j, (st.task j).subbedEvtCount = 0 := by
    intro j
    by_cases hj : j < c.MAX_TASKS
    · exact (hslot j hj).1
    · rw [task_default st j (by rw [hlen]; omega)]
      rfl
  refine ⟨?_, fun j _ => hcount j, ?_⟩
  · intro j hj
    have hjm := (osTaskFindByTid_some c st _ j hj).1
    obtain ⟨s1, s2, s3⟩ := hslot j hjm
    have hnil : subbedEvtList st j = [] := subbedEvtList_of_count_zero st j s1
    rcases s3 with ⟨_, t2, t3⟩ | ⟨t1, t2, t3, t4⟩
    · refine ⟨by rw [hlen]; exact hjm, Or.inl t2, by rw [s1]; exact Nat.zero_le _,
        by rw [t3]; exact Nat.zero_le _, by rw [t3]; decide, by rw [s1]; decide, ?_⟩
      rw [hnil]
      exact List.nodup_nil
    · have hs : (st.task j).tid - 1 < c.MAX_TASKS := by omega
      refine ⟨by rw [hlen]; exact hjm, Or.inr ?_, by rw [s1]; exact Nat.zero_le _, ?_,
        by rw [t4]; exact Nat.mod_lt _ (by decide), by rw [s1]; decide, ?_⟩
      · rw [t3]
        show (st.task j).tid - 1 < st.mTasks.length
        rw [hlen]
        exact hs
      · rw [t3, t4]
        show _ ≤ (st.task ((st.task j).tid - 1)).subbedEventsInt.length
        rw [(hslot _ hs).2.1]
        exact Nat.mod_le _ _
      · rw [hnil]
        exact List.nodup_nil
  · intro j1 j2 h1 h2 he
    have hj1 := (osTaskFindByTid_some c st _ j1 h1).1
    have hj2 := (osTaskFindByTid_some c st _ j2 h2).1
    have htid : (st.task j1).tid = (st.task j2).tid := by
      rcases (hslot j1 hj1).2.2 with ⟨a1, a2, _⟩ | ⟨a1, _, a3, _⟩
      · rcases (hslot j2 hj2).2.2 with ⟨b1, _, _⟩ | ⟨_, _, b3, _⟩
        · rw [a1, b1]
        · rw [a2, b3] at he
          cases he
      · rcases (hslot j2 hj2).2.2 with ⟨_, b2, _⟩ | ⟨b1, _, b3, _⟩
        · rw [a3, b2] at he
          cases he
        · rw [a3, b3] at he
          injection he with he
          omega
    unfold Findable at h1 h2
    rw [htid, h2] at h1
    injection h1 with h1
    exact h1.symm

theorem handlerReachable_tableInv (c : Consts) (s0 st : State) (h0 : TableInv c s0)
    (hr : HandlerReachable c s0 st) : TableInv c st := by
  induction hr with
  | start => exact h0
  | step st1 st2 _ hs ih => exact step_tableInv c st1 st2 hs ih
  | handle st1 evtType evtData _ ih => exact osInternalEvtHandle_tableInv c st1 _ _ ih

/-- C18. In every state reached from the state the bring-up leaves, by any
number of producer calls, enqueues, dequeues, iterations of the main loop and
direct calls of `osInternalEvtHandle` on any event and record, with any
answers of the heap, the subscription list of every slot (the first
`subbedEvtCount` entries of the array `subbedEvents` points to) has no
repeated entry. -/
theorem subscription_lists_stay_distinct (c : Consts) (img : AppImage) (fuel : Nat)
    (heap : Heap) (cpu : CpuAnswers) (s0 st : State) (hc : c.MAX_TASKS < U32)
    (h0 : osMainBringUp c img fuel heap cpu = some s0) (hr : HandlerReachable c s0 st) :
    ∀ j, (subbedEvtList st j).Nodup :=
  tableInv_nodup c st (handlerReachable_tableInv c s0 st
    (bootInv_tableInv c s0 (osMainBringUp_boot c img hc fuel heap cpu s0 h0)) hr)

/-- C18 at a concrete run: after the bring-up of two apps, task 1 subscribes
to 512, 513 and 514 (the third makes the list move to the heap) and
unsubscribes from 512; its list is then 514, 513. -/
theorem subscription_lists_stay_distinct_witness :
    osMainBringUp wConsts wImage 4 ⟨[], [true]⟩ ⟨[true, true], [true, true]⟩ = some wBoot
    ∧ (subbedEvtList (osMainIter wConsts (osEventUnsubscribe (osMainIter wConsts
        (osEventSubscribe (osMainIter wConsts (osEventSubscribe (osMainIter wConsts
          (osEventSubscribe (osMainIter wConsts wBoot) 1 512).2) 1 513).2) 1 514).2)
          1 512).2) 0).Nodup
    ∧ subbedEvtList (osMainIter wConsts (osEventUnsubscribe (osMainIter wConsts
        (osEventSubscribe (osMainIter wConsts (osEventSubscribe (osMainIter wConsts
          (osEventSubscribe (osMainIter wConsts wBoot) 1 512).2) 1 513).2) 1 514).2)
          1 512).2) 0 = [514, 513] :=
  ⟨by decide,
    subscription_lists_stay_distinct wConsts wImage 4 ⟨[], [true]⟩ ⟨[true, true], [true, true]⟩
      wBoot _ (by decide) (by decide)
      (.step _ _ (.step _ _ (.step _ _ (.step _ _ (.step _ _ (.step _ _ (.step _ _ (.step _ _
        (.step _ _ .start (.iter _)) (.subscribe _ 1 512)) (.iter _)) (.subscribe _ 1 513))
        (.iter _)) (.subscribe _ 1 514)) (.iter _)) (.unsubscribe _ 1 512)) (.iter _)) 0,
    by decide⟩

theorem tid_setTask (st : State) (k j : Nat) (t : Task) (h : t.tid = (st.task k).tid) :
    ((st.setTask k t).task j).tid = (st.task j).tid := by
  rw [task_setTask]
  split
  · rename_i hj
    rw [h, hj.1]
  · rfl

theorem evtAppend_tid (st : State) (k evt j : Nat) :
    ((evtAppend st k evt).task j).tid = (st.task j).tid := by
  obtain ⟨_, w⟩ := sameTaskFields_evtWrite st (st.task k).subbedEvents
    (st.task k).subbedEvtCount evt
  unfold evtAppend
  exact (tid_setTask (evtWrite st (st.task k).subbedEvents (st.task k).subbedEvtCount evt) k j
    { (evtWrite st (st.task k).subbedEvents (st.task k).subbedEvtCount evt).task k with
      subbedEvtCount := (((evtWrite st (st.task k).subbedEvents (st.task k).subbedEvtCount
        evt).task k).subbedEvtCount + 1) % U16 } rfl).trans (w j).1

theorem evtListGrow_tid (st : State) (k j : Nat) :
    ((evtListGrow st k).task j).tid = (st.task j).tid := by
  unfold evtListGrow
  simp only []
  split
  · rfl
  · rename_i a _
    have h := evtListMove_mTasks
      (({ st with heap := (heapAlloc st.heap
          (4 * (((st.task k).subbedEvtListSz * 3 + 1) / 2))).2 } : State).call
        (.heapAlloc (4 * (((st.task k).subbedEvtListSz * 3 + 1) / 2))
          (heapAlloc st.heap (4 * (((st.task k).subbedEvtListSz * 3 + 1) / 2))).1))
      k (((st.task k).subbedEvtListSz * 3 + 1) / 2) a
    have e := tid_setTask st k j { st.task k with
      subbedEvents := .heap a,
      subbedEvtListSz := ((st.task k).subbedEvtListSz * 3 + 1) / 2 % U16 } rfl
    simp only [State.task, State.setTask] at e
    simp only [State.task] at h ⊢
    rw [h]
    exact e

/-! ### Subscribing until the capacity field overflows -/

theorem taskOk_congr (st st2 : State) (k : Nat) (h1 : st2.mTasks = st.mTasks)
    (h2 : st2.heap.chunks = st.heap.chunks) (h : TaskOk st k) : TaskOk st2 k := by
  obtain ⟨a1, a2, a3, a4, a5, a6⟩ := h
  have ht : st2.task k = st.task k := task_congr st st2 k h1
  have hb := evtBuf_congr st st2 (st.task k).subbedEvents h1 h2
  have hp : PtrOk st2 (st.task k).subbedEvents := by
    rcases ptrNullOk_congr st st2 _ h1 h2 (Or.inr a2) with hp | hp
    · rw [hp] at a2
      exact absurd a2 (by simp [PtrOk])
    · exact hp
  refine ⟨by rw [h1]; exact a1, by rw [ht]; exact hp, by rw [ht]; exact a3,
    by rw [ht, hb]; exact a4, by rw [ht]; exact a5, ?_⟩
  rw [subbedEvtList_eq_of_buf st st2 k (by rw [ht]) (by rw [ht]) hb]
  exact a6

theorem heap_avail_evtWrite (st : State) (p : EvtPtr) (i v : Nat) :
    (evtWrite st p i v).heap.avail = st.heap.avail := by
  cases p <;> rfl

theorem heap_avail_evtAppend (st : State) (k evt : Nat) :
    (evtAppend st k evt).heap.avail = st.heap.avail := by
  unfold evtAppend
  exact heap_avail_evtWrite st _ _ _

theorem evtSubAt_full (st : State) (k evt : Nat)
    (h : (st.task k).subbedEvtListSz = (st.task k).subbedEvtCount) :
    evtSubAt st k evt
      = if ((evtListGrow st k).task k).subbedEvtListSz
            > ((evtListGrow st k).task k).subbedEvtCount then
          evtAppend (evtListGrow st k) k evt
        else evtListGrow st k := by
  unfold evtSubAt
  simp only []
  rw [if_pos h]

theorem evtSubAt_room (st : State) (k evt : Nat)
    (h : (st.task k).subbedEvtCount < (st.task k).subbedEvtListSz) :
    evtSubAt st k evt = evtAppend st k evt := by
  have hne : ¬ (st.task k).subbedEvtListSz = (st.task k).subbedEvtCount := by omega
  unfold evtSubAt
  simp only [hne, if_false]
  exact if_pos h

/-- The subscribe branch changes no tid. -/
theorem evtSubAt_tid (st : State) (k evt j : Nat) :
    ((evtSubAt st k evt).task j).tid = (st.task j).tid := by
  by_cases hfull : (st.task k).subbedEvtListSz = (st.task k).subbedEvtCount
  · rw [evtSubAt_full st k evt hfull]
    split
    · rw [evtAppend_tid, evtListGrow_tid]
    · exact evtListGrow_tid st k j
  · unfold evtSubAt
    simp only [hfull, if_false]
    split
    · exact evtAppend_tid st k evt j
    · rfl

/-- The subscribe branch on a well-formed slot of capacity at least 1, for an
event the list does not hold, when the heap grants the allocation a full list
asks for: either the event joins the list, the slot staying well formed, or
the list was full at a capacity whose enlargement does not fit in 16 bits,
and the slot is left with a capacity below the old one and below its count. -/
theorem evtSubAt_cases (st : State) (k evt : Nat) (hok : TaskOk st k)
    (hpos : 1 ≤ (st.task k).subbedEvtListSz)
    (hnew : evt ∉ subbedEvtList st k)
    (hav : (st.task k).subbedEvtListSz = (st.task k).subbedEvtCount →
      ∃ rest, st.heap.avail = true :: rest) :
    (TaskOk (evtSubAt st k evt) k
      ∧ ((evtSubAt st k evt).task k).subbedEvtCount = (st.task k).subbedEvtCount + 1
      ∧ subbedEvtList (evtSubAt st k evt) k = subbedEvtList st k ++ [evt]
      ∧ (st.task k).subbedEvtListSz ≤ ((evtSubAt st k evt).task k).subbedEvtListSz
      ∧ (∀ j, ((evtSubAt st k evt).task j).tid = (st.task j).tid)
      ∧ ((evtSubAt st k evt).heap.avail = st.heap.avail
          ∨ st.heap.avail = true :: (evtSubAt st k evt).heap.avail))
    ∨ (((evtSubAt st k evt).task k).subbedEvtListSz < (st.task k).subbedEvtListSz
      ∧ ((evtSubAt st k evt).task k).subbedEvtListSz
          < ((evtSubAt st k evt).task k).subbedEvtCount) := by
  have hU : U16 = 65536 := rfl
  by_cases hfull : (st.task k).subbedEvtListSz = (st.task k).subbedEvtCount
  · obtain ⟨rest, hrest⟩ := hav hfull
    rw [evtSubAt_full st k evt hfull]
    by_cases hsz : ((st.task k).subbedEvtListSz * 3 + 1) / 2 < U16
    · obtain ⟨g1, g2, g3, g4, _, _, g7, g8⟩ := evtListGrow_spec st k rest hok hrest hsz
      have hroom : ((evtListGrow st k).task k).subbedEvtListSz
          > ((evtListGrow st k).task k).subbedEvtCount := by
        rw [g3, g4]
        omega
      rw [if_pos hroom]
      obtain ⟨a1, a2, a3, a4, _, a6⟩ := evtAppend_spec (evtListGrow st k) k evt g1 hroom
        (by rw [g2]; exact hnew)
      refine Or.inl ⟨a1, by rw [a3, g3], by rw [a2, g2], by rw [a4, g4]; omega,
        fun j => by rw [(a6 j).1, (g8 j).1], Or.inr ?_⟩
      rw [heap_avail_evtAppend, g7]
      exact hrest
    · obtain ⟨h1, hp, h3, h4, h5, h6⟩ := hok
      obtain ⟨g1, _⟩ := evtListGrow_gen st k rest h1 (Or.inr hp) hrest
      have hcap : ((evtListGrow st k).task k).subbedEvtListSz
          = ((st.task k).subbedEvtListSz * 3 + 1) / 2 % U16 := by
        rw [g1]
      have hcnt : ((evtListGrow st k).task k).subbedEvtCount = (st.task k).subbedEvtCount := by
        rw [g1]
      have hmod : ((st.task k).subbedEvtListSz * 3 + 1) / 2 % U16
          = ((st.task k).subbedEvtListSz * 3 + 1) / 2 - U16 := by
        have hlt2 : ((st.task k).subbedEvtListSz * 3 + 1) / 2 - U16 < U16 := by
          rw [hU] at h5 ⊢
          omega
        rw [Nat.mod_eq_sub_mod (by omega), Nat.mod_eq_of_lt hlt2]
      have hlt : ((st.task k).subbedEvtListSz * 3 + 1) / 2 % U16 < (st.task k).subbedEvtListSz := by
        rw [hmod]
        rw [hU] at h5 ⊢
        omega
      have hno : ¬ ((evtListGrow st k).task k).subbedEvtListSz
          > ((evtListGrow st k).task k).subbedEvtCount := by
        rw [hcap, hcnt]
        omega
      rw [if_neg hno]
      exact Or.inr ⟨by rw [hcap]; exact hlt, by rw [hcap, hcnt]; omega⟩
  · have hroom : (st.task k).subbedEvtCount < (st.task k).subbedEvtListSz := by
      have := hok.2.2.1
      omega
    rw [evtSubAt_room st k evt hroom]
    obtain ⟨a1, a2, a3, a4, _, a6⟩ := evtAppend_spec st k evt hok hroom hnew
    exact Or.inl ⟨a1, a3, a2, by rw [a4], fun j => (a6 j).1,
      Or.inl (heap_avail_evtAppend st k evt)⟩

/-- A call of `osEventSubscribe` on an empty internal queue with a free slab
record, followed by one iteration of the main loop, for an event the list of
the task does not hold: the iteration runs the subscribe branch on the table
and the heap as they were, and leaves the queue and the set of records in use
as they were. -/
theorem subscribe_iter (c : Consts) (st : State) (tid evt k : Nat)
    (hthr : EVT_SUBSCRIBE_TO_EVT < c.EVT_NO_FIRST_USER_EVENT)
    (hq : st.mEvtsInternal.evts = []) (hsz : 0 < st.mEvtsInternal.size)
    (hf : firstFree st.mDeferedActionsSlab.used = some 0)
    (hit : 0 < st.mDeferedActionsSlab.items.length)
    (hk : osTaskFindByTid c st tid = some k) (hnew : evt ∉ subbedEvtList st k) :
    ∃ s : State, s.mTasks = st.mTasks ∧ s.heap = st.heap
      ∧ (osMainIter c (osEventSubscribe st tid evt).2).mTasks = (evtSubAt s k evt).mTasks
      ∧ (osMainIter c (osEventSubscribe st tid evt).2).heap = (evtSubAt s k evt).heap
      ∧ (osMainIter c (osEventSubscribe st tid evt).2).mEvtsInternal = st.mEvtsInternal
      ∧ (osMainIter c (osEventSubscribe st tid evt).2).mDeferedActionsSlab.used
          = st.mDeferedActionsSlab.used
      ∧ (osMainIter c (osEventSubscribe st tid evt).2).mDeferedActionsSlab.items.length
          = st.mDeferedActionsSlab.items.length := by
  obtain ⟨_, hfree, _⟩ := firstFree_some _ _ hf
  have hroom : st.mEvtsInternal.evts.length < st.mEvtsInternal.size := by
    rw [hq]
    exact hsz
  obtain ⟨s1, hs1, e1, e2, e3, e4, e5⟩ : ∃ s1 : State, (osEventSubscribe st tid evt).2 = s1
      ∧ s1.mTasks = st.mTasks ∧ s1.heap = st.heap
      ∧ s1.mEvtsInternal = ⟨st.mEvtsInternal.size,
          [⟨EVT_SUBSCRIBE_TO_EVT, 0, .osDeferredActionFreeF⟩]⟩
      ∧ s1.mDeferedActionsSlab.used = st.mDeferedActionsSlab.used.set 0 true
      ∧ s1.mDeferedActionsSlab.items = st.mDeferedActionsSlab.items.set 0
          { st.mDeferedActionsSlab.items.getD 0 default with evtSub := ⟨tid, evt⟩ } := by
    refine ⟨_, rfl, ?_⟩
    rw [osEventSubscribe_produce, produce_some st _ _ 0 hf]
    have := osEnqueueDeferred_room ({ st with mDeferedActionsSlab :=
        ⟨st.mDeferedActionsSlab.used.set 0 true,
          st.mDeferedActionsSlab.items.set 0
            { st.mDeferedActionsSlab.items.getD 0 default with evtSub := ⟨tid, evt⟩ }⟩ } : State)
      EVT_SUBSCRIBE_TO_EVT 0 hroom
    rw [this]
    refine ⟨rfl, rfl, ?_, rfl, rfl⟩
    simp only [hq, List.nil_append]
  rw [hs1]
  have hdq : evtQueueDequeue s1.mEvtsInternal
      = some (⟨EVT_SUBSCRIBE_TO_EVT, 0, .osDeferredActionFreeF⟩,
          { s1.mEvtsInternal with evts := [] }) :=
    evtQueueDequeue_cons s1.mEvtsInternal _ _ (by rw [e3])
  generalize hs : ({ s1 with mEvtsInternal := { s1.mEvtsInternal with evts := [] } } : State) = s
  have m1 : s.mTasks = st.mTasks := by rw [← hs]; exact e1
  have m2 : s.heap = st.heap := by rw [← hs]; exact e2
  have m3 : s.mEvtsInternal = st.mEvtsInternal := by
    rw [← hs]
    simp only [e3]
    cases hqq : st.mEvtsInternal with
    | mk size evts =>
      rw [hqq] at hq
      simp only at hq
      rw [hq]
  have m4 : s.mDeferedActionsSlab = s1.mDeferedActionsSlab := by rw [← hs]
  have hrec : (s.mDeferedActionsSlab.deref 0).evtSub = ⟨tid, evt⟩ := by
    rw [m4]
    simp only [SlabAllocator.deref, e5, List.getD_eq_getElem?_getD]
    rw [List.getElem?_set_self hit]
    rfl
  have hks : osTaskFindByTid c s tid = some k := by
    rw [osTaskFindByTid_congr c st s tid (fun j => by rw [task_congr st s j m1])]
    exact hk
  have hnews : evt ∉ subbedEvtList s k := by
    rw [subbedEvtList_congr st s k m1 m2]
    exact hnew
  have hhandled : osMainHandled c s1 ⟨EVT_SUBSCRIBE_TO_EVT, 0, .osDeferredActionFreeF⟩
      { s1.mEvtsInternal with evts := [] } = evtSubAt s k evt := by
    rw [osMainHandled, if_pos hthr, hs, osInternalEvtHandle_sub_eq c s 0 tid evt k hrec hks,
      if_pos ((subbedEvtScan_list s k evt).1.2 hnews)]
  rw [osMainIter_eq c s1 _ _ hdq, if_pos (by decide), hhandled]
  obtain ⟨f1, f2, _, f4⟩ := evtFreeCall_frame (evtSubAt s k evt) .osDeferredActionFreeF 0
  have hqs := qs_evtSubAt s k evt
  simp only [State.qs, Prod.mk.injEq] at hqs
  refine ⟨s, m1, m2, f1, f4, by rw [f2, hqs.1, m3], ?_, ?_⟩
  · show (slabAllocatorFree (evtSubAt s k evt).mDeferedActionsSlab 0).used = _
    rw [hqs.2.2, m4]
    simp only [slabAllocatorFree, e4]
    exact set_set_of_getD _ _ hfree
  · rw [evtFreeCall_items, hqs.2.2, m4, e5, List.length_set]

theorem runInv_step (c : Consts) (tid k n : Nat) (st : State)
    (hthr : EVT_SUBSCRIBE_TO_EVT < c.EVT_NO_FIRST_USER_EVENT) (hn : n < 65536)
    (h : RunInv c tid k n st) :
    RunInv c tid k (n + 1) (osMainIter c (osEventSubscribe st tid (1000 + n)).2)
    ∨ (((osMainIter c (osEventSubscribe st tid (1000 + n)).2).task k).subbedEvtListSz
          < (st.task k).subbedEvtListSz
      ∧ ((osMainIter c (osEventSubscribe st tid (1000 + n)).2).task k).subbedEvtListSz
          < ((osMainIter c (osEventSubscribe st tid (1000 + n)).2).task k).subbedEvtCount
      ∧ osTaskFindByTid c (osMainIter c (osEventSubscribe st tid (1000 + n)).2) tid = some k) := by
  obtain ⟨j1, j2, j3, j4, j5, j6, j7, j8, j9, m, j10, j11⟩ := h
  have hnew : 1000 + n ∉ subbedEvtList st k := fun hm => absurd (j9 _ hm) (by omega)
  obtain ⟨s, m1, m2, r1, r2, r3, r4, r5⟩ := subscribe_iter c st tid (1000 + n) k hthr j1 j2 j3 j4
    j5 hnew
  generalize osMainIter c (osEventSubscribe st tid (1000 + n)).2 = st2 at r1 r2 r3 r4 r5 ⊢
  have hts : ∀ j, s.task j = st.task j := fun j => task_congr st s j m1
  have hoks : TaskOk s k := taskOk_congr st s k m1 (by rw [m2]) j6
  have hlists : subbedEvtList s k = subbedEvtList st k := subbedEvtList_congr st s k m1 m2
  have hm : 1 ≤ m := by omega
  have hav : s.heap.avail = true :: List.replicate (m - 1) true := by
    rw [m2, j10]
    obtain ⟨m0, rfl⟩ : ∃ m0, m = m0 + 1 := ⟨m - 1, by omega⟩
    rfl
  have ht2 : ∀ j, st2.task j = (evtSubAt s k (1000 + n)).task j :=
    fun j => task_congr _ st2 j r1
  rcases evtSubAt_cases s k (1000 + n) hoks (by rw [hts]; exact j7) (by rw [hlists]; exact hnew)
    (fun _ => ⟨_, hav⟩) with ⟨a1, a2, a3, a4, a5, a6⟩ | ⟨b1, b2⟩
  · refine Or.inl ⟨by rw [r3]; exact j1, by rw [r3]; exact j2, by rw [r4]; exact j3,
      by rw [r5]; exact j4, ?_, taskOk_congr _ st2 k r1 (by rw [r2]) a1, ?_, ?_, ?_, ?_⟩
    · rw [osTaskFindByTid_congr c st st2 tid (fun j => by rw [ht2, a5, hts])]
      exact j5
    · rw [ht2]
      rw [hts] at a4
      omega
    · rw [ht2, a2, hts, j8]
    · intro x hx
      rw [subbedEvtList_congr _ st2 k r1 r2, a3, hlists, List.mem_append] at hx
      rcases hx with hx | hx
      · have := j9 x hx
        omega
      · simp only [List.mem_singleton] at hx
        omega
    · rcases a6 with a6 | a6
      · exact ⟨m, by rw [r2, a6, m2, j10], by omega⟩
      · refine ⟨m - 1, ?_, by omega⟩
        rw [hav] at a6
        injection a6 with _ a6
        rw [r2, ← a6]
  · refine Or.inr ⟨by rw [ht2, ← hts]; exact b1, by rw [ht2]; exact b2, ?_⟩
    rw [osTaskFindByTid_congr c st st2 tid (fun j => by rw [ht2, evtSubAt_tid, hts])]
    exact j5

theorem subscribeRun_reachable (c : Consts) (s0 st : State) (tid n : Nat)
    (h : Reachable c s0 st) : Reachable c s0 (subscribeRun c tid n st) := by
  induction n with
  | zero => exact h
  | succ n ih =>
    exact Reachable.step _ _ (Reachable.step _ _ ih (Step.subscribe _ tid (1000 + n)))
      (Step.iter _)

/-- Subscribing to new events one at a time, with a heap that grants every
allocation, reaches a subscribe that leaves the capacity of the slot below the
capacity it had and below the count. -/
theorem subscribeRun_overflow (c : Consts) (tid k : Nat) (st0 : State)
    (hthr : EVT_SUBSCRIBE_TO_EVT < c.EVT_NO_FIRST_USER_EVENT) (h0 : RunInv c tid k 0 st0) :
    ∃ n, n < 65536 ∧ RunInv c tid k n (subscribeRun c tid n st0)
      ∧ ((subscribeRun c tid (n + 1) st0).task k).subbedEvtListSz
          < ((subscribeRun c tid n st0).task k).subbedEvtListSz
      ∧ ((subscribeRun c tid (n + 1) st0).task k).subbedEvtListSz
          < ((subscribeRun c tid (n + 1) st0).task k).subbedEvtCount
      ∧ osTaskFindByTid c (subscribeRun c tid (n + 1) st0) tid = some k := by
  have key : ∀ N, N ≤ 65536 →
      (∃ n, n < N ∧ RunInv c tid k n (subscribeRun c tid n st0)
        ∧ ((subscribeRun c tid (n + 1) st0).task k).subbedEvtListSz
            < ((subscribeRun c tid n st0).task k).subbedEvtListSz
        ∧ ((subscribeRun c tid (n + 1) st0).task k).subbedEvtListSz
            < ((subscribeRun c tid (n + 1) st0).task k).subbedEvtCount
        ∧ osTaskFindByTid c (subscribeRun c tid (n + 1) st0) tid = some k)
      ∨ RunInv c tid k N (subscribeRun c tid N st0) := by
    intro N
    induction N with
    | zero => exact fun _ => Or.inr h0
    | succ N ih =>
      intro hN
      rcases ih (by omega) with ⟨n, hn, hr⟩ | hinv
      · exact Or.inl ⟨n, by omega, hr⟩
      · rcases runInv_step c tid k N _ hthr (by omega) hinv with h1 | h1
        · exact Or.inr h1
        · exact Or.inl ⟨N, by omega, hinv, h1⟩
  rcases key 65536 (le_refl _) with ⟨n, hn, hr⟩ | hinv
  · exact ⟨n, hn, hr⟩
  · exfalso
    obtain ⟨_, _, _, _, _, hok, _, hcnt, _⟩ := hinv
    have h1 := hok.2.2.1
    have h2 := hok.2.2.2.2.1
    have hU : U16 = 65536 := rfl
    rw [hU] at h2
    omega

theorem wBootBig_runInv : RunInv wConsts 1 0 0 (osMainIter wConsts wBootBig) := by
  refine ⟨by decide, by decide, by decide, by decide, by decide, ?_, by decide, by decide, ?_,
    65536, rfl, by omega⟩
  · refine ⟨by decide, ?_, by decide, by decide, by decide, by decide⟩
    show 0 < 3
    decide
  · intro x hx
    have : subbedEvtList (osMainIter wConsts wBootBig) 0 = [] := by decide
    rw [this] at hx
    cases hx

/-- C17 at a failing input. Two apps are brought up with a heap that grants
every allocation; task 1, in slot 0, then subscribes to the events 1000, 1001,
... one at a time, each subscribe handled by the next iteration of the main
loop. The run reaches a state in which slot 0 is well formed (count within
capacity) and whose next subscribe leaves the slot with a capacity below the
one it had and below its count. -/
theorem capacity_drops_below_count :
    osMainBringUp wConsts wImage 4 ⟨[], List.replicate 65536 true⟩ ⟨[true, true], [true, true]⟩
      = some wBootBig
    ∧ ∃ n, n < 65536
      ∧ Reachable wConsts wBootBig (subscribeRun wConsts 1 n (osMainIter wConsts wBootBig))
      ∧ Reachable wConsts wBootBig (subscribeRun wConsts 1 (n + 1) (osMainIter wConsts wBootBig))
      ∧ TaskOk (subscribeRun wConsts 1 n (osMainIter wConsts wBootBig)) 0
      ∧ ((subscribeRun wConsts 1 n (osMainIter wConsts wBootBig)).task 0).subbedEvtCount = n
      ∧ ((subscribeRun wConsts 1 (n + 1) (osMainIter wConsts wBootBig)).task 0).subbedEvtListSz
          < ((subscribeRun wConsts 1 n (osMainIter wConsts wBootBig)).task 0).subbedEvtListSz
      ∧ ((subscribeRun wConsts 1 (n + 1) (osMainIter wConsts wBootBig)).task 0).subbedEvtListSz
          < ((subscribeRun wConsts 1 (n + 1) (osMainIter wConsts wBootBig)).task 0).subbedEvtCount
      ∧ osTaskFindByTid wConsts (subscribeRun wConsts 1 (n + 1) (osMainIter wConsts wBootBig)) 1
          = some 0 := by
  refine ⟨rfl, ?_⟩
  obtain ⟨n, hn, hinv, h1, h2, h3⟩ := subscribeRun_overflow wConsts 1 0 _ (by decide)
    wBootBig_runInv
  have hr : Reachable wConsts wBootBig (osMainIter wConsts wBootBig) :=
    Reachable.step _ _ Reachable.start (Step.iter _)
  exact ⟨n, hn, subscribeRun_reachable _ _ _ 1 n hr, subscribeRun_reachable _ _ _ 1 (n + 1) hr,
    hinv.2.2.2.2.2.1, hinv.2.2.2.2.2.2.2.1, h1, h2, h3⟩

end Seos
